import Mathlib

/-!
# Xaya name registry: validity rules and the name transaction validator

A shallow embedding of `src/names/main.cpp` (`IsNameValid`, `IsValueValid`,
`CheckNameTransaction`, `ApplyNameTransaction`, `CNameTxUndo`) together with
the properties of the specification that concern them.

Conventions of the embedding:

* a byte is a natural number, a byte string (`valtype`, `CScript`) a list of them;
  every comparison the code makes on bytes is a comparison of their numeric values;
* a validator that returns `false` after `state.Invalid (...)` is a function into
  `Verdict`, whose `invalid` case carries the `ValidationInvalidReason` and the
  reject-reason string set on the state (the reject code is `REJECT_INVALID` on
  every path and the debug message is free text, so neither is carried);
* a failed `assert` is the verdict `assertFailed` of a validator and the result
  `none` of `ApplyNameTransaction`;
* the coin and name state is a pair of lookups, `GetCoin` and `GetName`; `SetName`
  and `DeleteName`, whose code lies outside `src/`, change the lookup of one name;
* the helpers whose code lies outside `src/` (UTF-8 validation, the JSON reader,
  the name-script decoder, the consensus rule object) are parameters of the
  functions that call them; the UTF-8 check and the JSON reader modelled from
  the specification are the arguments used for concrete inputs.
-/

namespace Xaya

/-! ## Data model -/

/-- A byte string, `std::vector<unsigned char>`. -/
abbrev valtype := List Nat

/-- A script is the byte string of its serialisation. -/
abbrev CScript := List Nat

/-- An amount of coins, `int64_t`. -/
abbrev CAmount := Int

/-- The constant `MAX_VALUE_LENGTH` of `names/main.cpp`. -/
def MAX_VALUE_LENGTH : Nat := 2048

/-- The constant `MAX_NAME_LENGTH` of `names/main.cpp`. -/
def MAX_NAME_LENGTH : Nat := 256

/-- The two values of `ValidationInvalidReason` that `names/main.cpp` uses. -/
inductive ValidationInvalidReason where
  | CONSENSUS
  | TX_MISSING_INPUTS
deriving DecidableEq, Repr

/-- The result of a validator: `true`, `false` with the state set by
`state.Invalid (reason, false, REJECT_INVALID, strRejectReason, ...)`, or a
failed assertion. -/
inductive Verdict where
  | valid
  | invalid (reason : ValidationInvalidReason) (strRejectReason : String)
  | assertFailed
deriving DecidableEq, Repr

/-- The verdict of `state.Invalid (ValidationInvalidReason::CONSENSUS, false,
REJECT_INVALID, code, ...)`. -/
def consensusInvalid (code : String) : Verdict :=
  .invalid .CONSENSUS code

/-- The verdict is a rejection: `false` was returned with the state set. -/
def Verdict.isRejected : Verdict → Bool
  | .invalid _ _ => true
  | _ => false

/-! ## `IsNameValid` -/

/-- The outcome of the namespace loop of `IsNameValid`: an early `return`, or
the value of `foundNamespace` when the loop is left. -/
inductive NamespaceScan where
  | returned (v : Verdict)
  | done (foundNamespace : Bool)
deriving DecidableEq, Repr

/-- The loop `for (size_t i = 0; i < name.size (); ++i)` of `IsNameValid`, run
from index `i` on the bytes `name[i..]`. -/
def namespaceLoop : Nat → List Nat → NamespaceScan
  | _, [] => .done false
  | i, c :: rest =>
    if c = 47 then
      if i = 0 then .returned (consensusInvalid "tx-name-empty-namespace")
      else .done true
    else if c < 97 ∨ c > 122 then
      .returned (consensusInvalid "tx-name-invalid-namespace")
    else namespaceLoop (i + 1) rest

/-- The function `IsNameValid` of `names/main.cpp`. `IsValidUtf8String` is the
helper of `names/encoding.h`, whose code is not under `src/`. -/
def IsNameValid (IsValidUtf8String : valtype → Bool) (name : valtype) : Verdict :=
  if name.length > MAX_NAME_LENGTH then consensusInvalid "tx-name-too-long"
  else
    match namespaceLoop 0 name with
    | .returned v => v
    | .done foundNamespace =>
      if !foundNamespace then consensusInvalid "tx-name-no-namespace"
      else if name.any (fun c => decide (c < 0x20)) then
        consensusInvalid "tx-name-unprintable-ascii"
      else if !IsValidUtf8String name then consensusInvalid "tx-name-invalid-utf8"
      else .valid

/-- Modelled from the spec: the scan behind `IsValidUtf8String` (not under
`src/`) of a byte string as UTF-8: `pending` continuation bytes of the
current sequence are still due, and the next of them must lie in `lo..hi`. -/
def utf8Scan : Nat → Nat → Nat → List Nat → Bool
  | 0, _, _, [] => true
  | _ + 1, _, _, [] => false
  | 0, _, _, b :: rest =>
    if b < 0x80 then utf8Scan 0 0x80 0xBF rest
    else if 0xC2 ≤ b ∧ b ≤ 0xDF then utf8Scan 1 0x80 0xBF rest
    else if b = 0xE0 then utf8Scan 2 0xA0 0xBF rest
    else if b = 0xED then utf8Scan 2 0x80 0x9F rest
    else if 0xE1 ≤ b ∧ b ≤ 0xEF then utf8Scan 2 0x80 0xBF rest
    else if b = 0xF0 then utf8Scan 3 0x90 0xBF rest
    else if 0xF1 ≤ b ∧ b ≤ 0xF3 then utf8Scan 3 0x80 0xBF rest
    else if b = 0xF4 then utf8Scan 3 0x80 0x8F rest
    else false
  | pending + 1, lo, hi, b :: rest =>
    if lo ≤ b ∧ b ≤ hi then utf8Scan pending 0x80 0xBF rest else false

/-- Modelled from the spec: `IsValidUtf8String` of `names/encoding.h`, which is
not under `src/`. The spec only says that a name "must be valid UTF-8"; this is
well-formedness of a byte string as UTF-8 (sequences of one to four bytes, no
overlong form, no surrogate, nothing above U+10FFFF). -/
def IsValidUtf8String (str : valtype) : Bool :=
  utf8Scan 0 0x80 0xBF str

/-! ## Inputs and specification-side definitions for `IsNameValid` -/

/-- The name `p/alice` of the specification's scenario. -/
def name_p_alice : valtype := [112, 47, 97, 108, 105, 99, 101]

/-- The name `Alice` of the specification's scenario. -/
def name_Alice : valtype := [65, 108, 105, 99, 101]

/-- A lower-case ASCII letter `a`..`z`. -/
def isLowerAscii (c : Nat) : Bool :=
  decide (97 ≤ c ∧ c ≤ 122)

/-- Check (1) of the specification of `isNameValid`, the length: the reason
code of its failure, if it fails. -/
def nameLengthFailure (n : valtype) : Option String :=
  if n.length > 256 then some "tx-name-too-long" else none

/-- Check (2) of the specification of `isNameValid`, namespace presence and
format: the namespace is the longest prefix of lower-case letters; it must be
followed by `/` (otherwise the name has no namespace when it ends there, and an
invalid one when another byte follows) and must not be empty. -/
def nameNamespaceFailure (n : valtype) : Option String :=
  match n.dropWhile isLowerAscii with
  | [] => some "tx-name-no-namespace"
  | c :: _ =>
    if c ≠ 47 then some "tx-name-invalid-namespace"
    else if n.takeWhile isLowerAscii = [] then some "tx-name-empty-namespace"
    else none

/-- Check (3) of the specification of `isNameValid`, absence of control
characters (bytes below `0x20`). -/
def nameControlFailure (n : valtype) : Option String :=
  if ∃ b ∈ n, b < 0x20 then some "tx-name-unprintable-ascii" else none

/-- Check (4) of the specification of `isNameValid`, UTF-8 validity. -/
def nameUtf8Failure (utf8 : valtype → Bool) (n : valtype) : Option String :=
  if utf8 n = true then none else some "tx-name-invalid-utf8"

/-- The verdict of a list of checks run in order with short-circuiting: the
rejection of the first that fails. -/
def firstFailure : List (Option String) → Verdict
  | [] => .valid
  | some code :: _ => consensusInvalid code
  | none :: rest => firstFailure rest

/-- The reason codes that `IsNameValid` can report. -/
def nameRejectReasons : List String :=
  ["tx-name-too-long", "tx-name-empty-namespace", "tx-name-invalid-namespace",
   "tx-name-no-namespace", "tx-name-unprintable-ascii", "tx-name-invalid-utf8"]

/-- A name with upper-case letters, a second `/` and multi-byte UTF-8 after
the namespace `p`: `p/Alice/é€`. -/
def name_p_mixed : valtype :=
  [112, 47, 65, 108, 105, 99, 101, 47, 0xC3, 0xA9, 0xE2, 0x82, 0xAC]

/-- A name of 257 bytes that is well formed but for its length: `a/aaa...`. -/
def name_257 : valtype := 97 :: 47 :: List.replicate 255 97

/-- A name of exactly 256 bytes: `a/aaa...`. -/
def name_256 : valtype := 97 :: 47 :: List.replicate 254 97

/-- The name `/x`, whose namespace is empty. -/
def name_slash_x : valtype := [47, 120]

/-! ## `IsValueValid` -/

/-- Modelled from the spec: the JSON value that `UniValue::read` builds
(`univalue.h` is not under `src/`): a JSON text is an object, an array or a
scalar. Strings and numbers keep the bytes of their source text. -/
inductive UniValue where
  | VNULL
  | VBOOL (b : Bool)
  | VNUM (text : valtype)
  | VSTR (text : valtype)
  | VARR (items : List UniValue)
  | VOBJ (members : List (valtype × UniValue))

/-- Modelled from the spec: `UniValue::isObject`, true of a JSON object and of
neither an array nor a scalar. -/
def UniValue.isObject : UniValue → Bool
  | .VOBJ _ => true
  | _ => false

/-- The function `IsValueValid` of `names/main.cpp`. `read` is `UniValue::read`
applied to a fresh `UniValue`: the parsed value, or `none` when the text does
not parse as JSON. Its code is not under `src/`. -/
def IsValueValid (read : valtype → Option UniValue) (value : valtype) : Verdict :=
  if value.length > MAX_VALUE_LENGTH then consensusInvalid "tx-value-too-long"
  else
    match read value with
    | none => consensusInvalid "tx-value-invalid-json"
    | some jsonValue =>
      if !jsonValue.isObject then consensusInvalid "tx-value-no-json-object"
      else .valid

/-- Modelled from the spec: JSON white space for the reader `UniValue::read`
(not under `src/`): space, tab, line feed, carriage return. -/
def isJsonSpace (c : Nat) : Bool :=
  decide (c = 0x20 ∨ c = 0x09 ∨ c = 0x0A ∨ c = 0x0D)

/-- Modelled from the spec: a decimal digit `0`..`9` of a JSON number. -/
def isJsonDigit (c : Nat) : Bool :=
  decide (48 ≤ c ∧ c ≤ 57)

/-- Modelled from the spec: a hexadecimal digit of a JSON unicode escape. -/
def isJsonHex (c : Nat) : Bool :=
  isJsonDigit c || decide (97 ≤ c ∧ c ≤ 102) || decide (65 ≤ c ∧ c ≤ 70)

/-- Modelled from the spec: the text after leading JSON white space. -/
def skipJsonSpace (input : List Nat) : List Nat :=
  input.dropWhile isJsonSpace

/-- Modelled from the spec: the rest of a JSON string after its opening quote: the bytes up to the
closing quote (escapes kept as written) and the text after it. `acc` holds the
bytes read so far, last first. -/
def parseJsonString : List Nat → List Nat → Option (valtype × List Nat)
  | [], _ => none
  | c :: rest, acc =>
    if c = 0x22 then some (acc.reverse, rest)
    else if c = 0x5C then
      match rest with
      | [] => none
      | e :: rest1 =>
        if e = 0x22 ∨ e = 0x5C ∨ e = 0x2F ∨ e = 0x62 ∨ e = 0x66 ∨ e = 0x6E ∨ e = 0x72
            ∨ e = 0x74 then
          parseJsonString rest1 (e :: c :: acc)
        else if e = 0x75 then
          match rest1 with
          | h1 :: h2 :: h3 :: h4 :: rest2 =>
            if isJsonHex h1 && isJsonHex h2 && isJsonHex h3 && isJsonHex h4 then
              parseJsonString rest2 (h4 :: h3 :: h2 :: h1 :: e :: c :: acc)
            else none
          | _ => none
        else none
    else if c < 0x20 then none
    else parseJsonString rest (c :: acc)

/-- Modelled from the spec: a non-empty run of digits at the head of the text,
and what follows it. -/
def parseJsonDigits (input : List Nat) : Option (List Nat × List Nat) :=
  match input.takeWhile isJsonDigit with
  | [] => none
  | ds => some (ds, input.dropWhile isJsonDigit)

/-- Modelled from the spec: the integer part of a JSON number: `0`, or a digit
`1`..`9` and more digits. -/
def parseJsonInt (input : List Nat) : Option (List Nat × List Nat) :=
  match input with
  | [] => none
  | d :: rest =>
    if d = 48 then some ([d], rest)
    else if 49 ≤ d ∧ d ≤ 57 then
      some (d :: rest.takeWhile isJsonDigit, rest.dropWhile isJsonDigit)
    else none

/-- Modelled from the spec: the optional fraction of a JSON number: `.` and
digits. -/
def parseJsonFrac (input : List Nat) : Option (List Nat × List Nat) :=
  match input with
  | 46 :: rest => (parseJsonDigits rest).map (fun p => (46 :: p.1, p.2))
  | _ => some ([], input)

/-- Modelled from the spec: the optional exponent of a JSON number: `e` or `E`,
an optional sign, digits. -/
def parseJsonExp (input : List Nat) : Option (List Nat × List Nat) :=
  match input with
  | [] => some ([], [])
  | e :: rest =>
    if e = 101 ∨ e = 69 then
      match rest with
      | [] => none
      | s :: rest1 =>
        if s = 43 ∨ s = 45 then
          (parseJsonDigits rest1).map (fun p => (e :: s :: p.1, p.2))
        else (parseJsonDigits rest).map (fun p => (e :: p.1, p.2))
    else some ([], input)

/-- Modelled from the spec: a JSON number at the head of the text: its source
text and what follows. -/
def parseJsonNumber (input : List Nat) : Option (valtype × List Nat) :=
  let signed : List Nat × List Nat :=
    match input with
    | 45 :: rest => ([45], rest)
    | _ => ([], input)
  match parseJsonInt signed.2 with
  | none => none
  | some (int, rest1) =>
    match parseJsonFrac rest1 with
    | none => none
    | some (frac, rest2) =>
      match parseJsonExp rest2 with
      | none => none
      | some (exp, rest3) => some (signed.1 ++ int ++ frac ++ exp, rest3)

/-- Modelled from the spec: what the JSON reader is reading: a value, the rest of an array after an
element, or the rest of an object after a member. -/
inductive JsonMode where
  | value
  | arrayRest (items : List UniValue)
  | objectRest (members : List (valtype × UniValue))

/-- Modelled from the spec: a member `"key" : value` of a JSON object at the
head of the text, the value being read by `parseValue`. -/
def parseJsonMember (parseValue : List Nat → Option (UniValue × List Nat))
    (input : List Nat) : Option ((valtype × UniValue) × List Nat) :=
  match skipJsonSpace input with
  | 0x22 :: rest =>
    match parseJsonString rest [] with
    | none => none
    | some (key, rest1) =>
      match skipJsonSpace rest1 with
      | 0x3A :: rest2 =>
        match parseValue rest2 with
        | none => none
        | some (v, rest3) => some ((key, v), rest3)
      | _ => none
  | _ => none

/-- Modelled from the spec: the JSON grammar behind `UniValue::read` (not under
`src/`) as a recursive-descent reader, with `fuel` bounding the depth of its
recursion: the value read in the given mode and the text after it. Every call
below a call at `fuel + 1` has consumed a byte, so the length of the text plus
one is fuel enough. -/
def parseJson : Nat → JsonMode → List Nat → Option (UniValue × List Nat)
  | 0, _, _ => none
  | fuel + 1, .value, input =>
    match skipJsonSpace input with
    | [] => none
    | c :: rest =>
      if c = 0x7B then
        match skipJsonSpace rest with
        | 0x7D :: rest1 => some (.VOBJ [], rest1)
        | _ =>
          match parseJsonMember (parseJson fuel .value) rest with
          | none => none
          | some (m, rest1) => parseJson fuel (.objectRest [m]) rest1
      else if c = 0x5B then
        match skipJsonSpace rest with
        | 0x5D :: rest1 => some (.VARR [], rest1)
        | _ =>
          match parseJson fuel .value rest with
          | none => none
          | some (v, rest1) => parseJson fuel (.arrayRest [v]) rest1
      else if c = 0x22 then
        (parseJsonString rest []).map (fun p => (.VSTR p.1, p.2))
      else if c = 45 ∨ isJsonDigit c = true then
        (parseJsonNumber (c :: rest)).map (fun p => (.VNUM p.1, p.2))
      else
        match c :: rest with
        | 116 :: 114 :: 117 :: 101 :: rest1 => some (.VBOOL true, rest1)
        | 102 :: 97 :: 108 :: 115 :: 101 :: rest1 => some (.VBOOL false, rest1)
        | 110 :: 117 :: 108 :: 108 :: rest1 => some (.VNULL, rest1)
        | _ => none
  | fuel + 1, .arrayRest items, input =>
    match skipJsonSpace input with
    | [] => none
    | c :: rest =>
      if c = 0x5D then some (.VARR items, rest)
      else if c = 0x2C then
        match parseJson fuel .value rest with
        | none => none
        | some (v, rest1) => parseJson fuel (.arrayRest (items ++ [v])) rest1
      else none
  | fuel + 1, .objectRest members, input =>
    match skipJsonSpace input with
    | [] => none
    | c :: rest =>
      if c = 0x7D then some (.VOBJ members, rest)
      else if c = 0x2C then
        match parseJsonMember (parseJson fuel .value) rest with
        | none => none
        | some (m, rest1) => parseJson fuel (.objectRest (members ++ [m])) rest1
      else none

/-- Modelled from the spec: `UniValue::read` of the JSON library, which is not
under `src/`. The spec only says that a value "must parse as JSON"; this reads
one JSON value (object, array, string, number, `true`, `false`, `null`) with
nothing but white space around it. -/
def UniValue.read (text : valtype) : Option UniValue :=
  match parseJson (text.length + 1) .value text with
  | none => none
  | some (v, rest) => if skipJsonSpace rest = [] then some v else none

/-- The value `hello` of the specification's scenario. -/
def value_hello : valtype := [104, 101, 108, 108, 111]

/-- The value `{"msg":"hi"}` of the specification's scenario. -/
def value_msg_hi : valtype :=
  [123, 34, 109, 115, 103, 34, 58, 34, 104, 105, 34, 125]

/-- The value `[1,2]`, a JSON array. -/
def value_array : valtype := [91, 49, 44, 50, 93]

/-- The value `42`, a JSON scalar. -/
def value_scalar : valtype := [52, 50]

/-- A value of 2049 bytes: `{}` followed by spaces, a JSON object but for its
length. -/
def value_2049 : valtype := 123 :: 125 :: List.replicate 2047 32

/-! ## Transactions, coins and the view -/

/-- An outpoint `COutPoint`: transaction hash and output index. -/
structure COutPoint where
  hash : Nat
  n : Nat
deriving DecidableEq, Repr, Inhabited

/-- A transaction input `CTxIn`; only its `prevout` is read by the name layer. -/
structure CTxIn where
  prevout : COutPoint
deriving DecidableEq, Repr, Inhabited

/-- A transaction output `CTxOut`. -/
structure CTxOut where
  nValue : CAmount
  scriptPubKey : CScript
deriving DecidableEq, Repr, Inhabited

/-- A transaction `CTransaction`; `hash` is the value of `GetHash ()`. -/
structure CTransaction where
  vin : List CTxIn
  vout : List CTxOut
  hash : Nat
deriving DecidableEq, Repr, Inhabited

/-- An unspent output `Coin` with the height at which it was created. -/
structure Coin where
  out : CTxOut
  nHeight : Nat
deriving DecidableEq, Repr, Inhabited

/-- Modelled from the spec: the mempool-height sentinel `MEMPOOL_HEIGHT` of
`txmempool.h`, which is not under `src/`; the height of a coin that is not yet
confirmed. -/
def MEMPOOL_HEIGHT : Nat := 0x7FFFFFFF

/-- Modelled from the spec: the kind of a name operation, the opcodes
`OP_NAME_REGISTER` and `OP_NAME_UPDATE` of `script/script.h`, which is not
under `src/`. -/
inductive NameOpcode where
  | OP_NAME_REGISTER
  | OP_NAME_UPDATE
deriving DecidableEq, Repr

/-- Modelled from the spec: a decoded name operation, what a `CNameScript`
(`script/names.h`, not under `src/`) holds when `isNameOp ()` is true: "a tagged
variant over REGISTER and UPDATE, carrying name, value, and the spendable script
it attaches to". -/
structure NameOperation where
  op : NameOpcode
  name : valtype
  value : valtype
  address : CScript
deriving DecidableEq, Repr

/-- Modelled from the spec: `CNameScript::isAnyUpdate` of `script/names.h`,
which is not under `src/`. Both kinds of operation write a Name Record when
applied, and `CheckNameTransaction` asserts it of its name output before it
tells REGISTER from UPDATE, so it is true of both. -/
def NameOperation.isAnyUpdate (nameOp : NameOperation) : Bool :=
  match nameOp.op with
  | .OP_NAME_REGISTER => true
  | .OP_NAME_UPDATE => true

/-- Modelled from the spec: the Name Record `CNameData` of `names/common.h`,
which is not under `src/`: the value, the height of the last update and the
outpoint that holds the registration. -/
structure CNameData where
  value : valtype
  nHeight : Nat
  prevout : COutPoint
deriving DecidableEq, Repr

/-- The read interface `CCoinsView` of the coin and name state: `GetCoin` and
`GetName` give `none` where the code returns `false`. -/
structure CCoinsView where
  GetCoin : COutPoint → Option Coin
  GetName : valtype → Option CNameData

/-- The collaborators of `CheckNameTransaction` whose code is not under `src/`:
the UTF-8 validator, the JSON reader, the decoder `CNameScript (script)` (`none`
for a script with `isNameOp ()` false) and the consensus rule
`params.rules->MinNameCoinAmount`. -/
structure Collaborators where
  IsValidUtf8String : valtype → Bool
  read : valtype → Option UniValue
  parseNameScript : CScript → Option NameOperation
  MinNameCoinAmount : Nat → CAmount

/-! ## `CheckNameTransaction` -/

/-- The variables `nameIn`, `nameOpIn` and `coinIn` of `CheckNameTransaction`,
which are assigned together; `nameIn == -1` is the absence of this record. -/
structure NameInput where
  nameIn : Nat
  nameOpIn : NameOperation
  coinIn : Coin
deriving DecidableEq, Repr

/-- The variables `nameOut` and `nameOpOut` of `CheckNameTransaction`, which
are assigned together; `nameOut == -1` is the absence of this record. -/
structure NameOutput where
  nameOut : Nat
  nameOpOut : NameOperation
deriving DecidableEq, Repr

/-- The outcome of the input loop: an early `return`, or the name input found. -/
inductive InputScan where
  | returned (v : Verdict)
  | done (nameIn : Option NameInput)
deriving DecidableEq, Repr

/-- The outcome of the output loop: an early `return`, or the name output found. -/
inductive OutputScan where
  | returned (v : Verdict)
  | done (nameOut : Option NameOutput)
deriving DecidableEq, Repr

/-- The loop over `tx.vin` of `CheckNameTransaction`, run from index `i` on the
inputs `tx.vin[i..]` with the name input found so far. -/
def scanInputs (parseNameScript : CScript → Option NameOperation) (view : CCoinsView) :
    List CTxIn → Nat → Option NameInput → InputScan
  | [], _, nameIn => .done nameIn
  | txin :: rest, i, nameIn =>
    match view.GetCoin txin.prevout with
    | none => .returned (.invalid .TX_MISSING_INPUTS "bad-txns-inputs-missingorspent")
    | some coin =>
      match parseNameScript coin.out.scriptPubKey with
      | some op =>
        if nameIn.isSome then .returned (consensusInvalid "tx-multiple-name-inputs")
        else scanInputs parseNameScript view rest (i + 1) (some ⟨i, op, coin⟩)
      | none => scanInputs parseNameScript view rest (i + 1) nameIn

/-- The loop over `tx.vout` of `CheckNameTransaction`, run from index `i` on the
outputs `tx.vout[i..]` with the name output found so far. -/
def scanOutputs (parseNameScript : CScript → Option NameOperation) :
    List CTxOut → Nat → Option NameOutput → OutputScan
  | [], _, nameOut => .done nameOut
  | txout :: rest, i, nameOut =>
    match parseNameScript txout.scriptPubKey with
    | some op =>
      if nameOut.isSome then .returned (consensusInvalid "tx-multiple-name-outputs")
      else scanOutputs parseNameScript rest (i + 1) (some ⟨i, op⟩)
    | none => scanOutputs parseNameScript rest (i + 1) nameOut

/-- The part of `CheckNameTransaction` after the name and the value have been
found valid: the rules of `NAME_UPDATE` against the name input and the name
database, then those of `NAME_REGISTER`. -/
def checkNameDatabase (tx : CTransaction) (view : CCoinsView)
    (nameIn : Option NameInput) (nameOpOut : NameOperation) : Verdict :=
  let name := nameOpOut.name
  if nameOpOut.op = .OP_NAME_UPDATE then
    match nameIn with
    | none => .assertFailed
    | some input =>
      if !input.nameOpIn.isAnyUpdate then consensusInvalid "tx-nameupdate-invalid-prev"
      else if name ≠ input.nameOpIn.name then
        consensusInvalid "tx-nameupdate-name-mismatch"
      else
        let inHeight := input.coinIn.nHeight
        if inHeight = MEMPOOL_HEIGHT then .valid
        else
          match view.GetName name with
          | none => consensusInvalid "tx-nameupdate-nonexistant"
          | some oldName =>
            if inHeight ≠ oldName.nHeight then .assertFailed
            else if (tx.vin.getD input.nameIn default).prevout ≠ oldName.prevout then
              .assertFailed
            else .valid
  else
    match view.GetName name with
    | some _ => consensusInvalid "tx-nameregister-existing-name"
    | none => .valid

/-- The tests of `CheckNameTransaction` on the presence of a name input: the
verdict of the `return` taken, if one is. A `NAME_REGISTER` must have no name
input; any other operation must have one. -/
def nameInputRule (nameIn : Option NameInput) (nameOpOut : NameOperation) :
    Option Verdict :=
  if nameOpOut.op = .OP_NAME_REGISTER then
    if nameIn.isSome then some (consensusInvalid "tx-nameregister-without-name-in")
    else none
  else if nameIn.isNone then some (consensusInvalid "tx-nameupdate-without-name-input")
  else none

/-- The function `CheckNameTransaction` of `names/main.cpp`. Indices are
natural numbers: a transaction has far fewer than `2^31` inputs and outputs, so
the `int` variables `nameIn` and `nameOut` hold them exactly. When the name
output is a `NAME_UPDATE` the name input is present from `nameInputRule` on, so
the `none` case of `checkNameDatabase` is never reached. -/
def CheckNameTransaction (ext : Collaborators) (tx : CTransaction) (nHeight : Nat)
    (view : CCoinsView) : Verdict :=
  match scanInputs ext.parseNameScript view tx.vin 0 none with
  | .returned v => v
  | .done nameIn =>
    match scanOutputs ext.parseNameScript tx.vout 0 none with
    | .returned v => v
    | .done none =>
      if nameIn.isSome then consensusInvalid " tx-name-in-no-name-out" else .valid
    | .done (some output) =>
      let nameOpOut := output.nameOpOut
      if (tx.vout.getD output.nameOut default).nValue < ext.MinNameCoinAmount nHeight then
        consensusInvalid "tx-name-greedy"
      else if !nameOpOut.isAnyUpdate then .assertFailed
      else
        match nameInputRule nameIn nameOpOut with
        | some v => v
        | none =>
          match IsNameValid ext.IsValidUtf8String nameOpOut.name with
          | .valid =>
            match IsValueValid ext.read nameOpOut.value with
            | .valid => checkNameDatabase tx view nameIn nameOpOut
            | v => v
          | v => v

/-! ## Specification-side notions for `CheckNameTransaction` -/

/-- An input whose coin exists in the view and carries a name-operation script. -/
def isNameInput (ext : Collaborators) (view : CCoinsView) (txin : CTxIn) : Bool :=
  match view.GetCoin txin.prevout with
  | some coin => (ext.parseNameScript coin.out.scriptPubKey).isSome
  | none => false

/-- An output whose script is a name operation. -/
def isNameOutput (ext : Collaborators) (txout : CTxOut) : Bool :=
  (ext.parseNameScript txout.scriptPubKey).isSome

/-- The number of inputs of the transaction whose coin carries a name operation. -/
def nameInputCount (ext : Collaborators) (view : CCoinsView) (tx : CTransaction) : Nat :=
  tx.vin.countP (isNameInput ext view)

/-- The number of outputs of the transaction that are name operations. -/
def nameOutputCount (ext : Collaborators) (tx : CTransaction) : Nat :=
  tx.vout.countP (isNameOutput ext)

/-- An input whose coin exists in the view. -/
def inputFound (view : CCoinsView) (txin : CTxIn) : Bool :=
  (view.GetCoin txin.prevout).isSome

/-- All input coins of the transaction exist in the view. -/
def allInputsFound (view : CCoinsView) (tx : CTransaction) : Bool :=
  tx.vin.all (inputFound view)

/-- The rejection for an input coin that is not in the view. -/
def missingInputs : Verdict :=
  .invalid .TX_MISSING_INPUTS "bad-txns-inputs-missingorspent"

/-! ## Concrete inputs for `CheckNameTransaction` -/

/-- A name-script decoder for the concrete transactions below: the one-byte
scripts `[1]` to `[4]` stand for name operations, every other script is no
name operation. -/
def exampleParseNameScript : CScript → Option NameOperation
  | [1] => some ⟨.OP_NAME_REGISTER, name_p_alice, value_msg_hi, []⟩
  | [2] => some ⟨.OP_NAME_UPDATE, name_p_alice, value_msg_hi, []⟩
  | [3] => some ⟨.OP_NAME_REGISTER, name_Alice, value_msg_hi, []⟩
  | [4] => some ⟨.OP_NAME_UPDATE, name_p_alice, value_hello, []⟩
  | _ => none

/-- Collaborators for the concrete transactions below: the UTF-8 check and the
JSON reader modelled from the spec, the decoder `exampleParseNameScript`, and a
floor of 1000000 for the amount of a name output at every height. -/
def exampleCollaborators : Collaborators :=
  ⟨IsValidUtf8String, UniValue.read, exampleParseNameScript, fun _ => 1000000⟩

/-- A view with a plain coin at outpoint `(100, 0)`, a confirmed name coin for
`p/alice` at `(101, 0)`, a second name coin at `(102, 0)`, and the Name Record
of `p/alice`. -/
def exampleView : CCoinsView where
  GetCoin := fun prevout =>
    if prevout = ⟨100, 0⟩ then some ⟨⟨5000000, [118, 169]⟩, 10⟩
    else if prevout = ⟨101, 0⟩ then some ⟨⟨1000000, [2]⟩, 20⟩
    else if prevout = ⟨102, 0⟩ then some ⟨⟨1000000, [1]⟩, 21⟩
    else none
  GetName := fun name =>
    if name = name_p_alice then some ⟨value_msg_hi, 20, ⟨101, 0⟩⟩ else none

/-- A plain transaction: it spends the plain coin into a plain output. -/
def tx_plain : CTransaction :=
  ⟨[⟨⟨100, 0⟩⟩], [⟨4000000, [118, 169]⟩], 7⟩

/-- A transaction that spends the name coin into a plain output. -/
def tx_spend_name : CTransaction :=
  ⟨[⟨⟨100, 0⟩⟩, ⟨⟨101, 0⟩⟩], [⟨4000000, [118, 169]⟩], 8⟩

/-- A transaction that spends two name coins. -/
def tx_two_name_inputs : CTransaction :=
  ⟨[⟨⟨101, 0⟩⟩, ⟨⟨102, 0⟩⟩], [⟨1000000, [2]⟩], 9⟩

/-- A transaction with two name outputs. -/
def tx_two_name_outputs : CTransaction :=
  ⟨[⟨⟨101, 0⟩⟩], [⟨1000000, [2]⟩, ⟨1000000, [1]⟩], 10⟩

/-- A transaction whose second input refers to a coin that is not in the view. -/
def tx_missing_input : CTransaction :=
  ⟨[⟨⟨101, 0⟩⟩, ⟨⟨999, 0⟩⟩, ⟨⟨102, 0⟩⟩], [⟨1000000, [2]⟩], 11⟩

/-- The name output of `tx_greedy`: a REGISTER with one unit less than the floor. -/
def txout_greedy : CTxOut := ⟨999999, [1]⟩

/-- A REGISTER whose name output holds less than the floor. -/
def tx_greedy : CTransaction :=
  ⟨[⟨⟨100, 0⟩⟩], [⟨3000000, [118, 169]⟩, txout_greedy], 12⟩

/-- The name output of `tx_at_floor`: a REGISTER with exactly the floor. -/
def txout_at_floor : CTxOut := ⟨1000000, [1]⟩

/-- A REGISTER whose name output holds exactly the floor. -/
def tx_at_floor : CTransaction :=
  ⟨[⟨⟨100, 0⟩⟩], [txout_at_floor, ⟨3000000, [118, 169]⟩], 13⟩

/-- The name output of the transactions on the name `Alice`: a REGISTER of the
invalid name `Alice` with the floor amount. -/
def txout_register_Alice : CTxOut := ⟨1000000, [3]⟩

/-- A REGISTER of the invalid name `Alice` that also spends a name coin. -/
def tx_register_Alice_with_name_input : CTransaction :=
  ⟨[⟨⟨101, 0⟩⟩], [txout_register_Alice], 14⟩

/-- A REGISTER of the invalid name `Alice` without a name input. -/
def tx_register_Alice : CTransaction :=
  ⟨[⟨⟨100, 0⟩⟩], [txout_register_Alice], 15⟩

/-- The name output of `tx_update_hello`: an UPDATE of `p/alice` to the invalid
value `hello`. -/
def txout_update_hello : CTxOut := ⟨1000000, [4]⟩

/-- An UPDATE of `p/alice`, spending its name coin, to the invalid value `hello`. -/
def tx_update_hello : CTransaction :=
  ⟨[⟨⟨101, 0⟩⟩], [txout_update_hello], 16⟩

/-! ## The name database: `CNameTxUndo` and `ApplyNameTransaction` -/

/-- The view that `ApplyNameTransaction` and `CNameTxUndo::apply` write to,
`CCoinsViewCache`: the same coin and name state, with `SetName` and
`DeleteName` on it. -/
abbrev CCoinsViewCache := CCoinsView

/-- Modelled from the spec: `CCoinsViewCache::SetName (name, data, undo)` of
`coins.h`, which is not under `src/`: "write the new Name Record into the view";
the record of `name` becomes `data` and no other name changes. The flag `undo`
tells a write by `CNameTxUndo::apply` from one by `ApplyNameTransaction` and
does not change the record written. -/
def CCoinsView.SetName (view : CCoinsView) (name : valtype) (data : CNameData)
    (_undo : Bool) : CCoinsView :=
  { view with GetName := fun n => if n = name then some data else view.GetName n }

/-- Modelled from the spec: `CCoinsViewCache::DeleteName (name)` of `coins.h`,
which is not under `src/`: "delete the Name Record"; `name` has no record
afterwards and no other name changes. -/
def CCoinsView.DeleteName (view : CCoinsView) (name : valtype) : CCoinsView :=
  { view with GetName := fun n => if n = name then none else view.GetName n }

/-- Modelled from the spec: a default-constructed `CNameData` (`names/common.h`
is not under `src/`), what `oldData` holds when `GetName` has found no record:
"meaningful only if not wasNew". -/
def CNameData.empty : CNameData := ⟨[], 0, ⟨0, 0⟩⟩

/-- Modelled from the spec: `CNameData::fromScript (nHeight, out, script)` of
`names/common.h`, which is not under `src/`: the Name Record "(name, value,
height, outpoint = (tx id, output index))" of a name operation. -/
def CNameData.fromScript (nHeight : Nat) (out : COutPoint) (script : NameOperation) :
    CNameData :=
  ⟨script.value, nHeight, out⟩

/-- The members of the class `CNameTxUndo` (declared in `names/main.h`) that
`names/main.cpp` reads and writes: the name, whether it was new, and the record
it had before. -/
structure CNameTxUndo where
  name : valtype
  isNew : Bool
  oldData : CNameData
deriving DecidableEq, Repr

/-- The method `CNameTxUndo::fromOldState` of `names/main.cpp`, on a fresh
`CNameTxUndo`: `isNew = !view.GetName (name, oldData)`. -/
def CNameTxUndo.fromOldState (nm : valtype) (view : CCoinsView) : CNameTxUndo :=
  match view.GetName nm with
  | some oldData => ⟨nm, false, oldData⟩
  | none => ⟨nm, true, CNameData.empty⟩

/-- The method `CNameTxUndo::apply` of `names/main.cpp`. -/
def CNameTxUndo.apply (entry : CNameTxUndo) (view : CCoinsViewCache) : CCoinsViewCache :=
  if entry.isNew then view.DeleteName entry.name
  else view.SetName entry.name entry.oldData true

/-- The member `vnameundo` of `CBlockUndo`, the only one that the name layer
writes. -/
structure CBlockUndo where
  vnameundo : List CNameTxUndo
deriving DecidableEq, Repr

/-- The loop over `tx.vout` of `ApplyNameTransaction`, run from index `i` on the
outputs `tx.vout[i..]`; `hash` is `tx.GetHash ()`. -/
def applyOutputs (parseNameScript : CScript → Option NameOperation) (hash nHeight : Nat) :
    List CTxOut → Nat → CCoinsViewCache → CBlockUndo → CCoinsViewCache × CBlockUndo
  | [], _, view, undo => (view, undo)
  | txout :: rest, i, view, undo =>
    match parseNameScript txout.scriptPubKey with
    | some op =>
      if op.isAnyUpdate then
        let name := op.name
        let opUndo := CNameTxUndo.fromOldState name view
        let undo1 : CBlockUndo := ⟨undo.vnameundo ++ [opUndo]⟩
        let data := CNameData.fromScript nHeight ⟨hash, i⟩ op
        applyOutputs parseNameScript hash nHeight rest (i + 1)
          (view.SetName name data false) undo1
      else applyOutputs parseNameScript hash nHeight rest (i + 1) view undo
    | none => applyOutputs parseNameScript hash nHeight rest (i + 1) view undo

/-- The function `ApplyNameTransaction` of `names/main.cpp`: the view and the
block undo after the call, or `none` when `assert (nHeight != MEMPOOL_HEIGHT)`
fails. -/
def ApplyNameTransaction (ext : Collaborators) (tx : CTransaction) (nHeight : Nat)
    (view : CCoinsViewCache) (undo : CBlockUndo) : Option (CCoinsViewCache × CBlockUndo) :=
  if nHeight = MEMPOOL_HEIGHT then none
  else some (applyOutputs ext.parseNameScript tx.hash nHeight tx.vout 0 view undo)

/-! ## Specification-side notions for apply and undo -/

/-- Transactions applied in order with `ApplyNameTransaction`, each at its
height, the undo entries accumulating in the order they are produced. -/
def applyAll (ext : Collaborators) :
    List (CTransaction × Nat) → CCoinsViewCache → CBlockUndo →
      Option (CCoinsViewCache × CBlockUndo)
  | [], view, undo => some (view, undo)
  | (tx, nHeight) :: rest, view, undo =>
    match ApplyNameTransaction ext tx nHeight view undo with
    | none => none
    | some (view1, undo1) => applyAll ext rest view1 undo1

/-- Undo entries applied one after the other with `CNameTxUndo::apply`, in the
order of the list. -/
def undoAll : List CNameTxUndo → CCoinsViewCache → CCoinsViewCache
  | [], view => view
  | entry :: rest, view => undoAll rest (entry.apply view)

/-- The name operations of the outputs of a transaction, in output order. -/
def nameOperations (ext : Collaborators) (tx : CTransaction) : List NameOperation :=
  tx.vout.filterMap (fun txout => ext.parseNameScript txout.scriptPubKey)

/-! ## Concrete inputs for the name database -/

/-- The view `exampleView` without any Name Record. -/
def exampleViewNoNames : CCoinsView :=
  { exampleView with GetName := fun _ => none }

/-- A view in which `p/alice` was registered at height 21 by the output
`(102, 0)`: a plain coin at `(100, 0)`, the REGISTER coin of `p/alice` at
`(102, 0)`, a REGISTER coin of the name `Alice` at `(103, 0)`, and the Name
Record of `p/alice`. -/
def exampleViewRegistered : CCoinsView where
  GetCoin := fun prevout =>
    if prevout = ⟨100, 0⟩ then some ⟨⟨5000000, [118, 169]⟩, 10⟩
    else if prevout = ⟨102, 0⟩ then some ⟨⟨1000000, [1]⟩, 21⟩
    else if prevout = ⟨103, 0⟩ then some ⟨⟨1000000, [3]⟩, 22⟩
    else none
  GetName := fun name =>
    if name = name_p_alice then some ⟨value_msg_hi, 21, ⟨102, 0⟩⟩ else none

/-- The name output of the REGISTER transactions of `p/alice`. -/
def txout_register_alice : CTxOut := ⟨1000000, [1]⟩

/-- The name output of the UPDATE transactions of `p/alice`. -/
def txout_update_alice : CTxOut := ⟨1000000, [2]⟩

/-- A REGISTER of `p/alice` paid from the plain coin. -/
def tx_register_alice : CTransaction :=
  ⟨[⟨⟨100, 0⟩⟩], [⟨3000000, [118, 169]⟩, txout_register_alice], 17⟩

/-- A second REGISTER of `p/alice`, by another transaction. -/
def tx_register_alice_again : CTransaction :=
  ⟨[⟨⟨100, 0⟩⟩], [txout_register_alice], 18⟩

/-- An UPDATE of `p/alice` that spends its UPDATE coin `(101, 0)`. -/
def tx_update_alice : CTransaction :=
  ⟨[⟨⟨100, 0⟩⟩, ⟨⟨101, 0⟩⟩], [txout_update_alice], 19⟩

/-- An UPDATE of `p/alice` that spends its REGISTER coin `(102, 0)`. -/
def tx_update_after_register : CTransaction :=
  ⟨[⟨⟨102, 0⟩⟩], [txout_update_alice], 20⟩

/-- An UPDATE of `p/alice` without a name input. -/
def tx_update_without_input : CTransaction :=
  ⟨[⟨⟨100, 0⟩⟩], [txout_update_alice], 21⟩

/-- An UPDATE of `p/alice` whose name input is the coin of the name `Alice`. -/
def tx_update_mismatch : CTransaction :=
  ⟨[⟨⟨103, 0⟩⟩], [txout_update_alice], 22⟩

/-- An empty block undo. -/
def emptyUndo : CBlockUndo := ⟨[]⟩

/-- A REGISTER of `p/alice` in the block at height 50 and an UPDATE of it in
the block at height 51. -/
def txs_register_then_update : List (CTransaction × Nat) :=
  [(tx_register_alice, 50), (tx_update_after_register, 51)]

/-- The view after `tx_register_alice` has been applied at height 50 to the
view without Name Records. -/
def exampleViewAfterRegister : CCoinsView :=
  (applyOutputs exampleParseNameScript tx_register_alice.hash 50 tx_register_alice.vout 0
    exampleViewNoNames emptyUndo).1

/-- The block undo after `tx_register_alice` has been applied at height 50 to
the view without Name Records. -/
def exampleUndoAfterRegister : CBlockUndo :=
  (applyOutputs exampleParseNameScript tx_register_alice.hash 50 tx_register_alice.vout 0
    exampleViewNoNames emptyUndo).2

/-! ## `CheckNameDB` -/

/-- What `CheckNameDB` reads from the node: the argument `-checknamedb` if it is
set (`gArgs.GetArg`), the default `Params ().DefaultCheckNameDB ()`, the height
`::ChainActive ().Height ()` of the active chain, and what
`coinsTip.ValidateNameDB ()` returns after `coinsTip.Flush ()`. -/
structure NodeState where
  checknamedb : Option Int
  DefaultCheckNameDB : Int
  Height : Int
  ValidateNameDB : Bool

/-- The outcome of `CheckNameDB`: it returned without validating, it validated
the name database and returned, or one of its two assertions failed. -/
inductive NameDBCheck where
  | returnedWithoutValidation
  | validated
  | optionAssertFailed
  | validationAssertFailed
deriving DecidableEq, Repr

/-- The conversion of an `int64_t` to `int`: the value modulo `2^32` in the
range of a 32-bit signed integer. -/
def toInt32 (x : Int) : Int :=
  (x + 2147483648) % 4294967296 - 2147483648

/-- The local `option` of `CheckNameDB`:
`gArgs.GetArg ("-checknamedb", Params ().DefaultCheckNameDB ())` as an `int`. -/
def NodeState.option (node : NodeState) : Int :=
  toInt32 (node.checknamedb.getD node.DefaultCheckNameDB)

/-- The function `CheckNameDB` of `names/main.cpp`. The remainder `%` of two
`int` truncates towards zero. -/
def CheckNameDB (node : NodeState) (disconnect : Bool) : NameDBCheck :=
  let option := node.option
  if option = -1 then .returnedWithoutValidation
  else if ¬ option ≥ 0 then .optionAssertFailed
  else if option ≠ 0 ∧ (disconnect = true ∨ node.Height.tmod option ≠ 0) then
    .returnedWithoutValidation
  else if node.ValidateNameDB then .validated
  else .validationAssertFailed

/-- The name-database validation `coinsTip.ValidateNameDB ()` was performed. -/
def NameDBCheck.validationPerformed : NameDBCheck → Bool
  | .validated => true
  | .validationAssertFailed => true
  | _ => false

/-- `CheckNameDB` returned normally: no assertion failed. -/
def NameDBCheck.returnedNormally : NameDBCheck → Bool
  | .returnedWithoutValidation => true
  | .validated => true
  | _ => false

/-- A node at height 7 with a consistent name database and `-checknamedb=0`. -/
def node_option_0 : NodeState := ⟨some 0, -1, 7, true⟩

/-- A node at height 7 with a consistent name database and `-checknamedb=-1`. -/
def node_option_minus_1 : NodeState := ⟨some (-1), 0, 7, true⟩

/-- A node at height 7 with a consistent name database and `-checknamedb=-2`. -/
def node_option_minus_2 : NodeState := ⟨some (-2), -1, 7, true⟩

/-! ## Scripts: pushes, witness programs and the name prefix

The script classes (`script/script.h`, `script/names.h`) are not under `src/`;
only their tests (`test/script_segwit_tests.cpp`) are. They are modelled from
the specification and from what the tests call. -/

/-- Modelled from the spec: the opcode `OP_0` of `script/script.h` (not under
`src/`), the push of the empty vector and witness version 0. -/
def OP_0 : Nat := 0x00

/-- Modelled from the spec: the opcode `OP_PUSHDATA1`; the length of the pushed
data follows in one byte. -/
def OP_PUSHDATA1 : Nat := 0x4c

/-- Modelled from the spec: the opcode `OP_PUSHDATA2`; the length of the pushed
data follows in two bytes, low byte first. -/
def OP_PUSHDATA2 : Nat := 0x4d

/-- Modelled from the spec: the opcode `OP_PUSHDATA4`; the length of the pushed
data follows in four bytes, low byte first. -/
def OP_PUSHDATA4 : Nat := 0x4e

/-- Modelled from the spec: the opcode `OP_1NEGATE`. -/
def OP_1NEGATE : Nat := 0x4f

/-- Modelled from the spec: the opcode `OP_1`, the first of the small-integer
pushes `OP_1`..`OP_16`. -/
def OP_1 : Nat := 0x51

/-- Modelled from the spec: the opcode `OP_2`. -/
def OP_2 : Nat := 0x52

/-- Modelled from the spec: the opcode `OP_3`. -/
def OP_3 : Nat := 0x53

/-- Modelled from the spec: the opcode `OP_5`. -/
def OP_5 : Nat := 0x55

/-- Modelled from the spec: the opcode `OP_16`, the last of the small-integer
pushes. -/
def OP_16 : Nat := 0x60

/-- Modelled from the spec: the opcode `OP_NOP`. -/
def OP_NOP : Nat := 0x61

/-- Modelled from the spec: the opcode `OP_2DROP`. -/
def OP_2DROP : Nat := 0x6d

/-- Modelled from the spec: the opcode `OP_DROP`. -/
def OP_DROP : Nat := 0x75

/-- Modelled from the spec: the two name-operation opcodes `OP_NAME_REGISTER`
and `OP_NAME_UPDATE` of `script/script.h` (not under `src/`), the "register-tag"
and the "update-tag". Their values are not given; they are "chosen from the
same numeric range as small-integer push opcodes". -/
structure NameTags where
  OP_NAME_REGISTER : Nat
  OP_NAME_UPDATE : Nat
deriving DecidableEq, Repr

/-- Modelled from the spec: the two tags are different opcodes from the range
`OP_1`..`OP_16` of the small-integer pushes. -/
def NameTags.wellFormed (tags : NameTags) : Prop :=
  OP_1 ≤ tags.OP_NAME_REGISTER ∧ tags.OP_NAME_REGISTER ≤ OP_16 ∧
  OP_1 ≤ tags.OP_NAME_UPDATE ∧ tags.OP_NAME_UPDATE ≤ OP_16 ∧
  tags.OP_NAME_REGISTER ≠ tags.OP_NAME_UPDATE

/-- Modelled from the spec: `CScript ()  <<  b` for a byte vector `b`, a
"length-prefixed push" of raw bytes: the length itself when it is below
`OP_PUSHDATA1`, otherwise `OP_PUSHDATA1`, `OP_PUSHDATA2` or `OP_PUSHDATA4` and
the length in one, two or four bytes, low byte first; then the bytes. -/
def pushData (b : List Nat) : CScript :=
  if b.length < OP_PUSHDATA1 then b.length :: b
  else if b.length ≤ 0xff then OP_PUSHDATA1 :: b.length :: b
  else if b.length ≤ 0xffff then
    OP_PUSHDATA2 :: b.length % 256 :: b.length / 256 % 256 :: b
  else
    OP_PUSHDATA4 :: b.length % 256 :: b.length / 256 % 256 :: b.length / 65536 % 256
      :: b.length / 16777216 % 256 :: b

/-- Modelled from the spec: the first `n` bytes of a script as pushed data and
the script after them, when the script has that many bytes. -/
def takeData (n : Nat) (script : CScript) : Option (List Nat × CScript) :=
  if n ≤ script.length then some (script.take n, script.drop n) else none

/-- Modelled from the spec: a length-prefixed push read from the head of a
script (`CScript::GetOp` on a push, `script/script.h`, not under `src/`): the
pushed bytes and the script after the push. -/
def readPush (script : CScript) : Option (List Nat × CScript) :=
  match script with
  | [] => none
  | opcode :: rest =>
    if opcode < OP_PUSHDATA1 then takeData opcode rest
    else if opcode = OP_PUSHDATA1 then
      match rest with
      | n :: rest1 => takeData n rest1
      | _ => none
    else if opcode = OP_PUSHDATA2 then
      match rest with
      | n0 :: n1 :: rest1 => takeData (n0 + 256 * n1) rest1
      | _ => none
    else if opcode = OP_PUSHDATA4 then
      match rest with
      | n0 :: n1 :: n2 :: n3 :: rest1 =>
        takeData (n0 + 256 * n1 + 65536 * n2 + 16777216 * n3) rest1
      | _ => none
    else none

/-- Modelled from the spec: the name prefix, "a short fixed opcode sequence"
around "length-prefixed pushes of name and value as raw bytes": the tag, the
two pushes, and the opcodes that drop them again. -/
def buildNamePrefix (tag : Nat) (name value : valtype) : CScript :=
  tag :: (pushData name ++ pushData value ++ [OP_2DROP, OP_DROP])

/-- Modelled from the spec: `CNameScript::buildNameRegister (addr, name, value)`
of `script/names.h` (not under `src/`), `buildRegister (innerScript, name,
value)`: the name prefix with the register-tag "immediately preceding" the
inner script. -/
def buildNameRegister (tags : NameTags) (addr : CScript) (name value : valtype) : CScript :=
  buildNamePrefix tags.OP_NAME_REGISTER name value ++ addr

/-- Modelled from the spec: `CNameScript::buildNameUpdate (addr, name, value)` of
`script/names.h` (not under `src/`), `buildUpdate (innerScript, name, value)`:
the name prefix with the update-tag "immediately preceding" the inner script. -/
def buildNameUpdate (tags : NameTags) (addr : CScript) (name value : valtype) : CScript :=
  buildNamePrefix tags.OP_NAME_UPDATE name value ++ addr

/-- Modelled from the spec: the constructor `CNameScript (script)` of
`script/names.h` (not under `src/`), `parse (script)`: it "decodes operation
kind, name, value, and the remaining (spendable) sub-script; returns none for
non-name scripts". -/
def parseNameScript (tags : NameTags) (script : CScript) : Option NameOperation :=
  match script with
  | [] => none
  | tag :: rest =>
    if tag = tags.OP_NAME_REGISTER ∨ tag = tags.OP_NAME_UPDATE then
      match readPush rest with
      | none => none
      | some (name, rest1) =>
        match readPush rest1 with
        | none => none
        | some (value, rest2) =>
          match rest2 with
          | drop2 :: drop1 :: address =>
            if drop2 = OP_2DROP ∧ drop1 = OP_DROP then
              some ⟨if tag = tags.OP_NAME_REGISTER then .OP_NAME_REGISTER
                else .OP_NAME_UPDATE, name, value, address⟩
            else none
          | _ => none
    else none

/-- Modelled from the spec: `isNameOp (script)`, "true iff the script begins
with a recognized name-operation opcode sequence". -/
def isNameOp (tags : NameTags) (script : CScript) : Bool :=
  (parseNameScript tags script).isSome

/-- Modelled from the spec: `CNameScript::getAddress`, the script without its
name prefix, and the script itself when it has none. -/
def getAddress (tags : NameTags) (script : CScript) : CScript :=
  match parseNameScript tags script with
  | some nameOp => nameOp.address
  | none => script

/-- Modelled from the spec: `DecodeOP_N`, the version that a witness-version
opcode stands for: 0 for `OP_0`, 1 to 16 for `OP_1` to `OP_16`. -/
def DecodeOP_N (opcode : Nat) : Nat :=
  if opcode = OP_0 then 0 else opcode - (OP_1 - 1)

/-- Modelled from the spec: the classification of a script as a witness program
when no name prefix is allowed: a version opcode `OP_0` or `OP_1`..`OP_16`, then
one direct push of 2 to 40 bytes that ends the script; the version and the
program are returned. -/
def witnessProgram (script : CScript) : Option (Nat × List Nat) :=
  if script.length < 4 ∨ script.length > 42 then none
  else
    match script with
    | version :: size :: program =>
      if version ≠ OP_0 ∧ (version < OP_1 ∨ version > OP_16) then none
      else if size + 2 = script.length then some (DecodeOP_N version, program)
      else none
    | _ => none

/-- Modelled from the spec: `CScript::IsWitnessProgram (allowNames, version,
program)` of `script/script.h` (not under `src/`): with `allowNames` "it must
strip a valid name prefix first, then classify the remainder"; without it the
script itself is classified. `none` is the result `false`. -/
def IsWitnessProgram (tags : NameTags) (allowNames : Bool) (script : CScript) :
    Option (Nat × List Nat) :=
  if allowNames then witnessProgram (getAddress tags script)
  else witnessProgram script

/-- Modelled from the spec: `CScript::IsPayToWitnessScriptHash (allowNames)` of
`script/script.h` (not under `src/`): a version-0 witness program of 32 bytes,
after a name prefix has been stripped when `allowNames` is set. -/
def IsPayToWitnessScriptHash (tags : NameTags) (allowNames : Bool) (script : CScript) :
    Bool :=
  if allowNames then
    let address := getAddress tags script
    decide (address.length = 34 ∧ address[0]? = some OP_0 ∧ address[1]? = some 0x20)
  else decide (script.length = 34 ∧ script[0]? = some OP_0 ∧ script[1]? = some 0x20)

/-- The helper `IsExpectedWitnessProgram` of `test/script_segwit_tests.cpp`: the
script is a witness program with the expected version and program. -/
def IsExpectedWitnessProgram (tags : NameTags) (allowNames : Bool) (script : CScript)
    (expectedVersion : Nat) (expectedProgram : List Nat) : Bool :=
  decide (IsWitnessProgram tags allowNames script = some (expectedVersion, expectedProgram))

/-- The helper `IsNoWitnessProgram` of `test/script_segwit_tests.cpp`. -/
def IsNoWitnessProgram (tags : NameTags) (allowNames : Bool) (script : CScript) : Bool :=
  (IsWitnessProgram tags allowNames script).isNone

/-- Tags for concrete scripts: two of the opcodes `OP_1`..`OP_3` with which,
by `test/script_segwit_tests.cpp`, name prefixes start. -/
def exampleTags : NameTags := ⟨OP_2, OP_3⟩

/-- The name `valtype name (10, 'a')` of the tests. -/
def test_name : valtype := List.replicate 10 97

/-- The value `valtype value (20, 'b')` of the tests. -/
def test_value : valtype := List.replicate 20 98

/-- The script `p2wsh  <<  OP_0  <<  ToByteVector (dummy)` of the tests, `dummy` a
`uint256` of zero bytes. -/
def test_p2wsh : CScript := OP_0 :: pushData (List.replicate 32 0)

/-- The script `wit  <<  OP_0  <<  program` of the test
`IsWitnessProgram_WithNamePrefix`, `program` twenty bytes 42. -/
def test_wit : CScript := OP_0 :: pushData (List.replicate 20 42)

/-- The program `{42, 18}` of the test `IsWitnessProgram_Valid`. -/
def test_program : List Nat := [42, 18]

/-- The script `wit  <<  OP_0  <<  program` of the test `IsWitnessProgram_Valid`. -/
def wit_version_0 : CScript := OP_0 :: pushData test_program

/-- The program of `IsWitnessProgram_Valid` after `program.resize (40)`. -/
def test_program_40 : List Nat := test_program ++ List.replicate 38 0

/-- The script `wit  <<  OP_16  <<  program` of the test `IsWitnessProgram_Valid`. -/
def wit_version_16 : CScript := OP_16 :: pushData test_program_40

/-- The program of `IsWitnessProgram_Valid` after `program.resize (32)`. -/
def test_program_32 : List Nat := test_program_40.take 32

/-- The bytes `{OP_5, program.size ()}` and the program, of the test
`IsWitnessProgram_Valid`. -/
def wit_version_5 : CScript := [OP_5, test_program_32.length] ++ test_program_32

/-- The script `nowit  <<  OP_1NEGATE  <<  program` of the test
`IsWitnessProgram_Invalid_Version`, `program` ten zero bytes. -/
def nowit_version : CScript := OP_1NEGATE :: pushData (List.replicate 10 0)

/-- The script `nowit  <<  OP_0  <<  program` of the test
`IsWitnessProgram_Invalid_Size`, `program` one zero byte. -/
def nowit_size_1 : CScript := OP_0 :: pushData (List.replicate 1 0)

/-- The script `nowit  <<  OP_0  <<  program` of the test
`IsWitnessProgram_Invalid_Size`, `program` resized to 41 bytes. -/
def nowit_size_41 : CScript := OP_0 :: pushData (List.replicate 41 0)

/-- The script `nowit  <<  OP_0  <<  OP_NOP  <<  program` of the test
`IsWitnessProgram_Invalid_Nop`. -/
def nowit_nop : CScript := OP_0 :: OP_NOP :: pushData (List.replicate 10 0)

/-- The bytes `{OP_0, OP_PUSHDATA1, 32}` and 32 zero bytes of the tests
`IsWitnessProgram_Invalid_Pushdata` and `IsPayToWitnessScriptHash_Invalid_Pushdata`. -/
def bytes_pushdata1 : CScript := [OP_0, OP_PUSHDATA1, 32] ++ List.replicate 32 0

/-- The bytes `{OP_0, OP_PUSHDATA2, 32, 0}` and 32 zero bytes of the same tests. -/
def bytes_pushdata2 : CScript := [OP_0, OP_PUSHDATA2, 32, 0] ++ List.replicate 32 0

/-- The bytes `{OP_0, OP_PUSHDATA4, 32, 0, 0, 0}` and 32 zero bytes of the same
tests. -/
def bytes_pushdata4 : CScript := [OP_0, OP_PUSHDATA4, 32, 0, 0, 0] ++ List.replicate 32 0

/-- The bytes `{OP_0, 32}` and 32 zero bytes of the test
`IsPayToWitnessScriptHash_Valid`. -/
def bytes_p2wsh : CScript := [OP_0, 32] ++ List.replicate 32 0

/-- The script `notp2wsh  <<  OP_1  <<  ToByteVector (dummy)` of the test
`IsPayToWitnessScriptHash_Invalid_NotOp0`. -/
def notp2wsh_op_1 : CScript := OP_1 :: pushData (List.replicate 32 0)

/-- The script `notp2wsh  <<  OP_0  <<  ToByteVector (dummy)` of the test
`IsPayToWitnessScriptHash_Invalid_Size`, `dummy` a `uint160` of zero bytes. -/
def notp2wsh_size : CScript := OP_0 :: pushData (List.replicate 20 0)

/-- The script `notp2wsh  <<  OP_0  <<  OP_NOP  <<  ToByteVector (dummy)` of the test
`IsPayToWitnessScriptHash_Invalid_Nop`. -/
def notp2wsh_nop : CScript := OP_0 :: OP_NOP :: pushData (List.replicate 32 0)

/-! ## Specification-side notions and inputs for the later rules -/

/-- The consistency of the name database with the coins of a view: every
confirmed coin whose script is a name operation for a name has, for that name,
a Name Record with the height of the coin and the outpoint of the coin. -/
def nameConsistent (ext : Collaborators) (view : CCoinsView) : Prop :=
  ∀ (prevout : COutPoint) (coin : Coin) (nameOp : NameOperation),
    view.GetCoin prevout = some coin →
    ext.parseNameScript coin.out.scriptPubKey = some nameOp →
    coin.nHeight ≠ MEMPOOL_HEIGHT →
    ∃ data, view.GetName nameOp.name = some data ∧ data.nHeight = coin.nHeight ∧
      data.prevout = prevout

/-- A view with a plain coin at `(100, 0)`, the confirmed UPDATE coin of
`p/alice` at `(101, 0)` with its Name Record, and a pending UPDATE coin of
`p/alice` at `(104, 0)`. -/
def exampleViewPending : CCoinsView where
  GetCoin := fun prevout =>
    if prevout = ⟨100, 0⟩ then some ⟨⟨5000000, [118, 169]⟩, 10⟩
    else if prevout = ⟨101, 0⟩ then some ⟨⟨1000000, [2]⟩, 20⟩
    else if prevout = ⟨104, 0⟩ then some ⟨⟨1000000, [2]⟩, MEMPOOL_HEIGHT⟩
    else none
  GetName := fun name =>
    if name = name_p_alice then some ⟨value_msg_hi, 20, ⟨101, 0⟩⟩ else none

/-- An UPDATE of `p/alice` that spends its pending UPDATE coin `(104, 0)`. -/
def tx_update_pending : CTransaction :=
  ⟨[⟨⟨104, 0⟩⟩], [txout_update_alice], 23⟩

/-- The view after `tx_register_alice` at height 50 and then
`tx_update_after_register` at height 51 have been applied to the view without
Name Records. -/
def exampleViewAfterUpdate : CCoinsView :=
  (applyOutputs exampleParseNameScript tx_update_after_register.hash 51
    tx_update_after_register.vout 0 exampleViewAfterRegister exampleUndoAfterRegister).1

/-- The block undo after `tx_register_alice` and then `tx_update_after_register`
have been applied. -/
def exampleUndoAfterUpdate : CBlockUndo :=
  (applyOutputs exampleParseNameScript tx_update_after_register.hash 51
    tx_update_after_register.vout 0 exampleViewAfterRegister exampleUndoAfterRegister).2

/-! ## Chain parameters: `DefaultCheckNameDB` and `AvgTargetSpacing` -/

/-- The three classes of chain parameters of `chainparams.cpp`, each a
`CChainParams`. -/
inductive CChainParams where
  | CMainParams
  | CTestNetParams
  | CRegTestParams
deriving DecidableEq, Repr

/-- The method `DefaultCheckNameDB` of `CMainParams`, `CTestNetParams` and
`CRegTestParams`. -/
def CChainParams.DefaultCheckNameDB : CChainParams → Int
  | .CMainParams => -1
  | .CTestNetParams => -1
  | .CRegTestParams => 0

/-- A node on the chain `params`, with the argument `-checknamedb` as given (or
not given) on its command line. -/
def NodeState.onChain (params : CChainParams) (checknamedb : Option Int) (Height : Int)
    (ValidateNameDB : Bool) : NodeState :=
  ⟨checknamedb, params.DefaultCheckNameDB, Height, ValidateNameDB⟩

/-- A node at height 12 with a consistent name database and `-checknamedb=4`. -/
def node_option_4 : NodeState := ⟨some 4, -1, 12, true⟩

/-- A node at height 13 with a consistent name database and `-checknamedb=4`. -/
def node_option_4_off : NodeState := ⟨some 4, -1, 13, true⟩

/-- The two members of the enumeration `PowAlgo` (`powdata.h`) that
`AvgTargetSpacing` goes through. -/
inductive PowAlgo where
  | SHA256D
  | NEOSCRYPT
deriving DecidableEq, Repr

/-- The member `rules` of `Consensus::Params`, as far as `AvgTargetSpacing` uses
it: the method `GetTargetSpacing (algo, height)`, which is declared outside
`src/` and is a parameter here. -/
structure Consensus.Rules where
  GetTargetSpacing : PowAlgo → Nat → Int

/-- The consensus parameters `Consensus::Params`, as far as `AvgTargetSpacing`
uses them. -/
structure Consensus.Params where
  rules : Consensus.Rules

/-- The largest `int64_t`. -/
def INT64_MAX : Int := 9223372036854775807

/-- The value that an integer has as an `int64_t` (two's complement). -/
def toInt64 (x : Int) : Int :=
  (x + 9223372036854775808) % 18446744073709551616 - 9223372036854775808

/-- The loop of `AvgTargetSpacing` over the algorithms still to be processed,
on the pair `(numer, denom)`. Every operation is one on `int64_t`. -/
def avgTargetSpacingLoop (params : Consensus.Params) (height : Nat) :
    List PowAlgo → Int × Int → Int × Int
  | [], acc => acc
  | algo :: rest, (numer, denom) =>
    let spacing := toInt64 (params.rules.GetTargetSpacing algo height)
    let denom1 := toInt64 (denom * spacing)
    let denom2 := toInt64 (denom1 + numer)
    let numer1 := toInt64 (numer * spacing)
    avgTargetSpacingLoop params height rest (numer1, denom2)

/-- What a call of `AvgTargetSpacing` does: it returns a value, or one of its
two assertions fails. -/
inductive AvgTargetSpacingResult where
  | returned (spacing : Int)
  | denomAssertFailed
  | remainderAssertFailed
deriving DecidableEq, Repr

/-- The function `AvgTargetSpacing` of `chainparams.cpp`. The operators `%` and
`/` of C++ truncate towards zero. -/
def AvgTargetSpacing (params : Consensus.Params) (height : Nat) : AvgTargetSpacingResult :=
  let (numer, denom) :=
    avgTargetSpacingLoop params height [PowAlgo.SHA256D, PowAlgo.NEOSCRYPT] (1, 0)
  if ¬ denom > 0 then .denomAssertFailed
  else if ¬ numer.tmod denom = 0 then .remainderAssertFailed
  else .returned (numer.tdiv denom)

/-- Target spacings of 120 seconds for SHA256D and 40 seconds for NEOSCRYPT at
every height. -/
def params_120_40 : Consensus.Params :=
  ⟨⟨fun algo _ => match algo with
    | .SHA256D => 120
    | .NEOSCRYPT => 40⟩⟩

/-- Target spacings of 120 seconds for SHA256D and 50 seconds for NEOSCRYPT at
every height. -/
def params_120_50 : Consensus.Params :=
  ⟨⟨fun algo _ => match algo with
    | .SHA256D => 120
    | .NEOSCRYPT => 50⟩⟩

/-- Target spacings of 2^32 seconds for both algorithms at every height. -/
def params_2_32 : Consensus.Params := ⟨⟨fun _ _ => 4294967296⟩⟩

/-- Target spacings of 1 second for SHA256D and `INT64_MAX` seconds for
NEOSCRYPT at every height. -/
def params_1_max : Consensus.Params :=
  ⟨⟨fun algo _ => match algo with
    | .SHA256D => 1
    | .NEOSCRYPT => INT64_MAX⟩⟩

/-! ## Concrete inputs for the frame of apply and undo -/

/-- The name `p/bob`. -/
def name_p_bob : valtype := [112, 47, 98, 111, 98]

/-- The view `exampleViewRegistered` with a second Name Record, of `p/bob`,
registered at height 30 by the output `(105, 0)`. -/
def exampleViewTwoNames : CCoinsView :=
  { exampleViewRegistered with
    GetName := fun name =>
      if name = name_p_bob then some ⟨value_hello, 30, ⟨105, 0⟩⟩
      else exampleViewRegistered.GetName name }

/-! # Theorems -/

/-! ## Theorems about `IsNameValid` -/

theorem namespaceLoop_done_true_iff (l : List Nat) (i : Nat) :
    namespaceLoop i l = .done true ↔
      ∃ k, 1 ≤ i + k ∧ l[k]? = some 47 ∧
        ∀ j, j < k → ∃ b, l[j]? = some b ∧ 97 ≤ b ∧ b ≤ 122 := by
  induction l generalizing i with
  | nil => simp [namespaceLoop]
  | cons c rest ih =>
    unfold namespaceLoop
    by_cases hc : c = 47
    · subst hc
      by_cases hi : i = 0
      · subst hi
        simp only [if_true]
        constructor
        · intro h; cases h
        · rintro ⟨k, hk, _, hlow⟩
          obtain ⟨b, hb, hb1, _⟩ := hlow 0 (by omega)
          simp at hb
          omega
      · simp only [if_true, hi, if_false, true_iff]
        exact ⟨0, by omega, by simp, by intro j hj; omega⟩
    · simp only [hc, if_false]
      by_cases hlow : c < 97 ∨ c > 122
      · simp only [hlow, if_true]
        constructor
        · intro h; cases h
        · rintro ⟨k, _, hk47, hall⟩
          rcases k with _ | k
          · simp at hk47; exact absurd hk47 hc
          · obtain ⟨b, hb, hb1, hb2⟩ := hall 0 (by omega)
            simp at hb
            omega
      · simp only [hlow, if_false]
        rw [ih (i + 1)]
        constructor
        · rintro ⟨k, hk, hk47, hall⟩
          refine ⟨k + 1, by omega, by simpa using hk47, ?_⟩
          intro j hj
          rcases j with _ | j
          · exact ⟨c, by simp, by omega, by omega⟩
          · simpa using hall j (by omega)
        · rintro ⟨k, hk, hk47, hall⟩
          rcases k with _ | k
          · simp at hk47; exact absurd hk47 hc
          · refine ⟨k, by omega, by simpa using hk47, ?_⟩
            intro j hj
            simpa using hall (j + 1) (by omega)

theorem namespaceLoop_returned (l : List Nat) (i : Nat) (v : Verdict)
    (h : namespaceLoop i l = .returned v) :
    v = consensusInvalid "tx-name-empty-namespace" ∨
      v = consensusInvalid "tx-name-invalid-namespace" := by
  induction l generalizing i with
  | nil => simp [namespaceLoop] at h
  | cons c rest ih =>
    unfold namespaceLoop at h
    split_ifs at h
    · left; cases h; rfl
    · right; cases h; rfl
    · exact ih _ h

theorem namespaceLoop_eq_dropWhile (l : List Nat) (i : Nat) :
    namespaceLoop i l =
      match l.dropWhile isLowerAscii with
      | [] => .done false
      | c :: _ =>
        if c = 47 then
          if i + (l.takeWhile isLowerAscii).length = 0 then
            .returned (consensusInvalid "tx-name-empty-namespace")
          else .done true
        else .returned (consensusInvalid "tx-name-invalid-namespace") := by
  induction l generalizing i with
  | nil => simp [namespaceLoop]
  | cons c rest ih =>
    unfold namespaceLoop
    by_cases hc : c = 47
    · subst hc
      simp [isLowerAscii]
    · by_cases hlow : c < 97 ∨ c > 122
      · have hl : isLowerAscii c = false := by
          simp only [isLowerAscii, decide_eq_false_iff_not]; omega
        simp [hc, hlow, List.dropWhile_cons, hl]
      · have hl : isLowerAscii c = true := by
          simp only [isLowerAscii, decide_eq_true_eq]; omega
        simp only [hc, hlow, if_false, List.dropWhile_cons, hl, if_true, List.takeWhile_cons,
          List.length_cons]
        rw [ih (i + 1)]
        have e : i + 1 + (List.takeWhile isLowerAscii rest).length
            = i + ((List.takeWhile isLowerAscii rest).length + 1) := by omega
        rw [e]

theorem IsNameValid_valid_iff_loop (utf8 : valtype → Bool) (n : valtype) :
    IsNameValid utf8 n = .valid ↔
      n.length ≤ 256 ∧ namespaceLoop 0 n = .done true ∧
        n.any (fun c => decide (c < 0x20)) = false ∧ utf8 n = true := by
  unfold IsNameValid MAX_NAME_LENGTH
  by_cases hlen : n.length > 256
  · simp only [hlen, if_true]
    constructor
    · intro h; cases h
    · intro h; omega
  · simp only [hlen, if_false]
    cases hns : namespaceLoop 0 n with
    | returned v =>
      rcases namespaceLoop_returned n 0 v hns with hv | hv <;> subst hv <;>
        simp [consensusInvalid]
    | done found =>
      cases found with
      | false => simp [consensusInvalid]
      | true =>
        by_cases hany : n.any (fun c => decide (c < 0x20)) = true
        · simp [hany, consensusInvalid]
        · by_cases hu : utf8 n = true
          · simp only [Bool.not_eq_true] at hany
            simp [hany, hu]
            omega
          · simp only [Bool.not_eq_true] at hany hu
            simp [hany, hu, consensusInvalid]

/-- C1: `IsNameValid` accepts a byte string exactly when it has at most 256
bytes, matches `[a-z]+/.*` (a `/` at some index `k ≥ 1` with only lower-case
letters before it), has no byte below `0x20` and is valid UTF-8; `p/alice` is
accepted, and what follows the first `/` is bound only by the control-character
and UTF-8 rules. -/
theorem IsNameValid_valid_iff (utf8 : valtype → Bool) :
    (∀ n : valtype, IsNameValid utf8 n = .valid ↔
      n.length ≤ 256 ∧
      (∃ k, 1 ≤ k ∧ n[k]? = some 47 ∧
        ∀ j, j < k → ∃ b, n[j]? = some b ∧ 97 ≤ b ∧ b ≤ 122) ∧
      (∀ b ∈ n, ¬ b < 0x20) ∧
      utf8 n = true) ∧
    IsNameValid IsValidUtf8String name_p_alice = .valid ∧
    (∀ ns rest : valtype, ns ≠ [] → (∀ b ∈ ns, 97 ≤ b ∧ b ≤ 122) →
      (ns ++ 47 :: rest).length ≤ 256 → (∀ b ∈ rest, ¬ b < 0x20) →
      utf8 (ns ++ 47 :: rest) = true →
      IsNameValid utf8 (ns ++ 47 :: rest) = .valid) := by
  have hiff : ∀ m : valtype, IsNameValid utf8 m = .valid ↔
      m.length ≤ 256 ∧
      (∃ k, 1 ≤ k ∧ m[k]? = some 47 ∧
        ∀ j, j < k → ∃ b, m[j]? = some b ∧ 97 ≤ b ∧ b ≤ 122) ∧
      (∀ b ∈ m, ¬ b < 0x20) ∧
      utf8 m = true := by
    intro m
    rw [IsNameValid_valid_iff_loop, namespaceLoop_done_true_iff]
    simp only [Nat.zero_add, List.any_eq_false, decide_eq_true_eq]
  refine ⟨hiff, by decide, ?_⟩
  intro ns rest hne hlow hlen hctl hutf
  rw [hiff]
  refine ⟨hlen, ⟨ns.length, ?_, ?_, ?_⟩, ?_, hutf⟩
  · cases ns with
    | nil => exact absurd rfl hne
    | cons a t => simp
  · rw [List.getElem?_append_right (le_refl _)]; simp
  · intro j hj
    refine ⟨ns[j], ?_, hlow _ (List.getElem_mem _)⟩
    rw [List.getElem?_append_left hj, List.getElem?_eq_getElem hj]
  · intro b hb
    rcases List.mem_append.1 hb with h | h
    · have := (hlow b h).1; omega
    · rcases List.mem_cons.1 h with h | h
      · subst h; omega
      · exact hctl b h

theorem IsNameValid_valid_iff_witness :
    IsNameValid IsValidUtf8String name_p_mixed = .valid :=
  (IsNameValid_valid_iff IsValidUtf8String).2.2 [112]
    [65, 108, 105, 99, 101, 47, 0xC3, 0xA9, 0xE2, 0x82, 0xAC]
    (by decide) (by decide) (by decide) (by decide) (by decide)

theorem IsNameValid_eq_firstFailure (utf8 : valtype → Bool) (n : valtype) :
    IsNameValid utf8 n =
      firstFailure [nameLengthFailure n, nameNamespaceFailure n, nameControlFailure n,
        nameUtf8Failure utf8 n] := by
  unfold IsNameValid MAX_NAME_LENGTH nameLengthFailure
  by_cases hlen : n.length > 256
  · simp [hlen, firstFailure]
  · simp only [hlen, if_false, firstFailure]
    rw [namespaceLoop_eq_dropWhile]
    unfold nameNamespaceFailure
    cases hd : n.dropWhile isLowerAscii with
    | nil => simp [firstFailure]
    | cons c rest =>
      by_cases hc : c = 47
      · simp only [hc, if_true, Nat.zero_add, List.length_eq_zero, ne_eq, not_true_eq_false,
          if_false]
        by_cases ht : n.takeWhile isLowerAscii = []
        · simp [ht, firstFailure]
        · simp only [ht, if_false, firstFailure, nameControlFailure, nameUtf8Failure]
          by_cases hany : ∃ b ∈ n, b < 0x20
          · have : n.any (fun c => decide (c < 0x20)) = true := by
              simpa [List.any_eq_true] using hany
            simp [this, hany, firstFailure]
          · have : n.any (fun c => decide (c < 0x20)) = false := by
              simpa [List.any_eq_false] using hany
            by_cases hu : utf8 n = true <;> simp [this, hany, hu, firstFailure]
      · simp [hc, firstFailure]

theorem IsNameValid_of_length_gt (utf8 : valtype → Bool) (n : valtype)
    (h : n.length > 256) :
    IsNameValid utf8 n = consensusInvalid "tx-name-too-long" := by
  simp [IsNameValid, MAX_NAME_LENGTH, h]

/-- C2: every byte string of more than 256 bytes is rejected by `IsNameValid`
as `tx-name-too-long`, whatever its content, and one of exactly 256 bytes is
not rejected for its length. -/
theorem IsNameValid_too_long (utf8 : valtype → Bool) (n : valtype) :
    (n.length > 256 → IsNameValid utf8 n = consensusInvalid "tx-name-too-long") ∧
    (n.length = 256 → IsNameValid utf8 n ≠ consensusInvalid "tx-name-too-long") := by
  constructor
  · exact IsNameValid_of_length_gt utf8 n
  · intro h
    rw [IsNameValid_eq_firstFailure]
    have hl : nameLengthFailure n = none := by simp [nameLengthFailure, h]
    simp only [hl, firstFailure, nameNamespaceFailure, nameControlFailure, nameUtf8Failure]
    repeat' split
    all_goals simp [firstFailure, consensusInvalid]

theorem IsNameValid_too_long_witness :
    name_257.length > 256 ∧
      IsNameValid IsValidUtf8String name_257 = consensusInvalid "tx-name-too-long" ∧
    name_256.length = 256 ∧
      IsNameValid IsValidUtf8String name_256 ≠ consensusInvalid "tx-name-too-long" :=
  ⟨by simp only [name_257, List.length_cons, List.length_replicate]; omega,
   (IsNameValid_too_long IsValidUtf8String name_257).1
     (by simp only [name_257, List.length_cons, List.length_replicate]; omega),
   by simp only [name_256, List.length_cons, List.length_replicate],
   (IsNameValid_too_long IsValidUtf8String name_256).2
     (by simp only [name_256, List.length_cons, List.length_replicate])⟩

/-- C3: every byte string whose first byte is `/` is rejected by `IsNameValid`,
and with at most 256 bytes the reason is `tx-name-empty-namespace`. -/
theorem IsNameValid_slash_first (utf8 : valtype → Bool) (n : valtype)
    (h : n.head? = some 47) :
    (IsNameValid utf8 n).isRejected = true ∧
    (n.length ≤ 256 →
      IsNameValid utf8 n = consensusInvalid "tx-name-empty-namespace") := by
  cases n with
  | nil => simp at h
  | cons c rest =>
    simp only [List.head?_cons, Option.some.injEq] at h
    subst h
    have hlen : ∀ hle : (47 :: rest).length ≤ 256,
        IsNameValid utf8 (47 :: rest) = consensusInvalid "tx-name-empty-namespace" := by
      intro hle
      have : ¬ (47 :: rest).length > 256 := by omega
      simp only [IsNameValid, MAX_NAME_LENGTH, this, if_false, namespaceLoop, if_true]
    refine ⟨?_, hlen⟩
    by_cases hle : (47 :: rest).length ≤ 256
    · rw [hlen hle]; rfl
    · rw [IsNameValid_of_length_gt utf8 (47 :: rest) (by omega)]; rfl

theorem IsNameValid_slash_first_witness :
    name_slash_x.head? = some 47 ∧
      (IsNameValid IsValidUtf8String name_slash_x).isRejected = true ∧
      IsNameValid IsValidUtf8String name_slash_x =
        consensusInvalid "tx-name-empty-namespace" :=
  ⟨rfl, (IsNameValid_slash_first IsValidUtf8String name_slash_x rfl).1,
   (IsNameValid_slash_first IsValidUtf8String name_slash_x rfl).2 (by decide)⟩

theorem IsNameValid_valid_or_reason (utf8 : valtype → Bool) (n : valtype) :
    IsNameValid utf8 n = .valid ∨
      ∃ code ∈ nameRejectReasons, IsNameValid utf8 n = consensusInvalid code := by
  rw [IsNameValid_eq_firstFailure]
  simp only [nameLengthFailure, firstFailure, nameNamespaceFailure, nameControlFailure,
    nameUtf8Failure, nameRejectReasons]
  repeat' split
  all_goals simp_all [firstFailure, consensusInvalid]

/-- C4: the verdict of `IsNameValid` is that of the first failing check in the
order length, namespace presence and format, control characters, UTF-8 validity
(a later check never overrides an earlier failure); the six reason codes it can
report are pairwise distinct; and `Alice` is rejected as
`tx-name-invalid-namespace`. -/
theorem IsNameValid_first_failing_check (utf8 : valtype → Bool) :
    (∀ n : valtype, IsNameValid utf8 n =
      firstFailure [nameLengthFailure n, nameNamespaceFailure n, nameControlFailure n,
        nameUtf8Failure utf8 n]) ∧
    (∀ (n : valtype) (code : String),
      IsNameValid utf8 n = consensusInvalid code → code ∈ nameRejectReasons) ∧
    nameRejectReasons.Nodup ∧
    IsNameValid utf8 name_Alice = consensusInvalid "tx-name-invalid-namespace" := by
  refine ⟨IsNameValid_eq_firstFailure utf8, ?_, by decide, ?_⟩
  · intro n code hcode
    rcases IsNameValid_valid_or_reason utf8 n with h | ⟨c, hc, h⟩
    · rw [h] at hcode; cases hcode
    · rw [h] at hcode
      simp only [consensusInvalid, Verdict.invalid.injEq, true_and] at hcode
      exact hcode ▸ hc
  · simp [IsNameValid, MAX_NAME_LENGTH, name_Alice, namespaceLoop]

theorem IsNameValid_first_failing_check_witness :
    IsNameValid IsValidUtf8String name_Alice =
      consensusInvalid "tx-name-invalid-namespace" ∧
    "tx-name-invalid-namespace" ∈ nameRejectReasons :=
  ⟨(IsNameValid_first_failing_check IsValidUtf8String).2.2.2,
   (IsNameValid_first_failing_check IsValidUtf8String).2.1 name_Alice
     "tx-name-invalid-namespace"
     (IsNameValid_first_failing_check IsValidUtf8String).2.2.2⟩

/-! ## Theorems about `IsValueValid` -/

/-- C5: `IsValueValid` rejects a value of more than 2048 bytes as
`tx-value-too-long` whatever the JSON reader says of it; otherwise it rejects a
value that does not parse as `tx-value-invalid-json`, one that parses to
something other than an object as `tx-value-no-json-object`, and accepts a
parsed object. `hello` is rejected as invalid JSON (it is no JSON at any fuel
of the reader), `{"msg":"hi"}` is accepted, and an array and a scalar are
rejected as no object. -/
theorem IsValueValid_cases (read : valtype → Option UniValue) :
    (∀ v : valtype, v.length > 2048 →
      IsValueValid read v = consensusInvalid "tx-value-too-long") ∧
    (∀ v : valtype, v.length ≤ 2048 → read v = none →
      IsValueValid read v = consensusInvalid "tx-value-invalid-json") ∧
    (∀ (v : valtype) (j : UniValue), v.length ≤ 2048 → read v = some j →
      j.isObject = false →
      IsValueValid read v = consensusInvalid "tx-value-no-json-object") ∧
    (∀ (v : valtype) (j : UniValue), v.length ≤ 2048 → read v = some j →
      j.isObject = true → IsValueValid read v = .valid) ∧
    IsValueValid UniValue.read value_hello = consensusInvalid "tx-value-invalid-json" ∧
    (∀ fuel : Nat, parseJson fuel .value value_hello = none) ∧
    IsValueValid UniValue.read value_msg_hi = .valid ∧
    IsValueValid UniValue.read value_array = consensusInvalid "tx-value-no-json-object" ∧
    IsValueValid UniValue.read value_scalar =
      consensusInvalid "tx-value-no-json-object" := by
  refine ⟨?_, ?_, ?_, ?_, by decide, ?_, by decide, by decide, by decide⟩
  · intro v h
    simp [IsValueValid, MAX_VALUE_LENGTH, h]
  · intro v h hr
    have : ¬ v.length > 2048 := by omega
    simp [IsValueValid, MAX_VALUE_LENGTH, this, hr]
  · intro v j h hr hj
    have : ¬ v.length > 2048 := by omega
    simp [IsValueValid, MAX_VALUE_LENGTH, this, hr, hj]
  · intro v j h hr hj
    have : ¬ v.length > 2048 := by omega
    simp [IsValueValid, MAX_VALUE_LENGTH, this, hr, hj]
  · intro fuel
    cases fuel <;> rfl

theorem IsValueValid_cases_witness :
    (value_2049.length > 2048 ∧
      IsValueValid UniValue.read value_2049 = consensusInvalid "tx-value-too-long") ∧
    (value_hello.length ≤ 2048 ∧ UniValue.read value_hello = none ∧
      IsValueValid UniValue.read value_hello =
        consensusInvalid "tx-value-invalid-json") ∧
    (value_array.length ≤ 2048 ∧
      IsValueValid UniValue.read value_array =
        consensusInvalid "tx-value-no-json-object") ∧
    (value_msg_hi.length ≤ 2048 ∧ IsValueValid UniValue.read value_msg_hi = .valid) :=
  ⟨⟨by simp only [value_2049, List.length_cons, List.length_replicate]; omega,
    (IsValueValid_cases UniValue.read).1 value_2049
      (by simp only [value_2049, List.length_cons, List.length_replicate]; omega)⟩,
   ⟨by decide, rfl,
    (IsValueValid_cases UniValue.read).2.1 value_hello (by decide) rfl⟩,
   ⟨by decide,
    (IsValueValid_cases UniValue.read).2.2.1 value_array
      (.VARR [.VNUM [49], .VNUM [50]]) (by decide) rfl rfl⟩,
   ⟨by decide,
    (IsValueValid_cases UniValue.read).2.2.2.1 value_msg_hi
      (.VOBJ [([109, 115, 103], .VSTR [104, 105])]) (by decide) rfl rfl⟩⟩

/-! ## The loops of `CheckNameTransaction` -/

theorem scanInputs_append (P : CScript → Option NameOperation) (view : CCoinsView)
    (pre rest : List CTxIn) (i : Nat) (acc : Option NameInput) :
    scanInputs P view (pre ++ rest) i acc =
      match scanInputs P view pre i acc with
      | .returned v => .returned v
      | .done r => scanInputs P view rest (i + pre.length) r := by
  induction pre generalizing i acc with
  | nil => simp [scanInputs]
  | cons txin pre ih =>
    simp only [List.cons_append, scanInputs, List.length_cons]
    cases view.GetCoin txin.prevout with
    | none => rfl
    | some coin =>
      simp only []
      cases P coin.out.scriptPubKey with
      | none =>
        simp only []
        rw [show pre.append rest = pre ++ rest from rfl, ih]
        have : i + 1 + pre.length = i + (pre.length + 1) := by omega
        rw [this]
      | some op =>
        simp only []
        cases acc with
        | some a => simp
        | none =>
          simp only [Option.isSome_none, Bool.false_eq_true, if_false]
          rw [show pre.append rest = pre ++ rest from rfl, ih]
          have : i + 1 + pre.length = i + (pre.length + 1) := by omega
          rw [this]

theorem scanInputs_returned (P : CScript → Option NameOperation) (view : CCoinsView)
    (l : List CTxIn) (i : Nat) (acc : Option NameInput) (v : Verdict)
    (h : scanInputs P view l i acc = .returned v) :
    v = missingInputs ∨ v = consensusInvalid "tx-multiple-name-inputs" := by
  induction l generalizing i acc with
  | nil => simp [scanInputs] at h
  | cons txin l ih =>
    simp only [scanInputs] at h
    cases hc : view.GetCoin txin.prevout with
    | none =>
      simp only [hc] at h
      left; cases h; rfl
    | some coin =>
      simp only [hc] at h
      cases hp : P coin.out.scriptPubKey with
      | none => simp only [hp] at h; exact ih _ _ h
      | some op =>
        simp only [hp] at h
        split_ifs at h
        · right; cases h; rfl
        · exact ih _ _ h

theorem scanInputs_done (ext : Collaborators) (view : CCoinsView)
    (l : List CTxIn) (i : Nat) (acc r : Option NameInput)
    (h : scanInputs ext.parseNameScript view l i acc = .done r) :
    l.all (inputFound view) = true ∧
    (if acc.isSome then 1 else 0) + l.countP (isNameInput ext view) ≤ 1 ∧
    (r.isSome = true ↔ acc.isSome = true ∨ l.countP (isNameInput ext view) = 1) := by
  induction l generalizing i acc with
  | nil =>
    simp only [scanInputs, InputScan.done.injEq] at h
    subst h
    cases acc <;> simp
  | cons txin l ih =>
    simp only [scanInputs] at h
    cases hc : view.GetCoin txin.prevout with
    | none => simp [hc] at h
    | some coin =>
      simp only [hc] at h
      have hf : inputFound view txin = true := by simp [inputFound, hc]
      cases hp : ext.parseNameScript coin.out.scriptPubKey with
      | none =>
        simp only [hp] at h
        have hn : isNameInput ext view txin = false := by simp [isNameInput, hc, hp]
        obtain ⟨h1, h2, h3⟩ := ih _ _ h
        simp only [List.all_cons, hf, h1, Bool.and_self, List.countP_cons, hn,
          Bool.false_eq_true, if_false, Nat.add_zero, true_and]
        exact ⟨h2, h3⟩
      | some op =>
        simp only [hp] at h
        have hn : isNameInput ext view txin = true := by simp [isNameInput, hc, hp]
        cases acc with
        | some a => simp at h
        | none =>
          simp only [Option.isSome_none, Bool.false_eq_true, if_false] at h
          obtain ⟨h1, h2, h3⟩ := ih _ _ h
          simp only [Option.isSome_some, if_true] at h2 h3
          simp only [List.all_cons, hf, h1, Bool.and_self, List.countP_cons, hn, if_true,
            Option.isSome_none, Bool.false_eq_true, if_false, false_or, true_and]
          constructor
          · omega
          · simp only [true_or, iff_true] at h3
            simp only [h3, true_iff]
            omega

theorem scanInputs_of_found (ext : Collaborators) (view : CCoinsView)
    (l : List CTxIn) (i : Nat) (acc : Option NameInput)
    (hfound : l.all (inputFound view) = true) :
    (2 ≤ (if acc.isSome then 1 else 0) + l.countP (isNameInput ext view) →
      scanInputs ext.parseNameScript view l i acc =
        .returned (consensusInvalid "tx-multiple-name-inputs")) ∧
    ((if acc.isSome then 1 else 0) + l.countP (isNameInput ext view) ≤ 1 →
      ∃ r, scanInputs ext.parseNameScript view l i acc = .done r) := by
  induction l generalizing i acc with
  | nil =>
    constructor
    · intro h
      split_ifs at h <;> simp at h
    · intro _
      exact ⟨acc, rfl⟩
  | cons txin l ih =>
    simp only [List.all_cons, Bool.and_eq_true] at hfound
    obtain ⟨hf, hrest⟩ := hfound
    simp only [inputFound, Option.isSome_iff_exists] at hf
    obtain ⟨coin, hc⟩ := hf
    simp only [scanInputs, hc, List.countP_cons]
    cases hp : ext.parseNameScript coin.out.scriptPubKey with
    | none =>
      have hn : isNameInput ext view txin = false := by simp [isNameInput, hc, hp]
      simp only [hn, Bool.false_eq_true, if_false, Nat.add_zero]
      exact ih (i + 1) acc hrest
    | some op =>
      have hn : isNameInput ext view txin = true := by simp [isNameInput, hc, hp]
      simp only [hn, if_true]
      cases acc with
      | some a =>
        simp only [Option.isSome_some, if_true]
        constructor
        · intro _; trivial
        · intro h; omega
      | none =>
        simp only [Option.isSome_none, Bool.false_eq_true, if_false, Nat.zero_add]
        have := ih (i + 1) (some ⟨i, op, coin⟩) hrest
        simp only [Option.isSome_some, if_true] at this
        constructor
        · intro h; exact this.1 (by omega)
        · intro h; exact this.2 (by omega)

theorem scanOutputs_returned (P : CScript → Option NameOperation)
    (l : List CTxOut) (i : Nat) (acc : Option NameOutput) (v : Verdict)
    (h : scanOutputs P l i acc = .returned v) :
    v = consensusInvalid "tx-multiple-name-outputs" := by
  induction l generalizing i acc with
  | nil => simp [scanOutputs] at h
  | cons txout l ih =>
    simp only [scanOutputs] at h
    cases hp : P txout.scriptPubKey with
    | none => simp only [hp] at h; exact ih _ _ h
    | some op =>
      simp only [hp] at h
      split_ifs at h
      · cases h; rfl
      · exact ih _ _ h

theorem scanOutputs_done (ext : Collaborators)
    (l : List CTxOut) (i : Nat) (acc r : Option NameOutput)
    (h : scanOutputs ext.parseNameScript l i acc = .done r) :
    (if acc.isSome then 1 else 0) + l.countP (isNameOutput ext) ≤ 1 ∧
    (acc.isSome = true → r = acc) ∧
    (acc = none → l.countP (isNameOutput ext) = 0 → r = none) ∧
    (acc = none → l.countP (isNameOutput ext) = 1 →
      ∃ out txout, r = some out ∧ i ≤ out.nameOut ∧
        l[out.nameOut - i]? = some txout ∧
        ext.parseNameScript txout.scriptPubKey = some out.nameOpOut) := by
  induction l generalizing i acc with
  | nil =>
    simp only [scanOutputs, OutputScan.done.injEq] at h
    subst h
    cases acc <;> simp
  | cons txout l ih =>
    simp only [scanOutputs] at h
    cases hp : ext.parseNameScript txout.scriptPubKey with
    | none =>
      simp only [hp] at h
      have hn : isNameOutput ext txout = false := by simp [isNameOutput, hp]
      obtain ⟨h1, h2, h3, h4⟩ := ih _ _ h
      simp only [List.countP_cons, hn, Bool.false_eq_true, if_false, Nat.add_zero]
      refine ⟨h1, h2, h3, ?_⟩
      intro hacc hcount
      obtain ⟨out, o, hr, hle, hget, hop⟩ := h4 hacc hcount
      refine ⟨out, o, hr, by omega, ?_, hop⟩
      have : out.nameOut - i = (out.nameOut - (i + 1)) + 1 := by omega
      rw [this, List.getElem?_cons_succ]
      exact hget
    | some op =>
      simp only [hp] at h
      have hn : isNameOutput ext txout = true := by simp [isNameOutput, hp]
      cases acc with
      | some a => simp at h
      | none =>
        simp only [Option.isSome_none, Bool.false_eq_true, if_false] at h
        obtain ⟨h1, h2, _, _⟩ := ih _ _ h
        simp only [Option.isSome_some, if_true] at h1
        have hr := h2 rfl
        simp only [List.countP_cons, hn, if_true, Option.isSome_none, Bool.false_eq_true,
          if_false, Nat.zero_add]
        refine ⟨?_, ?_, ?_, ?_⟩
        · omega
        · intro hc; cases hc
        · intro _ hc; omega
        · intro _ _
          exact ⟨⟨i, op⟩, txout, hr, le_refl _, by simp, hp⟩

theorem scanOutputs_of_count (ext : Collaborators)
    (l : List CTxOut) (i : Nat) (acc : Option NameOutput) :
    (2 ≤ (if acc.isSome then 1 else 0) + l.countP (isNameOutput ext) →
      scanOutputs ext.parseNameScript l i acc =
        .returned (consensusInvalid "tx-multiple-name-outputs")) ∧
    ((if acc.isSome then 1 else 0) + l.countP (isNameOutput ext) ≤ 1 →
      ∃ r, scanOutputs ext.parseNameScript l i acc = .done r) := by
  induction l generalizing i acc with
  | nil =>
    constructor
    · intro h
      split_ifs at h <;> simp at h
    · intro _
      exact ⟨acc, rfl⟩
  | cons txout l ih =>
    simp only [scanOutputs, List.countP_cons]
    cases hp : ext.parseNameScript txout.scriptPubKey with
    | none =>
      have hn : isNameOutput ext txout = false := by simp [isNameOutput, hp]
      simp only [hn, Bool.false_eq_true, if_false, Nat.add_zero]
      exact ih (i + 1) acc
    | some op =>
      have hn : isNameOutput ext txout = true := by simp [isNameOutput, hp]
      simp only [hn, if_true]
      cases acc with
      | some a =>
        simp only [Option.isSome_some, if_true]
        constructor
        · intro _; trivial
        · intro h; omega
      | none =>
        simp only [Option.isSome_none, Bool.false_eq_true, if_false, Nat.zero_add]
        have := ih (i + 1) (some ⟨i, op⟩)
        simp only [Option.isSome_some, if_true] at this
        constructor
        · intro h; exact this.1 (by omega)
        · intro h; exact this.2 (by omega)

theorem eq_of_countP_eq_one {α : Type} (p : α → Bool) (l : List α)
    (h : l.countP p = 1) (a b : α) (ha : a ∈ l) (hpa : p a = true)
    (hb : b ∈ l) (hpb : p b = true) : a = b := by
  induction l with
  | nil => simp at ha
  | cons x xs ih =>
    rw [List.countP_cons] at h
    by_cases hx : p x = true
    · simp only [hx, if_true] at h
      have h0 : xs.countP p = 0 := by omega
      rw [List.countP_eq_zero] at h0
      have hax : a = x := by
        rcases List.mem_cons.1 ha with h1 | h1
        · exact h1
        · exact absurd hpa (h0 a h1)
      have hbx : b = x := by
        rcases List.mem_cons.1 hb with h1 | h1
        · exact h1
        · exact absurd hpb (h0 b h1)
      rw [hax, hbx]
    · simp only [hx, if_false, Nat.add_zero] at h
      have hax : a ∈ xs := by
        rcases List.mem_cons.1 ha with h1 | h1
        · subst h1; exact absurd hpa hx
        · exact h1
      have hbx : b ∈ xs := by
        rcases List.mem_cons.1 hb with h1 | h1
        · subst h1; exact absurd hpb hx
        · exact h1
      exact ih h hax hbx

/-- With exactly one name output `o`, the output loop ends with its index and
its decoded operation. -/
theorem scanOutputs_one (ext : Collaborators) (tx : CTransaction)
    (hout : nameOutputCount ext tx = 1) (o : CTxOut) (ho : o ∈ tx.vout)
    (hn : isNameOutput ext o = true) :
    ∃ out, scanOutputs ext.parseNameScript tx.vout 0 none = .done (some out) ∧
      tx.vout.getD out.nameOut default = o ∧
      ext.parseNameScript o.scriptPubKey = some out.nameOpOut := by
  unfold nameOutputCount at hout
  obtain ⟨r, hr⟩ := (scanOutputs_of_count ext tx.vout 0 none).2 (by simp [hout])
  obtain ⟨_, _, _, h4⟩ := scanOutputs_done ext tx.vout 0 none r hr
  obtain ⟨out, o', hro, _, hget, hop⟩ := h4 rfl hout
  have hmem : o' ∈ tx.vout := List.getElem?_mem hget
  have hn' : isNameOutput ext o' = true := by simp [isNameOutput, hop]
  have heq : o = o' := eq_of_countP_eq_one _ _ hout o o' ho hn hmem hn'
  subst heq
  refine ⟨out, by rw [hr, hro], ?_, hop⟩
  simp only [Nat.sub_zero] at hget
  simp [List.getD_eq_getElem?_getD, hget]

/-- With all input coins found and at most one of them a name coin, the input
loop ends, with a name input exactly when there is one. -/
theorem scanInputs_few (ext : Collaborators) (view : CCoinsView) (tx : CTransaction)
    (hfound : allInputsFound view tx = true) (hin : nameInputCount ext view tx ≤ 1) :
    ∃ nameIn, scanInputs ext.parseNameScript view tx.vin 0 none = .done nameIn ∧
      (nameIn.isSome = true ↔ nameInputCount ext view tx = 1) := by
  unfold nameInputCount at *
  obtain ⟨r, hr⟩ := (scanInputs_of_found ext view tx.vin 0 none hfound).2 (by simpa using hin)
  obtain ⟨_, _, h3⟩ := scanInputs_done ext view tx.vin 0 none r hr
  exact ⟨r, hr, by simpa using h3⟩

/-! ## Theorems about `CheckNameTransaction` -/

theorem IsValueValid_valid_or_reason (read : valtype → Option UniValue) (v : valtype) :
    IsValueValid read v = .valid ∨
      IsValueValid read v = consensusInvalid "tx-value-too-long" ∨
      IsValueValid read v = consensusInvalid "tx-value-invalid-json" ∨
      IsValueValid read v = consensusInvalid "tx-value-no-json-object" := by
  unfold IsValueValid
  repeat' split
  all_goals simp

theorem checkNameDatabase_ne_greedy (tx : CTransaction) (view : CCoinsView)
    (nameIn : Option NameInput) (nameOpOut : NameOperation) :
    checkNameDatabase tx view nameIn nameOpOut ≠ consensusInvalid "tx-name-greedy" := by
  unfold checkNameDatabase
  simp only [consensusInvalid]
  split_ifs <;> repeat' split
  all_goals simp

theorem CheckNameTransaction_of_scans (ext : Collaborators) (tx : CTransaction)
    (nHeight : Nat) (view : CCoinsView) (nameIn : Option NameInput)
    (hin : scanInputs ext.parseNameScript view tx.vin 0 none = .done nameIn) :
    CheckNameTransaction ext tx nHeight view =
      match scanOutputs ext.parseNameScript tx.vout 0 none with
      | .returned v => v
      | .done none =>
        if nameIn.isSome then consensusInvalid " tx-name-in-no-name-out" else .valid
      | .done (some output) =>
        if (tx.vout.getD output.nameOut default).nValue < ext.MinNameCoinAmount nHeight then
          consensusInvalid "tx-name-greedy"
        else if !output.nameOpOut.isAnyUpdate then .assertFailed
        else
          match nameInputRule nameIn output.nameOpOut with
          | some v => v
          | none =>
            match IsNameValid ext.IsValidUtf8String output.nameOpOut.name with
            | .valid =>
              match IsValueValid ext.read output.nameOpOut.value with
              | .valid => checkNameDatabase tx view nameIn output.nameOpOut
              | v => v
            | v => v := by
  simp only [CheckNameTransaction, hin]

theorem scanOutputs_none (ext : Collaborators) (tx : CTransaction)
    (hout : nameOutputCount ext tx = 0) :
    scanOutputs ext.parseNameScript tx.vout 0 none = .done none := by
  unfold nameOutputCount at hout
  obtain ⟨r, hr⟩ := (scanOutputs_of_count ext tx.vout 0 none).2 (by simp [hout])
  obtain ⟨_, _, h3, _⟩ := scanOutputs_done ext tx.vout 0 none r hr
  rw [hr, h3 rfl hout]

theorem CheckNameTransaction_multiple_inputs (ext : Collaborators) (view : CCoinsView) (tx : CTransaction)
    (nHeight : Nat)
    (hfound : allInputsFound view tx = true) (hin : 2 ≤ nameInputCount ext view tx) :
    CheckNameTransaction ext tx nHeight view =
      consensusInvalid "tx-multiple-name-inputs" := by
  have h := (scanInputs_of_found ext view tx.vin 0 none hfound).1
    (by simpa [nameInputCount] using hin)
  simp only [CheckNameTransaction, h]

/-- C6: a transaction without a name output, all of whose input coins exist,
is accepted exactly when none of its input coins carries a name operation, at
every height; one that spends a name coin is rejected, with the reason
` tx-name-in-no-name-out` when it spends exactly one. -/
theorem CheckNameTransaction_no_name_output (ext : Collaborators) (tx : CTransaction)
    (nHeight : Nat) (view : CCoinsView)
    (hout : nameOutputCount ext tx = 0) (hfound : allInputsFound view tx = true) :
    (CheckNameTransaction ext tx nHeight view = .valid ↔
      nameInputCount ext view tx = 0) ∧
    (nameInputCount ext view tx ≠ 0 →
      (CheckNameTransaction ext tx nHeight view).isRejected = true) ∧
    (nameInputCount ext view tx = 1 →
      CheckNameTransaction ext tx nHeight view =
        consensusInvalid " tx-name-in-no-name-out") := by
  by_cases hmany : 2 ≤ nameInputCount ext view tx
  · rw [CheckNameTransaction_multiple_inputs ext view tx nHeight hfound hmany]
    refine ⟨?_, ?_, ?_⟩
    · constructor
      · intro h; cases h
      · intro h; omega
    · intro _; rfl
    · intro h; omega
  · obtain ⟨nameIn, hscan, hsome⟩ := scanInputs_few ext view tx hfound (by omega)
    rw [CheckNameTransaction_of_scans ext tx nHeight view nameIn hscan,
      scanOutputs_none ext tx hout]
    cases hn : nameIn with
    | none =>
      have h1 : ¬ nameInputCount ext view tx = 1 := by
        intro h; rw [hn] at hsome; simpa using hsome.2 h
      have h0 : nameInputCount ext view tx = 0 := by omega
      simp [h0]
    | some input =>
      have h1 : nameInputCount ext view tx = 1 := by
        rw [hn] at hsome; exact hsome.1 rfl
      simp [h1, consensusInvalid, Verdict.isRejected]

theorem CheckNameTransaction_no_name_output_witness :
    (nameOutputCount exampleCollaborators tx_plain = 0 ∧
      allInputsFound exampleView tx_plain = true ∧
      nameInputCount exampleCollaborators exampleView tx_plain = 0 ∧
      CheckNameTransaction exampleCollaborators tx_plain 50 exampleView = .valid) ∧
    (nameOutputCount exampleCollaborators tx_spend_name = 0 ∧
      allInputsFound exampleView tx_spend_name = true ∧
      nameInputCount exampleCollaborators exampleView tx_spend_name = 1 ∧
      CheckNameTransaction exampleCollaborators tx_spend_name 50 exampleView =
        consensusInvalid " tx-name-in-no-name-out") :=
  ⟨⟨by decide, by decide, by decide,
    (CheckNameTransaction_no_name_output exampleCollaborators tx_plain 50 exampleView
      (by decide) (by decide)).1.2 (by decide)⟩,
   ⟨by decide, by decide, by decide,
    (CheckNameTransaction_no_name_output exampleCollaborators tx_spend_name 50 exampleView
      (by decide) (by decide)).2.2 (by decide)⟩⟩

/-- C7: `CheckNameTransaction` accepts a transaction only if at most one of its
input coins carries a name operation and at most one of its outputs is one; with
all input coins found, two or more name inputs are rejected as
`tx-multiple-name-inputs`, and otherwise two or more name outputs as
`tx-multiple-name-outputs`. -/
theorem CheckNameTransaction_at_most_one (ext : Collaborators) (tx : CTransaction)
    (nHeight : Nat) (view : CCoinsView) :
    (CheckNameTransaction ext tx nHeight view = .valid →
      nameInputCount ext view tx ≤ 1 ∧ nameOutputCount ext tx ≤ 1) ∧
    (allInputsFound view tx = true → 2 ≤ nameInputCount ext view tx →
      CheckNameTransaction ext tx nHeight view =
        consensusInvalid "tx-multiple-name-inputs") ∧
    (allInputsFound view tx = true → nameInputCount ext view tx ≤ 1 →
      2 ≤ nameOutputCount ext tx →
      CheckNameTransaction ext tx nHeight view =
        consensusInvalid "tx-multiple-name-outputs") := by
  refine ⟨?_, CheckNameTransaction_multiple_inputs ext view tx nHeight, ?_⟩
  · intro hvalid
    cases hin : scanInputs ext.parseNameScript view tx.vin 0 none with
    | returned v =>
      simp only [CheckNameTransaction, hin] at hvalid
      rcases scanInputs_returned _ _ _ _ _ _ hin with h | h <;> rw [h] at hvalid <;>
        cases hvalid
    | done nameIn =>
      obtain ⟨_, h2, _⟩ := scanInputs_done ext view tx.vin 0 none nameIn hin
      cases hout : scanOutputs ext.parseNameScript tx.vout 0 none with
      | returned v =>
        simp only [CheckNameTransaction, hin, hout] at hvalid
        rw [scanOutputs_returned _ _ _ _ _ hout] at hvalid
        cases hvalid
      | done r =>
        obtain ⟨h2', _⟩ := scanOutputs_done ext tx.vout 0 none r hout
        exact ⟨by simpa [nameInputCount] using h2, by simpa [nameOutputCount] using h2'⟩
  · intro hfound hin hout
    obtain ⟨nameIn, hscan, _⟩ := scanInputs_few ext view tx hfound hin
    have h := (scanOutputs_of_count ext tx.vout 0 none).1
      (by simpa [nameOutputCount] using hout)
    simp only [CheckNameTransaction, hscan, h]

theorem CheckNameTransaction_at_most_one_witness :
    (CheckNameTransaction exampleCollaborators tx_plain 50 exampleView = .valid ∧
      nameInputCount exampleCollaborators exampleView tx_plain ≤ 1 ∧
      nameOutputCount exampleCollaborators tx_plain ≤ 1) ∧
    (allInputsFound exampleView tx_two_name_inputs = true ∧
      2 ≤ nameInputCount exampleCollaborators exampleView tx_two_name_inputs ∧
      CheckNameTransaction exampleCollaborators tx_two_name_inputs 50 exampleView =
        consensusInvalid "tx-multiple-name-inputs") ∧
    (allInputsFound exampleView tx_two_name_outputs = true ∧
      nameInputCount exampleCollaborators exampleView tx_two_name_outputs ≤ 1 ∧
      2 ≤ nameOutputCount exampleCollaborators tx_two_name_outputs ∧
      CheckNameTransaction exampleCollaborators tx_two_name_outputs 50 exampleView =
        consensusInvalid "tx-multiple-name-outputs") :=
  ⟨⟨by decide,
    (CheckNameTransaction_at_most_one exampleCollaborators tx_plain 50 exampleView).1
      (by decide)⟩,
   ⟨by decide, by decide,
    (CheckNameTransaction_at_most_one exampleCollaborators tx_two_name_inputs 50
      exampleView).2.1 (by decide) (by decide)⟩,
   ⟨by decide, by decide, by decide,
    (CheckNameTransaction_at_most_one exampleCollaborators tx_two_name_outputs 50
      exampleView).2.2 (by decide) (by decide) (by decide)⟩⟩

/-- C8: a transaction that refers to an input coin that is not in the view is
rejected, whether or not it carries a name operation; when the inputs before the
first missing one hold at most one name coin, the rejection is
`bad-txns-inputs-missingorspent` with reason `TX_MISSING_INPUTS`. -/
theorem CheckNameTransaction_missing_input (ext : Collaborators) (tx : CTransaction)
    (nHeight : Nat) (view : CCoinsView) :
    (allInputsFound view tx = false →
      (CheckNameTransaction ext tx nHeight view).isRejected = true) ∧
    (∀ (pre post : List CTxIn) (txin : CTxIn), tx.vin = pre ++ txin :: post →
      pre.all (inputFound view) = true → view.GetCoin txin.prevout = none →
      pre.countP (isNameInput ext view) ≤ 1 →
      CheckNameTransaction ext tx nHeight view =
        .invalid .TX_MISSING_INPUTS "bad-txns-inputs-missingorspent") := by
  constructor
  · intro hmiss
    cases hin : scanInputs ext.parseNameScript view tx.vin 0 none with
    | returned v =>
      simp only [CheckNameTransaction, hin]
      rcases scanInputs_returned _ _ _ _ _ _ hin with h | h <;> rw [h] <;> rfl
    | done nameIn =>
      obtain ⟨h1, _⟩ := scanInputs_done ext view tx.vin 0 none nameIn hin
      rw [allInputsFound, h1] at hmiss
      cases hmiss
  · intro pre post txin hvin hpre hmiss hcount
    obtain ⟨r, hr⟩ := (scanInputs_of_found ext view pre 0 none hpre).2 (by simpa using hcount)
    have h : scanInputs ext.parseNameScript view tx.vin 0 none = .returned missingInputs := by
      rw [hvin, scanInputs_append, hr]
      simp only [scanInputs, hmiss, missingInputs]
    simp only [CheckNameTransaction, h, missingInputs]

theorem CheckNameTransaction_missing_input_witness :
    allInputsFound exampleView tx_missing_input = false ∧
    (CheckNameTransaction exampleCollaborators tx_missing_input 50 exampleView).isRejected
      = true ∧
    CheckNameTransaction exampleCollaborators tx_missing_input 50 exampleView =
      .invalid .TX_MISSING_INPUTS "bad-txns-inputs-missingorspent" :=
  ⟨by decide,
   (CheckNameTransaction_missing_input exampleCollaborators tx_missing_input 50
      exampleView).1 (by decide),
   (CheckNameTransaction_missing_input exampleCollaborators tx_missing_input 50
      exampleView).2 [⟨⟨101, 0⟩⟩] [⟨⟨102, 0⟩⟩] ⟨⟨999, 0⟩⟩ (by decide) (by decide) (by decide)
      (by decide)⟩

/-- With exactly one name output `o` and the input loop done, the verdict of
`CheckNameTransaction` is that of the tests on `o` and its operation. -/
theorem CheckNameTransaction_one_output (ext : Collaborators) (tx : CTransaction)
    (nHeight : Nat) (view : CCoinsView) (o : CTxOut) (nameOp : NameOperation)
    (hout : nameOutputCount ext tx = 1) (hfound : allInputsFound view tx = true)
    (hin : nameInputCount ext view tx ≤ 1) (ho : o ∈ tx.vout)
    (hop : ext.parseNameScript o.scriptPubKey = some nameOp) :
    ∃ nameIn : Option NameInput,
      (nameIn.isSome = true ↔ nameInputCount ext view tx = 1) ∧
      CheckNameTransaction ext tx nHeight view =
        if o.nValue < ext.MinNameCoinAmount nHeight then consensusInvalid "tx-name-greedy"
        else
          match nameInputRule nameIn nameOp with
          | some v => v
          | none =>
            match IsNameValid ext.IsValidUtf8String nameOp.name with
            | .valid =>
              match IsValueValid ext.read nameOp.value with
              | .valid => checkNameDatabase tx view nameIn nameOp
              | v => v
            | v => v := by
  obtain ⟨nameIn, hscan, hsome⟩ := scanInputs_few ext view tx hfound hin
  have hn : isNameOutput ext o = true := by simp [isNameOutput, hop]
  obtain ⟨out, hscanOut, hget, hop'⟩ := scanOutputs_one ext tx hout o ho hn
  have hopEq : out.nameOpOut = nameOp := by
    rw [hop] at hop'; exact (Option.some.inj hop').symm
  refine ⟨nameIn, hsome, ?_⟩
  rw [CheckNameTransaction_of_scans ext tx nHeight view nameIn hscan, hscanOut]
  simp only [hget, hopEq]
  have hany : nameOp.isAnyUpdate = true := by
    unfold NameOperation.isAnyUpdate; cases nameOp.op <;> rfl
  simp [hany]

/-- C9: with exactly one name output (all input coins found, at most one name
input), at every height an amount below `MinNameCoinAmount` is rejected as
`tx-name-greedy`, whatever the name, the value and the kind of operation, and an
amount equal to it is never rejected as greedy. -/
theorem CheckNameTransaction_greedy (ext : Collaborators) (tx : CTransaction)
    (nHeight : Nat) (view : CCoinsView) (o : CTxOut)
    (hout : nameOutputCount ext tx = 1) (hfound : allInputsFound view tx = true)
    (hin : nameInputCount ext view tx ≤ 1) (ho : o ∈ tx.vout)
    (hn : isNameOutput ext o = true) :
    (o.nValue < ext.MinNameCoinAmount nHeight →
      CheckNameTransaction ext tx nHeight view = consensusInvalid "tx-name-greedy") ∧
    (o.nValue = ext.MinNameCoinAmount nHeight →
      CheckNameTransaction ext tx nHeight view ≠ consensusInvalid "tx-name-greedy") := by
  simp only [isNameOutput, Option.isSome_iff_exists] at hn
  obtain ⟨nameOp, hop⟩ := hn
  obtain ⟨nameIn, _, hcheck⟩ :=
    CheckNameTransaction_one_output ext tx nHeight view o nameOp hout hfound hin ho hop
  rw [hcheck]
  constructor
  · intro hlt
    simp [hlt]
  · intro heq
    have hnlt : ¬ o.nValue < ext.MinNameCoinAmount nHeight := by
      rw [heq]; exact lt_irrefl _
    simp only [hnlt, if_false]
    cases hrule : nameInputRule nameIn nameOp with
    | some v =>
      simp only []
      unfold nameInputRule at hrule
      split_ifs at hrule <;> cases hrule <;> simp [consensusInvalid]
    | none =>
      simp only []
      rcases IsNameValid_valid_or_reason ext.IsValidUtf8String nameOp.name with
        h | ⟨c, hc, h⟩
      · rw [h]
        simp only []
        rcases IsValueValid_valid_or_reason ext.read nameOp.value with h | h | h | h
        · rw [h]; exact checkNameDatabase_ne_greedy tx view nameIn nameOp
        · rw [h]; simp [consensusInvalid]
        · rw [h]; simp [consensusInvalid]
        · rw [h]; simp [consensusInvalid]
      · rw [h]
        simp only [nameRejectReasons, List.mem_cons, List.mem_singleton, List.mem_nil_iff,
          or_false] at hc
        rcases hc with hc | hc | hc | hc | hc | hc <;> subst hc <;> simp [consensusInvalid]

theorem CheckNameTransaction_greedy_witness :
    (nameOutputCount exampleCollaborators tx_greedy = 1 ∧
      allInputsFound exampleView tx_greedy = true ∧
      nameInputCount exampleCollaborators exampleView tx_greedy ≤ 1 ∧
      txout_greedy ∈ tx_greedy.vout ∧
      txout_greedy.nValue < exampleCollaborators.MinNameCoinAmount 50 ∧
      CheckNameTransaction exampleCollaborators tx_greedy 50 exampleView =
        consensusInvalid "tx-name-greedy") ∧
    (nameOutputCount exampleCollaborators tx_at_floor = 1 ∧
      allInputsFound exampleView tx_at_floor = true ∧
      nameInputCount exampleCollaborators exampleView tx_at_floor ≤ 1 ∧
      txout_at_floor ∈ tx_at_floor.vout ∧
      txout_at_floor.nValue = exampleCollaborators.MinNameCoinAmount 50 ∧
      CheckNameTransaction exampleCollaborators tx_at_floor 50 exampleView ≠
        consensusInvalid "tx-name-greedy") :=
  ⟨⟨by decide, by decide, by decide, by decide, by decide,
    (CheckNameTransaction_greedy exampleCollaborators tx_greedy 50 exampleView txout_greedy
      (by decide) (by decide) (by decide) (by decide) (by decide)).1 (by decide)⟩,
   ⟨by decide, by decide, by decide, by decide, by decide,
    (CheckNameTransaction_greedy exampleCollaborators tx_at_floor 50 exampleView
      txout_at_floor (by decide) (by decide) (by decide) (by decide) (by decide)).2
      (by decide)⟩⟩

/-- C10, as the code has it: the name and the value are validated after the
tests on the presence of a name input and before every other rule. With exactly
one name output of at least the floor amount (all input coins found) that is a
REGISTER without a name input or an UPDATE with one, a name that fails
`IsNameValid`, or a value that fails `IsValueValid` under a valid name, is
rejected with exactly the verdict of `IsNameValid` or `IsValueValid`. -/
theorem CheckNameTransaction_validity_after_presence (ext : Collaborators)
    (tx : CTransaction) (nHeight : Nat) (view : CCoinsView) (o : CTxOut)
    (nameOp : NameOperation)
    (hout : nameOutputCount ext tx = 1) (hfound : allInputsFound view tx = true)
    (ho : o ∈ tx.vout) (hop : ext.parseNameScript o.scriptPubKey = some nameOp)
    (hfloor : ext.MinNameCoinAmount nHeight ≤ o.nValue)
    (hpresence : (nameOp.op = .OP_NAME_REGISTER ∧ nameInputCount ext view tx = 0) ∨
      (nameOp.op = .OP_NAME_UPDATE ∧ nameInputCount ext view tx = 1)) :
    (IsNameValid ext.IsValidUtf8String nameOp.name ≠ .valid →
      CheckNameTransaction ext tx nHeight view =
        IsNameValid ext.IsValidUtf8String nameOp.name) ∧
    (IsNameValid ext.IsValidUtf8String nameOp.name = .valid →
      IsValueValid ext.read nameOp.value ≠ .valid →
      CheckNameTransaction ext tx nHeight view = IsValueValid ext.read nameOp.value) := by
  have hin : nameInputCount ext view tx ≤ 1 := by
    rcases hpresence with ⟨_, h⟩ | ⟨_, h⟩ <;> omega
  obtain ⟨nameIn, hsome, hcheck⟩ :=
    CheckNameTransaction_one_output ext tx nHeight view o nameOp hout hfound hin ho hop
  have hnlt : ¬ o.nValue < ext.MinNameCoinAmount nHeight := not_lt.mpr hfloor
  have hrule : nameInputRule nameIn nameOp = none := by
    unfold nameInputRule
    rcases hpresence with ⟨hk, hc⟩ | ⟨hk, hc⟩
    · have : nameIn.isSome = false := by
        cases hs : nameIn.isSome with
        | false => rfl
        | true => have := hsome.1 hs; omega
      simp [hk, this]
    · have : nameIn.isSome = true := hsome.2 hc
      have hnone : nameIn.isNone = false := by
        cases nameIn with
        | none => simp at this
        | some _ => rfl
      simp [hk, hnone]
  rw [hcheck]
  simp only [hnlt, if_false, hrule]
  constructor
  · intro hname
    cases hv : IsNameValid ext.IsValidUtf8String nameOp.name with
    | valid => exact absurd hv hname
    | invalid r c => rfl
    | assertFailed => rfl
  · intro hname hvalue
    rw [hname]
    cases hv : IsValueValid ext.read nameOp.value with
    | valid => exact absurd hv hvalue
    | invalid r c => rfl
    | assertFailed => rfl

theorem CheckNameTransaction_validity_after_presence_witness :
    (nameOutputCount exampleCollaborators tx_register_Alice = 1 ∧
      allInputsFound exampleView tx_register_Alice = true ∧
      nameInputCount exampleCollaborators exampleView tx_register_Alice = 0 ∧
      CheckNameTransaction exampleCollaborators tx_register_Alice 50 exampleView =
        IsNameValid IsValidUtf8String name_Alice ∧
      IsNameValid IsValidUtf8String name_Alice =
        consensusInvalid "tx-name-invalid-namespace") ∧
    (nameOutputCount exampleCollaborators tx_update_hello = 1 ∧
      allInputsFound exampleView tx_update_hello = true ∧
      nameInputCount exampleCollaborators exampleView tx_update_hello = 1 ∧
      CheckNameTransaction exampleCollaborators tx_update_hello 50 exampleView =
        IsValueValid UniValue.read value_hello ∧
      IsValueValid UniValue.read value_hello =
        consensusInvalid "tx-value-invalid-json") :=
  ⟨⟨by decide, by decide, by decide,
    (CheckNameTransaction_validity_after_presence exampleCollaborators tx_register_Alice 50
      exampleView txout_register_Alice
      ⟨.OP_NAME_REGISTER, name_Alice, value_msg_hi, []⟩
      (by decide) (by decide) (by decide) (by decide) (by decide)
      (Or.inl ⟨rfl, by decide⟩)).1 (by decide),
    by decide⟩,
   ⟨by decide, by decide, by decide,
    (CheckNameTransaction_validity_after_presence exampleCollaborators tx_update_hello 50
      exampleView txout_update_hello
      ⟨.OP_NAME_UPDATE, name_p_alice, value_hello, []⟩
      (by decide) (by decide) (by decide) (by decide) (by decide)
      (Or.inr ⟨rfl, by decide⟩)).2 (by decide) (by decide),
    by decide⟩⟩

/-- C10 fails as stated: `tx_register_Alice_with_name_input` has exactly one
name output, a REGISTER of the invalid name `Alice` with the floor amount, all
input coins found and one name input; `IsNameValid` reports
`tx-name-invalid-namespace`, but `CheckNameTransaction` rejects with
`tx-nameregister-without-name-in`, the name-input rule being tested first. -/
theorem CheckNameTransaction_validity_first_counterexample :
    nameOutputCount exampleCollaborators tx_register_Alice_with_name_input = 1 ∧
    allInputsFound exampleView tx_register_Alice_with_name_input = true ∧
    nameInputCount exampleCollaborators exampleView tx_register_Alice_with_name_input ≤ 1 ∧
    txout_register_Alice ∈ tx_register_Alice_with_name_input.vout ∧
    exampleCollaborators.parseNameScript txout_register_Alice.scriptPubKey =
      some ⟨.OP_NAME_REGISTER, name_Alice, value_msg_hi, []⟩ ∧
    exampleCollaborators.MinNameCoinAmount 50 ≤ txout_register_Alice.nValue ∧
    IsNameValid exampleCollaborators.IsValidUtf8String name_Alice =
      consensusInvalid "tx-name-invalid-namespace" ∧
    CheckNameTransaction exampleCollaborators tx_register_Alice_with_name_input 50
      exampleView = consensusInvalid "tx-nameregister-without-name-in" ∧
    CheckNameTransaction exampleCollaborators tx_register_Alice_with_name_input 50
      exampleView ≠ IsNameValid exampleCollaborators.IsValidUtf8String name_Alice := by
  decide

/-! ## The REGISTER and UPDATE rules of `CheckNameTransaction` -/

theorem scanInputs_done_detail (P : CScript → Option NameOperation) (view : CCoinsView)
    (l : List CTxIn) (i : Nat) (acc r : Option NameInput)
    (h : scanInputs P view l i acc = .done r) :
    (acc.isSome = true → r = acc) ∧
    (acc = none → ∀ input, r = some input → i ≤ input.nameIn ∧
      ∃ txin, l[input.nameIn - i]? = some txin ∧
        view.GetCoin txin.prevout = some input.coinIn ∧
        P input.coinIn.out.scriptPubKey = some input.nameOpIn) := by
  induction l generalizing i acc with
  | nil =>
    simp only [scanInputs, InputScan.done.injEq] at h
    subst h
    refine ⟨fun _ => rfl, ?_⟩
    intro hacc input hr
    rw [hacc] at hr
    cases hr
  | cons txin l ih =>
    simp only [scanInputs] at h
    cases hc : view.GetCoin txin.prevout with
    | none => simp [hc] at h
    | some coin =>
      simp only [hc] at h
      cases hp : P coin.out.scriptPubKey with
      | none =>
        simp only [hp] at h
        obtain ⟨h1, h2⟩ := ih _ _ h
        refine ⟨h1, ?_⟩
        intro hacc input hr
        obtain ⟨hle, t, hget, hcoin, hop⟩ := h2 hacc input hr
        refine ⟨by omega, t, ?_, hcoin, hop⟩
        have : input.nameIn - i = (input.nameIn - (i + 1)) + 1 := by omega
        rw [this, List.getElem?_cons_succ]
        exact hget
      | some op =>
        simp only [hp] at h
        cases acc with
        | some a => simp at h
        | none =>
          simp only [Option.isSome_none, Bool.false_eq_true, if_false] at h
          obtain ⟨h1, _⟩ := ih _ _ h
          have hr := h1 rfl
          refine ⟨fun hc' => (by cases hc'), ?_⟩
          intro _ input hrin
          rw [hr] at hrin
          cases hrin
          exact ⟨le_refl _, txin, by simp, hc, hp⟩

/-- With all input coins found and exactly one of them a name coin, the input
loop ends with that input, its coin and its decoded operation. -/
theorem scanInputs_one (ext : Collaborators) (view : CCoinsView) (tx : CTransaction)
    (hfound : allInputsFound view tx = true) (hin : nameInputCount ext view tx = 1)
    (txin : CTxIn) (coin : Coin) (opIn : NameOperation) (hmem : txin ∈ tx.vin)
    (hcoin : view.GetCoin txin.prevout = some coin)
    (hop : ext.parseNameScript coin.out.scriptPubKey = some opIn) :
    ∃ input, scanInputs ext.parseNameScript view tx.vin 0 none = .done (some input) ∧
      tx.vin.getD input.nameIn default = txin ∧ input.coinIn = coin ∧
      input.nameOpIn = opIn := by
  obtain ⟨nameIn, hscan, hsome⟩ := scanInputs_few ext view tx hfound (by omega)
  have hs := hsome.2 hin
  obtain ⟨input, hinput⟩ := Option.isSome_iff_exists.1 hs
  subst hinput
  obtain ⟨_, h2⟩ := scanInputs_done_detail _ view tx.vin 0 none _ hscan
  obtain ⟨_, t, hget, hc, hp⟩ := h2 rfl input rfl
  simp only [Nat.sub_zero] at hget
  have ht : isNameInput ext view t = true := by simp [isNameInput, hc, hp]
  have htx : isNameInput ext view txin = true := by simp [isNameInput, hcoin, hop]
  have heq : t = txin :=
    eq_of_countP_eq_one _ _ hin t txin (List.getElem?_mem hget) ht hmem htx
  subst heq
  rw [hcoin] at hc
  have hcc : coin = input.coinIn := Option.some.inj hc
  subst hcc
  rw [hop] at hp
  refine ⟨input, hscan, ?_, rfl, (Option.some.inj hp).symm⟩
  simp [List.getD_eq_getElem?_getD, hget]

/-- The verdict of `CheckNameTransaction` on a transaction with exactly one
name output `o`, once the input loop is done. -/
theorem CheckNameTransaction_one_output_scan (ext : Collaborators) (tx : CTransaction)
    (nHeight : Nat) (view : CCoinsView) (o : CTxOut) (nameOp : NameOperation)
    (nameIn : Option NameInput)
    (hout : nameOutputCount ext tx = 1) (ho : o ∈ tx.vout)
    (hop : ext.parseNameScript o.scriptPubKey = some nameOp)
    (hscan : scanInputs ext.parseNameScript view tx.vin 0 none = .done nameIn) :
    CheckNameTransaction ext tx nHeight view =
      if o.nValue < ext.MinNameCoinAmount nHeight then consensusInvalid "tx-name-greedy"
      else
        match nameInputRule nameIn nameOp with
        | some v => v
        | none =>
          match IsNameValid ext.IsValidUtf8String nameOp.name with
          | .valid =>
            match IsValueValid ext.read nameOp.value with
            | .valid => checkNameDatabase tx view nameIn nameOp
            | v => v
          | v => v := by
  have hn : isNameOutput ext o = true := by simp [isNameOutput, hop]
  obtain ⟨out, hscanOut, hget, hop'⟩ := scanOutputs_one ext tx hout o ho hn
  have hopEq : out.nameOpOut = nameOp := by
    rw [hop] at hop'; exact (Option.some.inj hop').symm
  rw [CheckNameTransaction_of_scans ext tx nHeight view nameIn hscan, hscanOut]
  simp only [hget, hopEq]
  have hany : nameOp.isAnyUpdate = true := by
    unfold NameOperation.isAnyUpdate; cases nameOp.op <;> rfl
  simp [hany]

/-- What acceptance says of a transaction with a name output `o`: it is the
only name output, all input coins are found, at most one is a name coin, and
every test on `o` has passed. -/
theorem CheckNameTransaction_valid_name_output (ext : Collaborators) (tx : CTransaction)
    (nHeight : Nat) (view : CCoinsView) (o : CTxOut) (nameOp : NameOperation)
    (hvalid : CheckNameTransaction ext tx nHeight view = .valid) (ho : o ∈ tx.vout)
    (hop : ext.parseNameScript o.scriptPubKey = some nameOp) :
    nameOutputCount ext tx = 1 ∧ allInputsFound view tx = true ∧
    nameInputCount ext view tx ≤ 1 ∧
    ∃ nameIn, scanInputs ext.parseNameScript view tx.vin 0 none = .done nameIn ∧
      ¬ o.nValue < ext.MinNameCoinAmount nHeight ∧
      nameInputRule nameIn nameOp = none ∧
      IsNameValid ext.IsValidUtf8String nameOp.name = .valid ∧
      IsValueValid ext.read nameOp.value = .valid ∧
      checkNameDatabase tx view nameIn nameOp = .valid := by
  cases hin : scanInputs ext.parseNameScript view tx.vin 0 none with
  | returned v =>
    simp only [CheckNameTransaction, hin] at hvalid
    rcases scanInputs_returned _ _ _ _ _ _ hin with h | h <;> rw [h] at hvalid <;>
      cases hvalid
  | done nameIn =>
    obtain ⟨hfound, hcount, _⟩ := scanInputs_done ext view tx.vin 0 none nameIn hin
    cases hout : scanOutputs ext.parseNameScript tx.vout 0 none with
    | returned v =>
      simp only [CheckNameTransaction, hin, hout] at hvalid
      rw [scanOutputs_returned _ _ _ _ _ hout] at hvalid
      cases hvalid
    | done r =>
      obtain ⟨hc', _⟩ := scanOutputs_done ext tx.vout 0 none r hout
      have hn : isNameOutput ext o = true := by simp [isNameOutput, hop]
      have hpos : 0 < tx.vout.countP (isNameOutput ext) :=
        List.countP_pos_iff.2 ⟨o, ho, hn⟩
      have hone : nameOutputCount ext tx = 1 := by
        simp only [Option.isSome_none, Bool.false_eq_true, if_false, Nat.zero_add] at hc'
        unfold nameOutputCount; omega
      refine ⟨hone, hfound, by simpa [nameInputCount] using hcount, nameIn, rfl, ?_⟩
      rw [CheckNameTransaction_one_output_scan ext tx nHeight view o nameOp nameIn hone ho hop
        hin] at hvalid
      by_cases hg : o.nValue < ext.MinNameCoinAmount nHeight
      · simp [hg, consensusInvalid] at hvalid
      · simp only [hg, if_false] at hvalid
        refine ⟨hg, ?_⟩
        cases hrule : nameInputRule nameIn nameOp with
        | some v =>
          simp only [hrule] at hvalid
          unfold nameInputRule at hrule
          split_ifs at hrule <;> cases hrule <;> cases hvalid
        | none =>
          simp only [hrule] at hvalid
          refine ⟨rfl, ?_⟩
          cases hname : IsNameValid ext.IsValidUtf8String nameOp.name with
          | invalid a b => simp [hname] at hvalid
          | assertFailed => simp [hname] at hvalid
          | valid =>
            simp only [hname] at hvalid
            refine ⟨rfl, ?_⟩
            cases hvalue : IsValueValid ext.read nameOp.value with
            | invalid a b => simp [hvalue] at hvalid
            | assertFailed => simp [hvalue] at hvalid
            | valid =>
              simp only [hvalue] at hvalid
              exact ⟨rfl, hvalid⟩

theorem NameOperation.isAnyUpdate_eq_true (nameOp : NameOperation) :
    nameOp.isAnyUpdate = true := by
  unfold NameOperation.isAnyUpdate
  cases nameOp.op <;> rfl

/-- The verdict on an UPDATE that has passed the amount and validity tests and
whose one name input carries the same name: the test of the name database. -/
theorem CheckNameTransaction_update_verdict (ext : Collaborators) (tx : CTransaction)
    (nHeight : Nat) (view : CCoinsView) (o : CTxOut) (nameOp : NameOperation)
    (txin : CTxIn) (coin : Coin) (opIn : NameOperation)
    (hout : nameOutputCount ext tx = 1) (hfound : allInputsFound view tx = true)
    (ho : o ∈ tx.vout) (hop : ext.parseNameScript o.scriptPubKey = some nameOp)
    (hupd : nameOp.op = .OP_NAME_UPDATE)
    (hfloor : ext.MinNameCoinAmount nHeight ≤ o.nValue)
    (hname : IsNameValid ext.IsValidUtf8String nameOp.name = .valid)
    (hvalue : IsValueValid ext.read nameOp.value = .valid)
    (hin : nameInputCount ext view tx = 1) (hmem : txin ∈ tx.vin)
    (hcoin : view.GetCoin txin.prevout = some coin)
    (hopIn : ext.parseNameScript coin.out.scriptPubKey = some opIn)
    (hsame : opIn.name = nameOp.name) :
    CheckNameTransaction ext tx nHeight view =
      if coin.nHeight = MEMPOOL_HEIGHT then .valid
      else
        match view.GetName nameOp.name with
        | none => consensusInvalid "tx-nameupdate-nonexistant"
        | some oldName =>
          if coin.nHeight ≠ oldName.nHeight then .assertFailed
          else if txin.prevout ≠ oldName.prevout then .assertFailed
          else .valid := by
  obtain ⟨input, hscan, hget, hc, hi⟩ :=
    scanInputs_one ext view tx hfound hin txin coin opIn hmem hcoin hopIn
  rw [CheckNameTransaction_one_output_scan ext tx nHeight view o nameOp (some input) hout ho
    hop hscan]
  have hnlt : ¬ o.nValue < ext.MinNameCoinAmount nHeight := not_lt.mpr hfloor
  have hrule : nameInputRule (some input) nameOp = none := by
    simp [nameInputRule, hupd]
  simp only [hnlt, if_false, hrule, hname, hvalue]
  unfold checkNameDatabase
  simp only [hupd, if_true, hi, NameOperation.isAnyUpdate_eq_true, Bool.not_true,
    Bool.false_eq_true, if_false, hsame, ne_eq, not_true_eq_false, hc, hget]

/-- The verdict on a REGISTER without a name input that has passed the amount
and validity tests: the test of the name database. -/
theorem CheckNameTransaction_register_verdict (ext : Collaborators) (tx : CTransaction)
    (nHeight : Nat) (view : CCoinsView) (o : CTxOut) (nameOp : NameOperation)
    (hout : nameOutputCount ext tx = 1) (hfound : allInputsFound view tx = true)
    (hin : nameInputCount ext view tx = 0)
    (ho : o ∈ tx.vout) (hop : ext.parseNameScript o.scriptPubKey = some nameOp)
    (hreg : nameOp.op = .OP_NAME_REGISTER)
    (hfloor : ext.MinNameCoinAmount nHeight ≤ o.nValue)
    (hname : IsNameValid ext.IsValidUtf8String nameOp.name = .valid)
    (hvalue : IsValueValid ext.read nameOp.value = .valid) :
    CheckNameTransaction ext tx nHeight view =
      match view.GetName nameOp.name with
      | some _ => consensusInvalid "tx-nameregister-existing-name"
      | none => .valid := by
  obtain ⟨nameIn, hscan, hsome⟩ := scanInputs_few ext view tx hfound (by omega)
  have hnone : nameIn = none := by
    cases nameIn with
    | none => rfl
    | some input => have := hsome.1 rfl; omega
  subst hnone
  rw [CheckNameTransaction_one_output_scan ext tx nHeight view o nameOp none hout ho hop hscan]
  have hnlt : ¬ o.nValue < ext.MinNameCoinAmount nHeight := not_lt.mpr hfloor
  have hrule : nameInputRule none nameOp = none := by
    simp [nameInputRule, hreg]
  simp only [hnlt, if_false, hrule, hname, hvalue]
  unfold checkNameDatabase
  simp [hreg]

/-- C11: a transaction whose name output is a REGISTER and which has a name
input coin is rejected, for every view, height, name and value; once the
earlier tests pass (all input coins found, one name input, one name output, an
amount of at least the floor) the reason is `tx-nameregister-without-name-in`. -/
theorem CheckNameTransaction_register_with_name_input (ext : Collaborators)
    (tx : CTransaction) (nHeight : Nat) (view : CCoinsView) (o : CTxOut)
    (nameOp : NameOperation) (txin : CTxIn)
    (ho : o ∈ tx.vout) (hop : ext.parseNameScript o.scriptPubKey = some nameOp)
    (hreg : nameOp.op = .OP_NAME_REGISTER)
    (hmem : txin ∈ tx.vin) (hname : isNameInput ext view txin = true) :
    (CheckNameTransaction ext tx nHeight view).isRejected = true ∧
    (allInputsFound view tx = true → nameInputCount ext view tx = 1 →
      nameOutputCount ext tx = 1 → ext.MinNameCoinAmount nHeight ≤ o.nValue →
      CheckNameTransaction ext tx nHeight view =
        consensusInvalid "tx-nameregister-without-name-in") := by
  have hposIn : 0 < tx.vin.countP (isNameInput ext view) :=
    List.countP_pos_iff.2 ⟨txin, hmem, hname⟩
  have hn : isNameOutput ext o = true := by simp [isNameOutput, hop]
  have hposOut : 0 < tx.vout.countP (isNameOutput ext) :=
    List.countP_pos_iff.2 ⟨o, ho, hn⟩
  have key : ∀ nameIn, scanInputs ext.parseNameScript view tx.vin 0 none = .done nameIn →
      nameOutputCount ext tx = 1 →
      CheckNameTransaction ext tx nHeight view =
        if o.nValue < ext.MinNameCoinAmount nHeight then consensusInvalid "tx-name-greedy"
        else consensusInvalid "tx-nameregister-without-name-in" := by
    intro nameIn hscan hone
    obtain ⟨_, hcount, hsome⟩ := scanInputs_done ext view tx.vin 0 none nameIn hscan
    have hs : nameIn.isSome = true := by
      apply hsome.2
      right
      simp only [Option.isSome_none, Bool.false_eq_true, if_false, Nat.zero_add] at hcount
      omega
    rw [CheckNameTransaction_one_output_scan ext tx nHeight view o nameOp nameIn hone ho hop
      hscan]
    have hrule : nameInputRule nameIn nameOp =
        some (consensusInvalid "tx-nameregister-without-name-in") := by
      simp [nameInputRule, hreg, hs]
    simp only [hrule]
  constructor
  · cases hin : scanInputs ext.parseNameScript view tx.vin 0 none with
    | returned v =>
      simp only [CheckNameTransaction, hin]
      rcases scanInputs_returned _ _ _ _ _ _ hin with h | h <;> rw [h] <;> rfl
    | done nameIn =>
      cases hout : scanOutputs ext.parseNameScript tx.vout 0 none with
      | returned v =>
        simp only [CheckNameTransaction, hin, hout]
        rw [scanOutputs_returned _ _ _ _ _ hout]
        rfl
      | done r =>
        obtain ⟨hc', _⟩ := scanOutputs_done ext tx.vout 0 none r hout
        have hone : nameOutputCount ext tx = 1 := by
          simp only [Option.isSome_none, Bool.false_eq_true, if_false, Nat.zero_add] at hc'
          unfold nameOutputCount; omega
        rw [key nameIn hin hone]
        split_ifs <;> rfl
  · intro hfound hin hone hfloor
    obtain ⟨nameIn, hscan, _⟩ := scanInputs_few ext view tx hfound (by omega)
    rw [key nameIn hscan hone]
    simp [not_lt.mpr hfloor]

theorem CheckNameTransaction_register_with_name_input_witness :
    (CheckNameTransaction exampleCollaborators tx_register_Alice_with_name_input 50
      exampleView).isRejected = true ∧
    CheckNameTransaction exampleCollaborators tx_register_Alice_with_name_input 50
      exampleView = consensusInvalid "tx-nameregister-without-name-in" :=
  ⟨(CheckNameTransaction_register_with_name_input exampleCollaborators
      tx_register_Alice_with_name_input 50 exampleView txout_register_Alice
      ⟨.OP_NAME_REGISTER, name_Alice, value_msg_hi, []⟩ ⟨⟨101, 0⟩⟩
      (by decide) (by decide) rfl (by decide) (by decide)).1,
   (CheckNameTransaction_register_with_name_input exampleCollaborators
      tx_register_Alice_with_name_input 50 exampleView txout_register_Alice
      ⟨.OP_NAME_REGISTER, name_Alice, value_msg_hi, []⟩ ⟨⟨101, 0⟩⟩
      (by decide) (by decide) rfl (by decide) (by decide)).2
      (by decide) (by decide) (by decide) (by decide)⟩

/-- C12: an accepted transaction whose name output is an UPDATE has a name
input coin whose decoded name equals the name of the output; an UPDATE (all
input coins found, amount of at least the floor) without a name input is
rejected as `tx-nameupdate-without-name-input`, and one with valid name and
value whose single name input carries another name as
`tx-nameupdate-name-mismatch`. -/
theorem CheckNameTransaction_update_name_input (ext : Collaborators) (tx : CTransaction)
    (nHeight : Nat) (view : CCoinsView) (o : CTxOut) (nameOp : NameOperation)
    (ho : o ∈ tx.vout) (hop : ext.parseNameScript o.scriptPubKey = some nameOp)
    (hupd : nameOp.op = .OP_NAME_UPDATE) :
    (CheckNameTransaction ext tx nHeight view = .valid →
      ∃ txin ∈ tx.vin, ∃ coin opIn, view.GetCoin txin.prevout = some coin ∧
        ext.parseNameScript coin.out.scriptPubKey = some opIn ∧
        opIn.name = nameOp.name) ∧
    (nameOutputCount ext tx = 1 → allInputsFound view tx = true →
      ext.MinNameCoinAmount nHeight ≤ o.nValue → nameInputCount ext view tx = 0 →
      CheckNameTransaction ext tx nHeight view =
        consensusInvalid "tx-nameupdate-without-name-input") ∧
    (nameOutputCount ext tx = 1 → allInputsFound view tx = true →
      ext.MinNameCoinAmount nHeight ≤ o.nValue →
      IsNameValid ext.IsValidUtf8String nameOp.name = .valid →
      IsValueValid ext.read nameOp.value = .valid →
      nameInputCount ext view tx = 1 →
      ∀ txin ∈ tx.vin, ∀ coin opIn, view.GetCoin txin.prevout = some coin →
        ext.parseNameScript coin.out.scriptPubKey = some opIn →
        opIn.name ≠ nameOp.name →
        CheckNameTransaction ext tx nHeight view =
          consensusInvalid "tx-nameupdate-name-mismatch") := by
  refine ⟨?_, ?_, ?_⟩
  · intro hvalid
    obtain ⟨_, _, _, nameIn, hscan, _, hrule, _, _, hdb⟩ :=
      CheckNameTransaction_valid_name_output ext tx nHeight view o nameOp hvalid ho hop
    cases nameIn with
    | none => simp [nameInputRule, hupd] at hrule
    | some input =>
      obtain ⟨_, h2⟩ := scanInputs_done_detail _ view tx.vin 0 none _ hscan
      obtain ⟨_, txin, hget, hcoin, hopIn⟩ := h2 rfl input rfl
      refine ⟨txin, List.getElem?_mem hget, input.coinIn, input.nameOpIn, hcoin, hopIn, ?_⟩
      unfold checkNameDatabase at hdb
      simp only [hupd, if_true, NameOperation.isAnyUpdate_eq_true, Bool.not_true,
        Bool.false_eq_true, if_false] at hdb
      by_cases hsame : nameOp.name = input.nameOpIn.name
      · exact hsame.symm
      · simp [hsame, consensusInvalid] at hdb
  · intro hout hfound hfloor hin
    obtain ⟨nameIn, hscan, hsome⟩ := scanInputs_few ext view tx hfound (by omega)
    have hnone : nameIn = none := by
      cases nameIn with
      | none => rfl
      | some input => have := hsome.1 rfl; omega
    subst hnone
    rw [CheckNameTransaction_one_output_scan ext tx nHeight view o nameOp none hout ho hop
      hscan]
    simp [not_lt.mpr hfloor, nameInputRule, hupd]
  · intro hout hfound hfloor hname hvalue hin txin hmem coin opIn hcoin hopIn hdiff
    obtain ⟨input, hscan, _, _, hi⟩ :=
      scanInputs_one ext view tx hfound hin txin coin opIn hmem hcoin hopIn
    rw [CheckNameTransaction_one_output_scan ext tx nHeight view o nameOp (some input) hout ho
      hop hscan]
    have hrule : nameInputRule (some input) nameOp = none := by
      simp [nameInputRule, hupd]
    have hne : ¬ nameOp.name = opIn.name := fun h => hdiff h.symm
    simp only [not_lt.mpr hfloor, if_false, hrule, hname, hvalue]
    unfold checkNameDatabase
    simp [hupd, hi, NameOperation.isAnyUpdate_eq_true, hne]

theorem CheckNameTransaction_update_name_input_witness :
    (CheckNameTransaction exampleCollaborators tx_update_alice 50 exampleView = .valid ∧
      ∃ txin ∈ tx_update_alice.vin, ∃ coin opIn,
        exampleView.GetCoin txin.prevout = some coin ∧
        exampleCollaborators.parseNameScript coin.out.scriptPubKey = some opIn ∧
        opIn.name = name_p_alice) ∧
    CheckNameTransaction exampleCollaborators tx_update_without_input 50
      exampleViewRegistered = consensusInvalid "tx-nameupdate-without-name-input" ∧
    CheckNameTransaction exampleCollaborators tx_update_mismatch 50
      exampleViewRegistered = consensusInvalid "tx-nameupdate-name-mismatch" :=
  ⟨⟨by decide,
    (CheckNameTransaction_update_name_input exampleCollaborators tx_update_alice 50
      exampleView txout_update_alice ⟨.OP_NAME_UPDATE, name_p_alice, value_msg_hi, []⟩
      (by decide) (by decide) rfl).1 (by decide)⟩,
   (CheckNameTransaction_update_name_input exampleCollaborators tx_update_without_input 50
      exampleViewRegistered txout_update_alice
      ⟨.OP_NAME_UPDATE, name_p_alice, value_msg_hi, []⟩
      (by decide) (by decide) rfl).2.1 (by decide) (by decide) (by decide) (by decide),
   (CheckNameTransaction_update_name_input exampleCollaborators tx_update_mismatch 50
      exampleViewRegistered txout_update_alice
      ⟨.OP_NAME_UPDATE, name_p_alice, value_msg_hi, []⟩
      (by decide) (by decide) rfl).2.2 (by decide) (by decide) (by decide) (by decide)
      (by decide) (by decide) ⟨⟨103, 0⟩⟩ (by decide) ⟨⟨1000000, [3]⟩, 22⟩
      ⟨.OP_NAME_REGISTER, name_Alice, value_msg_hi, []⟩ (by decide) (by decide)
      (by decide)⟩

/-- C13, as the code has it: an UPDATE (valid name and value, amount of at least
the floor, all input coins found) whose one name input coin decodes as a
REGISTER of the same name is not rejected as `tx-nameupdate-invalid-prev`: a
REGISTER is an update-class operation, and the verdict is that of the name
database, acceptance when the coin is pending or the record of the name has
the height and outpoint of the coin, `tx-nameupdate-nonexistant` when the name
has no record. -/
theorem CheckNameTransaction_update_of_register_input (ext : Collaborators)
    (tx : CTransaction) (nHeight : Nat) (view : CCoinsView) (o : CTxOut)
    (nameOp : NameOperation) (txin : CTxIn) (coin : Coin) (opIn : NameOperation)
    (hout : nameOutputCount ext tx = 1) (hfound : allInputsFound view tx = true)
    (ho : o ∈ tx.vout) (hop : ext.parseNameScript o.scriptPubKey = some nameOp)
    (hupd : nameOp.op = .OP_NAME_UPDATE)
    (hfloor : ext.MinNameCoinAmount nHeight ≤ o.nValue)
    (hname : IsNameValid ext.IsValidUtf8String nameOp.name = .valid)
    (hvalue : IsValueValid ext.read nameOp.value = .valid)
    (hin : nameInputCount ext view tx = 1) (hmem : txin ∈ tx.vin)
    (hcoin : view.GetCoin txin.prevout = some coin)
    (hopIn : ext.parseNameScript coin.out.scriptPubKey = some opIn)
    (hreg : opIn.op = .OP_NAME_REGISTER) (hsame : opIn.name = nameOp.name) :
    opIn.isAnyUpdate = true ∧
    CheckNameTransaction ext tx nHeight view ≠
      consensusInvalid "tx-nameupdate-invalid-prev" ∧
    (coin.nHeight = MEMPOOL_HEIGHT → CheckNameTransaction ext tx nHeight view = .valid) ∧
    (coin.nHeight ≠ MEMPOOL_HEIGHT → view.GetName nameOp.name = none →
      CheckNameTransaction ext tx nHeight view =
        consensusInvalid "tx-nameupdate-nonexistant") ∧
    (coin.nHeight ≠ MEMPOOL_HEIGHT → ∀ oldName, view.GetName nameOp.name = some oldName →
      oldName.nHeight = coin.nHeight → oldName.prevout = txin.prevout →
      CheckNameTransaction ext tx nHeight view = .valid) := by
  have hv := CheckNameTransaction_update_verdict ext tx nHeight view o nameOp txin coin opIn
    hout hfound ho hop hupd hfloor hname hvalue hin hmem hcoin hopIn hsame
  refine ⟨by simp [NameOperation.isAnyUpdate, hreg], ?_, ?_, ?_, ?_⟩
  · rw [hv]
    split_ifs
    · simp [consensusInvalid]
    · split
      · simp [consensusInvalid]
      · split_ifs <;> simp [consensusInvalid]
  · intro hh
    rw [hv]; simp [hh]
  · intro hh hnone
    rw [hv]; simp [hh, hnone]
  · intro hh oldName hsome h1 h2
    rw [hv]; simp [hh, hsome, h1, h2]

theorem CheckNameTransaction_update_of_register_input_witness :
    CheckNameTransaction exampleCollaborators tx_update_after_register 50
      exampleViewRegistered = .valid :=
  (CheckNameTransaction_update_of_register_input exampleCollaborators
    tx_update_after_register 50 exampleViewRegistered txout_update_alice
    ⟨.OP_NAME_UPDATE, name_p_alice, value_msg_hi, []⟩ ⟨⟨102, 0⟩⟩ ⟨⟨1000000, [1]⟩, 21⟩
    ⟨.OP_NAME_REGISTER, name_p_alice, value_msg_hi, []⟩
    (by decide) (by decide) (by decide) (by decide) rfl (by decide) (by decide) (by decide)
    (by decide) (by decide) (by decide) (by decide) rfl rfl).2.2.2.2 (by decide)
    ⟨value_msg_hi, 21, ⟨102, 0⟩⟩ (by decide) rfl rfl

/-- C13 fails as stated: `tx_update_after_register` is an UPDATE of `p/alice`
with valid name and value and the floor amount, and its one name input, the
coin `(102, 0)`, decodes as a REGISTER of `p/alice`; against the view that holds
the registration `CheckNameTransaction` accepts it instead of rejecting it as
`tx-nameupdate-invalid-prev`. -/
theorem CheckNameTransaction_update_of_register_counterexample :
    nameOutputCount exampleCollaborators tx_update_after_register = 1 ∧
    exampleCollaborators.parseNameScript txout_update_alice.scriptPubKey =
      some ⟨.OP_NAME_UPDATE, name_p_alice, value_msg_hi, []⟩ ∧
    txout_update_alice ∈ tx_update_after_register.vout ∧
    exampleCollaborators.MinNameCoinAmount 50 ≤ txout_update_alice.nValue ∧
    IsNameValid exampleCollaborators.IsValidUtf8String name_p_alice = .valid ∧
    IsValueValid exampleCollaborators.read value_msg_hi = .valid ∧
    tx_update_after_register.vin = [⟨⟨102, 0⟩⟩] ∧
    exampleViewRegistered.GetCoin ⟨102, 0⟩ = some ⟨⟨1000000, [1]⟩, 21⟩ ∧
    exampleCollaborators.parseNameScript [1] =
      some ⟨.OP_NAME_REGISTER, name_p_alice, value_msg_hi, []⟩ ∧
    CheckNameTransaction exampleCollaborators tx_update_after_register 50
      exampleViewRegistered = .valid ∧
    CheckNameTransaction exampleCollaborators tx_update_after_register 50
      exampleViewRegistered ≠ consensusInvalid "tx-nameupdate-invalid-prev" := by
  decide

/-- C14: an UPDATE that passes all earlier tests (all input coins found, amount
of at least the floor, valid name and value, one update-class name input with
the same name) and whose name input coin is confirmed is rejected as
`tx-nameupdate-nonexistant` when the view has no Name Record for the name, and
accepted when the view has a record whose height and outpoint are those of the
input coin. -/
theorem CheckNameTransaction_update_confirmed (ext : Collaborators)
    (tx : CTransaction) (nHeight : Nat) (view : CCoinsView) (o : CTxOut)
    (nameOp : NameOperation) (txin : CTxIn) (coin : Coin) (opIn : NameOperation)
    (hout : nameOutputCount ext tx = 1) (hfound : allInputsFound view tx = true)
    (ho : o ∈ tx.vout) (hop : ext.parseNameScript o.scriptPubKey = some nameOp)
    (hupd : nameOp.op = .OP_NAME_UPDATE)
    (hfloor : ext.MinNameCoinAmount nHeight ≤ o.nValue)
    (hname : IsNameValid ext.IsValidUtf8String nameOp.name = .valid)
    (hvalue : IsValueValid ext.read nameOp.value = .valid)
    (hin : nameInputCount ext view tx = 1) (hmem : txin ∈ tx.vin)
    (hcoin : view.GetCoin txin.prevout = some coin)
    (hopIn : ext.parseNameScript coin.out.scriptPubKey = some opIn)
    (_hclass : opIn.isAnyUpdate = true) (hsame : opIn.name = nameOp.name)
    (hconfirmed : coin.nHeight ≠ MEMPOOL_HEIGHT) :
    (view.GetName nameOp.name = none →
      CheckNameTransaction ext tx nHeight view =
        consensusInvalid "tx-nameupdate-nonexistant") ∧
    (∀ oldName, view.GetName nameOp.name = some oldName →
      oldName.nHeight = coin.nHeight → oldName.prevout = txin.prevout →
      CheckNameTransaction ext tx nHeight view = .valid) := by
  have hv := CheckNameTransaction_update_verdict ext tx nHeight view o nameOp txin coin opIn
    hout hfound ho hop hupd hfloor hname hvalue hin hmem hcoin hopIn hsame
  constructor
  · intro hnone
    rw [hv]; simp [hconfirmed, hnone]
  · intro oldName hsome h1 h2
    rw [hv]; simp [hconfirmed, hsome, h1, h2]

theorem CheckNameTransaction_update_confirmed_witness :
    CheckNameTransaction exampleCollaborators tx_update_alice 50 exampleViewNoNames =
      consensusInvalid "tx-nameupdate-nonexistant" ∧
    CheckNameTransaction exampleCollaborators tx_update_alice 50 exampleView = .valid :=
  ⟨(CheckNameTransaction_update_confirmed exampleCollaborators tx_update_alice 50
      exampleViewNoNames txout_update_alice
      ⟨.OP_NAME_UPDATE, name_p_alice, value_msg_hi, []⟩ ⟨⟨101, 0⟩⟩ ⟨⟨1000000, [2]⟩, 20⟩
      ⟨.OP_NAME_UPDATE, name_p_alice, value_msg_hi, []⟩
      (by decide) (by decide) (by decide) (by decide) rfl (by decide) (by decide)
      (by decide) (by decide) (by decide) (by decide) (by decide) rfl rfl (by decide)).1
      (by decide),
   (CheckNameTransaction_update_confirmed exampleCollaborators tx_update_alice 50
      exampleView txout_update_alice
      ⟨.OP_NAME_UPDATE, name_p_alice, value_msg_hi, []⟩ ⟨⟨101, 0⟩⟩ ⟨⟨1000000, [2]⟩, 20⟩
      ⟨.OP_NAME_UPDATE, name_p_alice, value_msg_hi, []⟩
      (by decide) (by decide) (by decide) (by decide) rfl (by decide) (by decide)
      (by decide) (by decide) (by decide) (by decide) (by decide) rfl rfl (by decide)).2
      ⟨value_msg_hi, 20, ⟨101, 0⟩⟩ (by decide) rfl rfl⟩

/-- C15: a REGISTER with all input coins found, no name input, exactly one name
output of at least the floor amount, a name accepted by `IsNameValid` and a
value accepted by `IsValueValid` is accepted exactly when the view has no Name
Record for the name; when it has one the reason is
`tx-nameregister-existing-name`. -/
theorem CheckNameTransaction_register (ext : Collaborators) (tx : CTransaction)
    (nHeight : Nat) (view : CCoinsView) (o : CTxOut) (nameOp : NameOperation)
    (hfound : allInputsFound view tx = true) (hin : nameInputCount ext view tx = 0)
    (hout : nameOutputCount ext tx = 1)
    (ho : o ∈ tx.vout) (hop : ext.parseNameScript o.scriptPubKey = some nameOp)
    (hreg : nameOp.op = .OP_NAME_REGISTER)
    (hfloor : ext.MinNameCoinAmount nHeight ≤ o.nValue)
    (hname : IsNameValid ext.IsValidUtf8String nameOp.name = .valid)
    (hvalue : IsValueValid ext.read nameOp.value = .valid) :
    (CheckNameTransaction ext tx nHeight view = .valid ↔
      view.GetName nameOp.name = none) ∧
    (view.GetName nameOp.name ≠ none →
      CheckNameTransaction ext tx nHeight view =
        consensusInvalid "tx-nameregister-existing-name") := by
  rw [CheckNameTransaction_register_verdict ext tx nHeight view o nameOp hout hfound hin ho hop
    hreg hfloor hname hvalue]
  cases view.GetName nameOp.name with
  | none => simp
  | some oldName => simp [consensusInvalid]

theorem CheckNameTransaction_register_witness :
    (exampleViewNoNames.GetName name_p_alice = none ∧
      CheckNameTransaction exampleCollaborators tx_register_alice 50 exampleViewNoNames =
        .valid) ∧
    (exampleView.GetName name_p_alice ≠ none ∧
      CheckNameTransaction exampleCollaborators tx_register_alice 50 exampleView =
        consensusInvalid "tx-nameregister-existing-name") :=
  ⟨⟨by decide,
    (CheckNameTransaction_register exampleCollaborators tx_register_alice 50
      exampleViewNoNames txout_register_alice
      ⟨.OP_NAME_REGISTER, name_p_alice, value_msg_hi, []⟩
      (by decide) (by decide) (by decide) (by decide) (by decide) rfl (by decide)
      (by decide) (by decide)).1.2 (by decide)⟩,
   ⟨by decide,
    (CheckNameTransaction_register exampleCollaborators tx_register_alice 50
      exampleView txout_register_alice
      ⟨.OP_NAME_REGISTER, name_p_alice, value_msg_hi, []⟩
      (by decide) (by decide) (by decide) (by decide) (by decide) rfl (by decide)
      (by decide) (by decide)).2 (by decide)⟩⟩

/-! ## Theorems about `ApplyNameTransaction` and `CNameTxUndo` -/

theorem CNameTxUndo.apply_fromOldState (view : CCoinsView) (name : valtype)
    (data : CNameData) (flag : Bool) :
    (CNameTxUndo.fromOldState name view).apply (view.SetName name data flag) = view := by
  cases view with
  | mk getCoin getName =>
    unfold CNameTxUndo.fromOldState CNameTxUndo.apply
    cases hn : getName name with
    | none =>
      simp only [hn, CCoinsView.SetName, CCoinsView.DeleteName, if_true,
        CCoinsView.mk.injEq, true_and]
      funext m
      by_cases hm : m = name
      · simp [hm, hn]
      · simp [hm]
    | some oldData =>
      simp only [hn, CCoinsView.SetName, Bool.false_eq_true, if_false,
        CCoinsView.mk.injEq, true_and]
      funext m
      by_cases hm : m = name
      · simp [hm, hn]
      · simp [hm]

theorem undoAll_append (es fs : List CNameTxUndo) (view : CCoinsView) :
    undoAll (es ++ fs) view = undoAll fs (undoAll es view) := by
  induction es generalizing view with
  | nil => rfl
  | cons e es ih => exact ih (e.apply view)

theorem applyOutputs_getCoin (P : CScript → Option NameOperation) (hash nHeight : Nat)
    (l : List CTxOut) (i : Nat) (view : CCoinsView) (undo : CBlockUndo) :
    (applyOutputs P hash nHeight l i view undo).1.GetCoin = view.GetCoin := by
  induction l generalizing i view undo with
  | nil => rfl
  | cons txout l ih =>
    simp only [applyOutputs]
    cases P txout.scriptPubKey with
    | none => exact ih _ _ _
    | some op =>
      simp only [NameOperation.isAnyUpdate_eq_true, if_true]
      rw [ih]
      rfl

theorem applyOutputs_keeps (P : CScript → Option NameOperation) (hash nHeight : Nat)
    (l : List CTxOut) (i : Nat) (view : CCoinsView) (undo : CBlockUndo) (m : valtype)
    (hm : view.GetName m ≠ none) :
    (applyOutputs P hash nHeight l i view undo).1.GetName m ≠ none := by
  induction l generalizing i view undo with
  | nil => exact hm
  | cons txout l ih =>
    simp only [applyOutputs]
    cases P txout.scriptPubKey with
    | none => exact ih _ _ _ hm
    | some op =>
      simp only [NameOperation.isAnyUpdate_eq_true, if_true]
      apply ih
      simp only [CCoinsView.SetName]
      split_ifs
      · simp
      · exact hm

theorem applyOutputs_registers (P : CScript → Option NameOperation) (hash nHeight : Nat)
    (l : List CTxOut) (i : Nat) (view : CCoinsView) (undo : CBlockUndo)
    (o : CTxOut) (op : NameOperation) (ho : o ∈ l) (hop : P o.scriptPubKey = some op) :
    (applyOutputs P hash nHeight l i view undo).1.GetName op.name ≠ none := by
  induction l generalizing i view undo with
  | nil => simp at ho
  | cons txout l ih =>
    simp only [applyOutputs]
    rcases List.mem_cons.1 ho with h | h
    · subst h
      simp only [hop, NameOperation.isAnyUpdate_eq_true, if_true]
      apply applyOutputs_keeps
      simp [CCoinsView.SetName]
    · cases P txout.scriptPubKey with
      | none => exact ih _ _ _ h
      | some op' =>
        simp only [NameOperation.isAnyUpdate_eq_true, if_true]
        exact ih _ _ _ h

theorem applyOutputs_no_name (ext : Collaborators) (hash nHeight : Nat)
    (l : List CTxOut) (i : Nat) (view : CCoinsView) (undo : CBlockUndo)
    (h : l.countP (isNameOutput ext) = 0) :
    applyOutputs ext.parseNameScript hash nHeight l i view undo = (view, undo) := by
  induction l generalizing i with
  | nil => rfl
  | cons txout l ih =>
    rw [List.countP_cons] at h
    have hn : isNameOutput ext txout = false := by
      cases hb : isNameOutput ext txout with
      | false => rfl
      | true => simp [hb] at h
    have hl : l.countP (isNameOutput ext) = 0 := by omega
    have hp : ext.parseNameScript txout.scriptPubKey = none := by
      simpa [isNameOutput] using hn
    simp only [applyOutputs, hp]
    exact ih _ hl

theorem applyOutputs_single (ext : Collaborators) (hash nHeight : Nat)
    (l : List CTxOut) (i j : Nat) (view : CCoinsView) (undo : CBlockUndo)
    (o : CTxOut) (op : NameOperation)
    (hcount : l.countP (isNameOutput ext) = 1) (hj : l[j]? = some o)
    (hop : ext.parseNameScript o.scriptPubKey = some op) :
    (applyOutputs ext.parseNameScript hash nHeight l i view undo).1.GetName op.name =
      some ⟨op.value, nHeight, ⟨hash, i + j⟩⟩ := by
  induction l generalizing i j view undo with
  | nil => simp at hj
  | cons txout l ih =>
    rw [List.countP_cons] at hcount
    have hno : isNameOutput ext o = true := by simp [isNameOutput, hop]
    cases hp : ext.parseNameScript txout.scriptPubKey with
    | none =>
      have hn : isNameOutput ext txout = false := by simp [isNameOutput, hp]
      simp only [hn, Bool.false_eq_true, if_false, Nat.add_zero] at hcount
      cases j with
      | zero =>
        simp only [List.getElem?_cons_zero, Option.some.injEq] at hj
        subst hj
        rw [hp] at hop
        cases hop
      | succ j =>
        simp only [List.getElem?_cons_succ] at hj
        simp only [applyOutputs, hp]
        rw [ih (i + 1) j view undo hcount hj]
        have : i + 1 + j = i + (j + 1) := by omega
        rw [this]
    | some op' =>
      have hn : isNameOutput ext txout = true := by simp [isNameOutput, hp]
      simp only [hn, if_true] at hcount
      have hzero : l.countP (isNameOutput ext) = 0 := by omega
      cases j with
      | zero =>
        simp only [List.getElem?_cons_zero, Option.some.injEq] at hj
        subst hj
        rw [hp] at hop
        cases hop
        simp only [applyOutputs, hp, NameOperation.isAnyUpdate_eq_true, if_true]
        rw [applyOutputs_no_name ext hash nHeight l (i + 1) _ _ hzero]
        simp [CCoinsView.SetName, CNameData.fromScript]
      | succ j =>
        simp only [List.getElem?_cons_succ] at hj
        have hmem : o ∈ l := List.getElem?_mem hj
        rw [List.countP_eq_zero] at hzero
        exact absurd hno (hzero o hmem)

theorem applyOutputs_undo (ext : Collaborators) (hash nHeight : Nat)
    (l : List CTxOut) (i : Nat) (view : CCoinsView) (undo : CBlockUndo) :
    ∃ entries : List CNameTxUndo,
      (applyOutputs ext.parseNameScript hash nHeight l i view undo).2.vnameundo =
        undo.vnameundo ++ entries ∧
      entries.length = l.countP (isNameOutput ext) ∧
      entries.map (fun e => e.name) =
        (l.filterMap (fun txout => ext.parseNameScript txout.scriptPubKey)).map
          (fun op => op.name) ∧
      undoAll entries.reverse
        (applyOutputs ext.parseNameScript hash nHeight l i view undo).1 = view := by
  induction l generalizing i view undo with
  | nil => exact ⟨[], by simp [applyOutputs], rfl, rfl, rfl⟩
  | cons txout l ih =>
    cases hp : ext.parseNameScript txout.scriptPubKey with
    | none =>
      have hn : isNameOutput ext txout = false := by simp [isNameOutput, hp]
      obtain ⟨es, h1, h2, h3, h4⟩ := ih (i + 1) view undo
      refine ⟨es, ?_, ?_, ?_, ?_⟩
      · simp only [applyOutputs, hp]; exact h1
      · simp only [List.countP_cons, hn, Bool.false_eq_true, if_false, Nat.add_zero]; exact h2
      · simp only [List.filterMap_cons, hp]; exact h3
      · simp only [applyOutputs, hp]; exact h4
    | some op =>
      have hn : isNameOutput ext txout = true := by simp [isNameOutput, hp]
      obtain ⟨es, h1, h2, h3, h4⟩ := ih (i + 1)
        (view.SetName op.name (CNameData.fromScript nHeight ⟨hash, i⟩ op) false)
        ⟨undo.vnameundo ++ [CNameTxUndo.fromOldState op.name view]⟩
      refine ⟨CNameTxUndo.fromOldState op.name view :: es, ?_, ?_, ?_, ?_⟩
      · simp only [applyOutputs, hp, NameOperation.isAnyUpdate_eq_true, if_true]
        rw [h1]
        simp
      · simp only [List.countP_cons, hn, if_true, List.length_cons, h2]
      · simp only [List.filterMap_cons, hp, List.map_cons, h3]
        have : (CNameTxUndo.fromOldState op.name view).name = op.name := by
          unfold CNameTxUndo.fromOldState
          cases view.GetName op.name <;> rfl
        rw [this]
      · simp only [applyOutputs, hp, NameOperation.isAnyUpdate_eq_true, if_true,
          List.reverse_cons]
        rw [undoAll_append, h4]
        simp only [undoAll]
        exact CNameTxUndo.apply_fromOldState view op.name _ false

theorem ApplyNameTransaction_eq (ext : Collaborators) (tx : CTransaction) (nHeight : Nat)
    (view : CCoinsView) (undo : CBlockUndo) (hh : nHeight ≠ MEMPOOL_HEIGHT) :
    ApplyNameTransaction ext tx nHeight view undo =
      some (applyOutputs ext.parseNameScript tx.hash nHeight tx.vout 0 view undo) := by
  simp [ApplyNameTransaction, hh]

/-- C16: for a transaction with exactly one name output, at index `i`, carrying
the name `n` and the value `v` (REGISTER or UPDATE alike), and a height `h` other
than `MEMPOOL_HEIGHT`, `ApplyNameTransaction` returns, and afterwards the view
holds for `n` the record with value `v`, height `h` and outpoint
`(hash of tx, i)`. -/
theorem ApplyNameTransaction_writes_record (ext : Collaborators) (tx : CTransaction)
    (nHeight : Nat) (view : CCoinsView) (undo : CBlockUndo) (i : Nat) (o : CTxOut)
    (nameOp : NameOperation)
    (hout : nameOutputCount ext tx = 1) (hi : tx.vout[i]? = some o)
    (hop : ext.parseNameScript o.scriptPubKey = some nameOp)
    (hh : nHeight ≠ MEMPOOL_HEIGHT) :
    ∃ view1 undo1, ApplyNameTransaction ext tx nHeight view undo = some (view1, undo1) ∧
      view1.GetName nameOp.name = some ⟨nameOp.value, nHeight, ⟨tx.hash, i⟩⟩ := by
  refine ⟨_, _, ApplyNameTransaction_eq ext tx nHeight view undo hh, ?_⟩
  have := applyOutputs_single ext tx.hash nHeight tx.vout 0 i view undo o nameOp hout hi hop
  simpa using this

theorem ApplyNameTransaction_writes_record_witness :
    CheckNameTransaction exampleCollaborators tx_register_alice 50 exampleViewNoNames =
      .valid ∧
    exampleViewNoNames.GetName name_p_alice = none ∧
    ∃ view1 undo1,
      ApplyNameTransaction exampleCollaborators tx_register_alice 50 exampleViewNoNames
        emptyUndo = some (view1, undo1) ∧
      view1.GetName name_p_alice = some ⟨value_msg_hi, 50, ⟨17, 1⟩⟩ :=
  ⟨by decide, by decide,
   ApplyNameTransaction_writes_record exampleCollaborators tx_register_alice 50
     exampleViewNoNames emptyUndo 1 txout_register_alice
     ⟨.OP_NAME_REGISTER, name_p_alice, value_msg_hi, []⟩
     (by decide) (by decide) (by decide) (by decide)⟩

/-- A transaction with a name output `o` is rejected, or it has passed every
test before the name database and its verdict is that of `checkNameDatabase`. -/
theorem CheckNameTransaction_name_output_cases (ext : Collaborators) (tx : CTransaction)
    (nHeight : Nat) (view : CCoinsView) (o : CTxOut) (nameOp : NameOperation)
    (ho : o ∈ tx.vout) (hop : ext.parseNameScript o.scriptPubKey = some nameOp) :
    (CheckNameTransaction ext tx nHeight view).isRejected = true ∨
    ∃ nameIn, CheckNameTransaction ext tx nHeight view =
      checkNameDatabase tx view nameIn nameOp := by
  cases hin : scanInputs ext.parseNameScript view tx.vin 0 none with
  | returned v =>
    left
    simp only [CheckNameTransaction, hin]
    rcases scanInputs_returned _ _ _ _ _ _ hin with h | h <;> rw [h] <;> rfl
  | done nameIn =>
    cases hout : scanOutputs ext.parseNameScript tx.vout 0 none with
    | returned v =>
      left
      simp only [CheckNameTransaction, hin, hout]
      rw [scanOutputs_returned _ _ _ _ _ hout]
      rfl
    | done r =>
      obtain ⟨hc', _⟩ := scanOutputs_done ext tx.vout 0 none r hout
      have hn : isNameOutput ext o = true := by simp [isNameOutput, hop]
      have hpos : 0 < tx.vout.countP (isNameOutput ext) :=
        List.countP_pos_iff.2 ⟨o, ho, hn⟩
      have hone : nameOutputCount ext tx = 1 := by
        simp only [Option.isSome_none, Bool.false_eq_true, if_false, Nat.zero_add] at hc'
        unfold nameOutputCount; omega
      rw [CheckNameTransaction_one_output_scan ext tx nHeight view o nameOp nameIn hone ho hop
        hin]
      by_cases hg : o.nValue < ext.MinNameCoinAmount nHeight
      · left; simp [hg, consensusInvalid, Verdict.isRejected]
      · simp only [hg, if_false]
        cases hrule : nameInputRule nameIn nameOp with
        | some v =>
          left
          unfold nameInputRule at hrule
          split_ifs at hrule <;> cases hrule <;> rfl
        | none =>
          simp only []
          rcases IsNameValid_valid_or_reason ext.IsValidUtf8String nameOp.name with
            h | ⟨c, _, h⟩
          · rw [h]
            simp only []
            rcases IsValueValid_valid_or_reason ext.read nameOp.value with h | h | h | h
            · rw [h]; right; exact ⟨nameIn, rfl⟩
            · rw [h]; left; rfl
            · rw [h]; left; rfl
            · rw [h]; left; rfl
          · rw [h]; left; rfl

/-- C17: when `ApplyNameTransaction` of a transaction with a REGISTER output
for a name returns (as it does at every height other than `MEMPOOL_HEIGHT`),
every transaction whose name output is a REGISTER of the same name is rejected
by `CheckNameTransaction` against the resulting view, with
`tx-nameregister-existing-name` when it passes all earlier tests. -/
theorem CheckNameTransaction_after_register (ext : Collaborators) (t1 : CTransaction)
    (nHeight : Nat) (view : CCoinsView) (undo : CBlockUndo) (o1 : CTxOut)
    (op1 : NameOperation)
    (ho1 : o1 ∈ t1.vout) (hop1 : ext.parseNameScript o1.scriptPubKey = some op1)
    (_hreg1 : op1.op = .OP_NAME_REGISTER) :
    (nHeight ≠ MEMPOOL_HEIGHT →
      ∃ view1 undo1, ApplyNameTransaction ext t1 nHeight view undo = some (view1, undo1)) ∧
    (∀ view1 undo1, ApplyNameTransaction ext t1 nHeight view undo = some (view1, undo1) →
      ∀ (t2 : CTransaction) (h2 : Nat) (o2 : CTxOut) (op2 : NameOperation),
        o2 ∈ t2.vout → ext.parseNameScript o2.scriptPubKey = some op2 →
        op2.op = .OP_NAME_REGISTER → op2.name = op1.name →
        (CheckNameTransaction ext t2 h2 view1).isRejected = true ∧
        (allInputsFound view1 t2 = true → nameInputCount ext view1 t2 = 0 →
          nameOutputCount ext t2 = 1 → ext.MinNameCoinAmount h2 ≤ o2.nValue →
          IsNameValid ext.IsValidUtf8String op2.name = .valid →
          IsValueValid ext.read op2.value = .valid →
          CheckNameTransaction ext t2 h2 view1 =
            consensusInvalid "tx-nameregister-existing-name")) := by
  refine ⟨fun hh => ⟨_, _, ApplyNameTransaction_eq ext t1 nHeight view undo hh⟩, ?_⟩
  intro view1 undo1 happly t2 h2 o2 op2 ho2 hop2 hreg2 hsame
  have hh : nHeight ≠ MEMPOOL_HEIGHT := by
    intro hh
    simp [ApplyNameTransaction, hh] at happly
  rw [ApplyNameTransaction_eq ext t1 nHeight view undo hh] at happly
  simp only [Option.some.injEq] at happly
  have hrec := applyOutputs_registers ext.parseNameScript t1.hash nHeight t1.vout 0 view undo
    o1 op1 ho1 hop1
  rw [happly, ← hsame] at hrec
  simp only [] at hrec
  obtain ⟨oldName, hold⟩ := Option.ne_none_iff_exists'.1 hrec
  constructor
  · rcases CheckNameTransaction_name_output_cases ext t2 h2 view1 o2 op2 ho2 hop2 with
      h | ⟨nameIn, h⟩
    · exact h
    · rw [h]
      unfold checkNameDatabase
      simp [hreg2, hold, consensusInvalid, Verdict.isRejected]
  · intro hfound hin hout hfloor hname hvalue
    rw [CheckNameTransaction_register_verdict ext t2 h2 view1 o2 op2 hout hfound hin ho2 hop2
      hreg2 hfloor hname hvalue, hold]

theorem CheckNameTransaction_after_register_witness :
    CheckNameTransaction exampleCollaborators tx_register_alice_again 50
      exampleViewNoNames = .valid ∧
    ApplyNameTransaction exampleCollaborators tx_register_alice 50 exampleViewNoNames
      emptyUndo = some (exampleViewAfterRegister, exampleUndoAfterRegister) ∧
    (CheckNameTransaction exampleCollaborators tx_register_alice_again 50
      exampleViewAfterRegister).isRejected = true ∧
    CheckNameTransaction exampleCollaborators tx_register_alice_again 50
      exampleViewAfterRegister = consensusInvalid "tx-nameregister-existing-name" :=
  ⟨by decide, rfl,
   ((CheckNameTransaction_after_register exampleCollaborators tx_register_alice 50
      exampleViewNoNames emptyUndo txout_register_alice
      ⟨.OP_NAME_REGISTER, name_p_alice, value_msg_hi, []⟩
      (by decide) (by decide) rfl).2 exampleViewAfterRegister exampleUndoAfterRegister rfl
      tx_register_alice_again 50 txout_register_alice
      ⟨.OP_NAME_REGISTER, name_p_alice, value_msg_hi, []⟩
      (by decide) (by decide) rfl rfl).1,
   ((CheckNameTransaction_after_register exampleCollaborators tx_register_alice 50
      exampleViewNoNames emptyUndo txout_register_alice
      ⟨.OP_NAME_REGISTER, name_p_alice, value_msg_hi, []⟩
      (by decide) (by decide) rfl).2 exampleViewAfterRegister exampleUndoAfterRegister rfl
      tx_register_alice_again 50 txout_register_alice
      ⟨.OP_NAME_REGISTER, name_p_alice, value_msg_hi, []⟩
      (by decide) (by decide) rfl rfl).2
      (by decide) (by decide) (by decide) (by decide) (by decide) (by decide)⟩

theorem applyAll_undo (ext : Collaborators) (txs : List (CTransaction × Nat))
    (view : CCoinsView) (undo : CBlockUndo) :
    (∀ view1 undo1, applyAll ext txs view undo = some (view1, undo1) →
      ∃ entries, undo1.vnameundo = undo.vnameundo ++ entries ∧
        undoAll entries.reverse view1 = view) ∧
    ((∀ p ∈ txs, p.2 ≠ MEMPOOL_HEIGHT) →
      ∃ view1 undo1, applyAll ext txs view undo = some (view1, undo1)) := by
  induction txs generalizing view undo with
  | nil =>
    constructor
    · intro view1 undo1 h
      simp only [applyAll, Option.some.injEq, Prod.mk.injEq] at h
      obtain ⟨h1, h2⟩ := h
      subst h1 h2
      exact ⟨[], by simp, rfl⟩
    · intro _
      exact ⟨view, undo, rfl⟩
  | cons p txs ih =>
    obtain ⟨tx, nHeight⟩ := p
    constructor
    · intro view1 undo1 h
      simp only [applyAll] at h
      by_cases hh : nHeight = MEMPOOL_HEIGHT
      · simp [ApplyNameTransaction, hh] at h
      · rw [ApplyNameTransaction_eq ext tx nHeight view undo hh] at h
        simp only [] at h
        obtain ⟨es, h1, _, _, h4⟩ :=
          applyOutputs_undo ext tx.hash nHeight tx.vout 0 view undo
        obtain ⟨fs, g1, g2⟩ := (ih _ _).1 view1 undo1 h
        refine ⟨es ++ fs, ?_, ?_⟩
        · rw [g1, h1, List.append_assoc]
        · rw [List.reverse_append, undoAll_append, g2, h4]
    · intro hall
      have hh : nHeight ≠ MEMPOOL_HEIGHT := hall (tx, nHeight) (List.mem_cons_self _ _)
      simp only [applyAll]
      rw [ApplyNameTransaction_eq ext tx nHeight view undo hh]
      exact (ih _ _).2 (fun p hp => hall p (List.mem_cons_of_mem _ hp))

/-- C18: transactions applied in order with `ApplyNameTransaction` (at heights
other than `MEMPOOL_HEIGHT`, from an empty block undo) produce undo entries
whose application with `CNameTxUndo::apply` in exactly the reverse order gives
back a view with the name-to-record mapping of the view started from. -/
theorem applyAll_undoAll_reverse (ext : Collaborators) (txs : List (CTransaction × Nat))
    (view : CCoinsView) :
    (∀ view1 undo1, applyAll ext txs view emptyUndo = some (view1, undo1) →
      (undoAll undo1.vnameundo.reverse view1).GetName = view.GetName) ∧
    ((∀ p ∈ txs, p.2 ≠ MEMPOOL_HEIGHT) →
      ∃ view1 undo1, applyAll ext txs view emptyUndo = some (view1, undo1) ∧
        (undoAll undo1.vnameundo.reverse view1).GetName = view.GetName) := by
  have key : ∀ view1 undo1, applyAll ext txs view emptyUndo = some (view1, undo1) →
      (undoAll undo1.vnameundo.reverse view1).GetName = view.GetName := by
    intro view1 undo1 h
    obtain ⟨es, h1, h2⟩ := (applyAll_undo ext txs view emptyUndo).1 view1 undo1 h
    simp only [emptyUndo, List.nil_append] at h1
    rw [h1, h2]
  refine ⟨key, ?_⟩
  intro hall
  obtain ⟨view1, undo1, h⟩ := (applyAll_undo ext txs view emptyUndo).2 hall
  exact ⟨view1, undo1, h, key view1 undo1 h⟩

theorem applyAll_undoAll_reverse_witness :
    exampleViewNoNames.GetName name_p_alice = none ∧
    (applyAll exampleCollaborators txs_register_then_update exampleViewNoNames
        emptyUndo).map (fun r => r.1.GetName name_p_alice) =
      some (some ⟨value_msg_hi, 51, ⟨20, 0⟩⟩) ∧
    (applyAll exampleCollaborators txs_register_then_update exampleViewNoNames
        emptyUndo).map (fun r => (undoAll r.2.vnameundo.reverse r.1).GetName name_p_alice) =
      some none ∧
    ∃ view1 undo1,
      applyAll exampleCollaborators txs_register_then_update exampleViewNoNames emptyUndo =
        some (view1, undo1) ∧
      (undoAll undo1.vnameundo.reverse view1).GetName = exampleViewNoNames.GetName :=
  ⟨by decide, by decide, by decide,
   (applyAll_undoAll_reverse exampleCollaborators txs_register_then_update
      exampleViewNoNames).2 (by decide)⟩

theorem CheckNameTransaction_valid_output_count (ext : Collaborators) (tx : CTransaction)
    (nHeight : Nat) (view : CCoinsView)
    (hvalid : CheckNameTransaction ext tx nHeight view = .valid) :
    nameOutputCount ext tx ≤ 1 := by
  cases hin : scanInputs ext.parseNameScript view tx.vin 0 none with
  | returned v =>
    simp only [CheckNameTransaction, hin] at hvalid
    rcases scanInputs_returned _ _ _ _ _ _ hin with h | h <;> rw [h] at hvalid <;>
      cases hvalid
  | done nameIn =>
    cases hout : scanOutputs ext.parseNameScript tx.vout 0 none with
    | returned v =>
      simp only [CheckNameTransaction, hin, hout] at hvalid
      rw [scanOutputs_returned _ _ _ _ _ hout] at hvalid
      cases hvalid
    | done r =>
      obtain ⟨h2, _⟩ := scanOutputs_done ext tx.vout 0 none r hout
      simpa [nameOutputCount] using h2

/-- C19: `ApplyNameTransaction` appends to the block undo exactly one entry per
name output of the transaction, in the order of the outputs, after the entries
already present, which it leaves unchanged; for a transaction accepted by
`CheckNameTransaction` that is one entry when the transaction has a name output
and none otherwise. -/
theorem ApplyNameTransaction_undo_entries (ext : Collaborators) (tx : CTransaction)
    (nHeight : Nat) (view : CCoinsView) (undo : CBlockUndo) (view1 : CCoinsView)
    (undo1 : CBlockUndo)
    (happly : ApplyNameTransaction ext tx nHeight view undo = some (view1, undo1)) :
    ∃ entries : List CNameTxUndo,
      undo1.vnameundo = undo.vnameundo ++ entries ∧
      entries.length = nameOutputCount ext tx ∧
      entries.map (fun e => e.name) = (nameOperations ext tx).map (fun op => op.name) ∧
      (CheckNameTransaction ext tx nHeight view = .valid →
        (nameOutputCount ext tx ≠ 0 → entries.length = 1) ∧
        (nameOutputCount ext tx = 0 → entries.length = 0)) := by
  by_cases hh : nHeight = MEMPOOL_HEIGHT
  · simp [ApplyNameTransaction, hh] at happly
  · rw [ApplyNameTransaction_eq ext tx nHeight view undo hh] at happly
    obtain ⟨es, h1, h2, h3, _⟩ := applyOutputs_undo ext tx.hash nHeight tx.vout 0 view undo
    simp only [Option.some.injEq] at happly
    rw [happly] at h1
    refine ⟨es, h1, h2, h3, ?_⟩
    intro hvalid
    have hle := CheckNameTransaction_valid_output_count ext tx nHeight view hvalid
    unfold nameOutputCount at *
    constructor
    · intro hne; omega
    · intro hz; omega

theorem ApplyNameTransaction_undo_entries_witness :
    CheckNameTransaction exampleCollaborators tx_register_alice 50 exampleViewNoNames =
      .valid ∧
    ApplyNameTransaction exampleCollaborators tx_register_alice 50 exampleViewNoNames
      emptyUndo = some (exampleViewAfterRegister, exampleUndoAfterRegister) ∧
    ∃ entries : List CNameTxUndo,
      exampleUndoAfterRegister.vnameundo = emptyUndo.vnameundo ++ entries ∧
      entries.length = nameOutputCount exampleCollaborators tx_register_alice ∧
      entries.map (fun e => e.name) = [name_p_alice] ∧
      entries.length = 1 :=
  ⟨by decide, rfl,
   (ApplyNameTransaction_undo_entries exampleCollaborators tx_register_alice 50
      exampleViewNoNames emptyUndo exampleViewAfterRegister exampleUndoAfterRegister
      rfl).imp fun _ h =>
    ⟨h.1, h.2.1, h.2.2.1, (h.2.2.2 (by decide)).1 (by decide)⟩⟩

theorem checkNameDatabase_valid_register (tx : CTransaction) (view : CCoinsView)
    (nameIn : Option NameInput) (nameOp : NameOperation)
    (hreg : nameOp.op = .OP_NAME_REGISTER)
    (hvalid : checkNameDatabase tx view nameIn nameOp = .valid) :
    view.GetName nameOp.name = none := by
  unfold checkNameDatabase at hvalid
  simp only [hreg] at hvalid
  cases hn : view.GetName nameOp.name with
  | none => rfl
  | some oldName => simp [hn, consensusInvalid] at hvalid

theorem checkNameDatabase_valid_update (tx : CTransaction) (view : CCoinsView)
    (input : NameInput) (nameOp : NameOperation)
    (hupd : nameOp.op = .OP_NAME_UPDATE)
    (hconfirmed : input.coinIn.nHeight ≠ MEMPOOL_HEIGHT)
    (hvalid : checkNameDatabase tx view (some input) nameOp = .valid) :
    view.GetName nameOp.name ≠ none := by
  unfold checkNameDatabase at hvalid
  simp only [hupd, if_true, NameOperation.isAnyUpdate_eq_true, Bool.not_true,
    Bool.false_eq_true, if_false, hconfirmed] at hvalid
  intro hn
  split_ifs at hvalid
  · cases hvalid
  · simp [hn, consensusInvalid] at hvalid

/-- C20: `ApplyNameTransaction` at a height other than `MEMPOOL_HEIGHT` never
makes a registered name unregistered; applied to a transaction accepted by
`CheckNameTransaction` against the same view, it moves the name of a REGISTER
from unregistered to registered and keeps the name of an UPDATE with a
confirmed name input registered. -/
theorem ApplyNameTransaction_transitions (ext : Collaborators) (tx : CTransaction)
    (nHeight : Nat) (view : CCoinsView) (undo : CBlockUndo)
    (hh : nHeight ≠ MEMPOOL_HEIGHT) :
    ∃ view1 undo1, ApplyNameTransaction ext tx nHeight view undo = some (view1, undo1) ∧
      (∀ name, view.GetName name ≠ none → view1.GetName name ≠ none) ∧
      (CheckNameTransaction ext tx nHeight view = .valid →
        (∀ o ∈ tx.vout, ∀ nameOp, ext.parseNameScript o.scriptPubKey = some nameOp →
          nameOp.op = .OP_NAME_REGISTER →
          view.GetName nameOp.name = none ∧ view1.GetName nameOp.name ≠ none) ∧
        (∀ o ∈ tx.vout, ∀ nameOp, ext.parseNameScript o.scriptPubKey = some nameOp →
          nameOp.op = .OP_NAME_UPDATE →
          ∀ txin ∈ tx.vin, ∀ coin, view.GetCoin txin.prevout = some coin →
            isNameOutput ext coin.out = true → coin.nHeight ≠ MEMPOOL_HEIGHT →
            view.GetName nameOp.name ≠ none ∧ view1.GetName nameOp.name ≠ none)) := by
  refine ⟨_, _, ApplyNameTransaction_eq ext tx nHeight view undo hh, ?_, ?_⟩
  · intro name hname
    exact applyOutputs_keeps _ _ _ _ _ _ _ name hname
  · intro hvalid
    constructor
    · intro o ho nameOp hop hreg
      obtain ⟨_, _, _, nameIn, _, _, _, _, _, hdb⟩ :=
        CheckNameTransaction_valid_name_output ext tx nHeight view o nameOp hvalid ho hop
      exact ⟨checkNameDatabase_valid_register tx view nameIn nameOp hreg hdb,
        applyOutputs_registers _ _ _ _ _ _ _ o nameOp ho hop⟩
    · intro o ho nameOp hop hupd txin hmem coin hcoin hnameCoin hconfirmed
      obtain ⟨_, hfound, hle, nameIn, hscan, _, _, _, _, hdb⟩ :=
        CheckNameTransaction_valid_name_output ext tx nHeight view o nameOp hvalid ho hop
      simp only [isNameOutput, Option.isSome_iff_exists] at hnameCoin
      obtain ⟨opIn, hopIn⟩ := hnameCoin
      have hnin : isNameInput ext view txin = true := by simp [isNameInput, hcoin, hopIn]
      have hpos : 0 < tx.vin.countP (isNameInput ext view) :=
        List.countP_pos_iff.2 ⟨txin, hmem, hnin⟩
      have hone : nameInputCount ext view tx = 1 := by
        unfold nameInputCount at *; omega
      obtain ⟨input, hscan', _, hc, _⟩ :=
        scanInputs_one ext view tx hfound hone txin coin opIn hmem hcoin hopIn
      rw [hscan] at hscan'
      cases hscan'
      refine ⟨checkNameDatabase_valid_update tx view input nameOp hupd ?_ hdb,
        applyOutputs_registers _ _ _ _ _ _ _ o nameOp ho hop⟩
      rw [hc]; exact hconfirmed

theorem ApplyNameTransaction_transitions_witness :
    (CheckNameTransaction exampleCollaborators tx_register_alice 50 exampleViewNoNames =
        .valid ∧
      exampleViewNoNames.GetName name_p_alice = none ∧
      ∃ view1 undo1,
        ApplyNameTransaction exampleCollaborators tx_register_alice 50 exampleViewNoNames
          emptyUndo = some (view1, undo1) ∧
        view1.GetName name_p_alice ≠ none) ∧
    (CheckNameTransaction exampleCollaborators tx_update_alice 50 exampleView = .valid ∧
      exampleView.GetName name_p_alice ≠ none ∧
      ∃ view1 undo1,
        ApplyNameTransaction exampleCollaborators tx_update_alice 50 exampleView
          emptyUndo = some (view1, undo1) ∧
        view1.GetName name_p_alice ≠ none) :=
  ⟨⟨by decide, by decide,
    (ApplyNameTransaction_transitions exampleCollaborators tx_register_alice 50
      exampleViewNoNames emptyUndo (by decide)).imp fun _ h1 =>
      h1.imp fun _ h2 =>
        ⟨h2.1, ((h2.2.2 (by decide)).1 txout_register_alice (by decide)
          ⟨.OP_NAME_REGISTER, name_p_alice, value_msg_hi, []⟩ (by decide) rfl).2⟩⟩,
   ⟨by decide, by decide,
    (ApplyNameTransaction_transitions exampleCollaborators tx_update_alice 50
      exampleView emptyUndo (by decide)).imp fun _ h1 =>
      h1.imp fun _ h2 =>
        ⟨h2.1, ((h2.2.2 (by decide)).2 txout_update_alice (by decide)
          ⟨.OP_NAME_UPDATE, name_p_alice, value_msg_hi, []⟩ (by decide) rfl
          ⟨⟨101, 0⟩⟩ (by decide) ⟨⟨1000000, [2]⟩, 20⟩ (by decide) (by decide)
          (by decide)).2⟩⟩⟩

/-! ## Pending inputs and assertion safety of `CheckNameTransaction` -/

/-- C27: an UPDATE that passes all earlier tests (all input coins found, amount
of at least the floor, valid name and value, one update-class name input with
the same name) and whose name input coin is pending, at `MEMPOOL_HEIGHT`, is
accepted without the name database being consulted: the verdict is acceptance
for every name-to-record mapping the view may hold. -/
theorem CheckNameTransaction_update_pending (ext : Collaborators)
    (tx : CTransaction) (nHeight : Nat) (view : CCoinsView) (o : CTxOut)
    (nameOp : NameOperation) (txin : CTxIn) (coin : Coin) (opIn : NameOperation)
    (hout : nameOutputCount ext tx = 1) (hfound : allInputsFound view tx = true)
    (ho : o ∈ tx.vout) (hop : ext.parseNameScript o.scriptPubKey = some nameOp)
    (hupd : nameOp.op = .OP_NAME_UPDATE)
    (hfloor : ext.MinNameCoinAmount nHeight ≤ o.nValue)
    (hname : IsNameValid ext.IsValidUtf8String nameOp.name = .valid)
    (hvalue : IsValueValid ext.read nameOp.value = .valid)
    (hin : nameInputCount ext view tx = 1) (hmem : txin ∈ tx.vin)
    (hcoin : view.GetCoin txin.prevout = some coin)
    (hopIn : ext.parseNameScript coin.out.scriptPubKey = some opIn)
    (_hclass : opIn.isAnyUpdate = true) (hsame : opIn.name = nameOp.name)
    (hpending : coin.nHeight = MEMPOOL_HEIGHT) :
    CheckNameTransaction ext tx nHeight view = .valid ∧
    ∀ names : valtype → Option CNameData,
      CheckNameTransaction ext tx nHeight ⟨view.GetCoin, names⟩ = .valid := by
  have key : ∀ names : valtype → Option CNameData,
      CheckNameTransaction ext tx nHeight ⟨view.GetCoin, names⟩ = .valid := by
    intro names
    rw [CheckNameTransaction_update_verdict ext tx nHeight ⟨view.GetCoin, names⟩ o nameOp txin
      coin opIn hout hfound ho hop hupd hfloor hname hvalue hin hmem hcoin hopIn hsame]
    simp [hpending]
  exact ⟨key view.GetName, key⟩

theorem CheckNameTransaction_update_pending_witness :
    CheckNameTransaction exampleCollaborators tx_update_pending 50 exampleViewPending =
      .valid ∧
    CheckNameTransaction exampleCollaborators tx_update_pending 50
      ⟨exampleViewPending.GetCoin, fun _ => none⟩ = .valid :=
  ⟨(CheckNameTransaction_update_pending exampleCollaborators tx_update_pending 50
      exampleViewPending txout_update_alice
      ⟨.OP_NAME_UPDATE, name_p_alice, value_msg_hi, []⟩ ⟨⟨104, 0⟩⟩
      ⟨⟨1000000, [2]⟩, MEMPOOL_HEIGHT⟩ ⟨.OP_NAME_UPDATE, name_p_alice, value_msg_hi, []⟩
      (by decide) (by decide) (by decide) (by decide) rfl (by decide) (by decide)
      (by decide) (by decide) (by decide) (by decide) (by decide) rfl rfl rfl).1,
   (CheckNameTransaction_update_pending exampleCollaborators tx_update_pending 50
      exampleViewPending txout_update_alice
      ⟨.OP_NAME_UPDATE, name_p_alice, value_msg_hi, []⟩ ⟨⟨104, 0⟩⟩
      ⟨⟨1000000, [2]⟩, MEMPOOL_HEIGHT⟩ ⟨.OP_NAME_UPDATE, name_p_alice, value_msg_hi, []⟩
      (by decide) (by decide) (by decide) (by decide) rfl (by decide) (by decide)
      (by decide) (by decide) (by decide) (by decide) (by decide) rfl rfl rfl).2
      (fun _ => none)⟩

theorem checkNameDatabase_safe (ext : Collaborators) (tx : CTransaction)
    (view : CCoinsView) (nameIn : Option NameInput) (nameOp : NameOperation)
    (hinv : nameConsistent ext view)
    (hdetail : ∀ input, nameIn = some input →
      ∃ txin, tx.vin[input.nameIn]? = some txin ∧
        view.GetCoin txin.prevout = some input.coinIn ∧
        ext.parseNameScript input.coinIn.out.scriptPubKey = some input.nameOpIn)
    (hrule : nameInputRule nameIn nameOp = none) :
    checkNameDatabase tx view nameIn nameOp ≠ .assertFailed ∧
    checkNameDatabase tx view nameIn nameOp ≠
      consensusInvalid "tx-nameupdate-nonexistant" := by
  unfold checkNameDatabase
  by_cases hupd : nameOp.op = .OP_NAME_UPDATE
  · simp only [hupd, if_true]
    cases nameIn with
    | none => simp [nameInputRule, hupd] at hrule
    | some input =>
      simp only [NameOperation.isAnyUpdate_eq_true, Bool.not_true, Bool.false_eq_true,
        if_false]
      by_cases hsame : nameOp.name = input.nameOpIn.name
      · simp only [hsame, ne_eq, not_true_eq_false, if_false]
        by_cases hpend : input.coinIn.nHeight = MEMPOOL_HEIGHT
        · simp [hpend, consensusInvalid]
        · obtain ⟨txin, hget, hcoin, hop⟩ := hdetail input rfl
          obtain ⟨data, hdata, hheight, hprev⟩ :=
            hinv txin.prevout input.coinIn input.nameOpIn hcoin hop hpend
          simp [hpend, hdata, hheight, hget, hprev, consensusInvalid]
      · simp [hsame, consensusInvalid]
  · simp only [hupd, if_false]
    cases view.GetName nameOp.name <;> simp [consensusInvalid]

/-- C28: against a view whose name database is consistent with its coins, no
assertion of `CheckNameTransaction` fails, for every transaction and height
(the name output is update-class, and the record of a confirmed name input has
the height and the outpoint of its coin), and no transaction is rejected as
`tx-nameupdate-nonexistant`. -/
theorem CheckNameTransaction_assertion_safe (ext : Collaborators) (view : CCoinsView)
    (tx : CTransaction) (nHeight : Nat) (hinv : nameConsistent ext view) :
    CheckNameTransaction ext tx nHeight view ≠ .assertFailed ∧
    CheckNameTransaction ext tx nHeight view ≠
      consensusInvalid "tx-nameupdate-nonexistant" ∧
    (∀ nameOp : NameOperation, nameOp.isAnyUpdate = true) := by
  refine ⟨?_, ?_, NameOperation.isAnyUpdate_eq_true⟩
  all_goals
    cases hin : scanInputs ext.parseNameScript view tx.vin 0 none with
    | returned v =>
      simp only [CheckNameTransaction, hin]
      rcases scanInputs_returned _ _ _ _ _ _ hin with h | h <;> rw [h] <;>
        simp [missingInputs, consensusInvalid]
    | done nameIn =>
      have hdetail : ∀ input, nameIn = some input →
          ∃ txin, tx.vin[input.nameIn]? = some txin ∧
            view.GetCoin txin.prevout = some input.coinIn ∧
            ext.parseNameScript input.coinIn.out.scriptPubKey = some input.nameOpIn := by
        intro input hinput
        obtain ⟨_, h2⟩ := scanInputs_done_detail _ view tx.vin 0 none _ hin
        obtain ⟨_, txin, hget, hc, hp⟩ := h2 rfl input hinput
        exact ⟨txin, by simpa using hget, hc, hp⟩
      rw [CheckNameTransaction_of_scans ext tx nHeight view nameIn hin]
      cases hout : scanOutputs ext.parseNameScript tx.vout 0 none with
      | returned v =>
        rw [scanOutputs_returned _ _ _ _ _ hout]
        simp [consensusInvalid]
      | done r =>
        cases r with
        | none =>
          simp only []
          split_ifs <;> simp [consensusInvalid]
        | some output =>
          simp only [NameOperation.isAnyUpdate_eq_true, Bool.not_true, Bool.false_eq_true,
            if_false]
          split_ifs
          · simp [consensusInvalid]
          · cases hrule : nameInputRule nameIn output.nameOpOut with
            | some v =>
              simp only []
              unfold nameInputRule at hrule
              split_ifs at hrule <;> cases hrule <;> simp [consensusInvalid]
            | none =>
              simp only []
              rcases IsNameValid_valid_or_reason ext.IsValidUtf8String
                output.nameOpOut.name with h | ⟨c, hc, h⟩
              · rw [h]
                simp only []
                rcases IsValueValid_valid_or_reason ext.read output.nameOpOut.value with
                  h | h | h | h
                · rw [h]
                  first
                    | exact (checkNameDatabase_safe ext tx view nameIn output.nameOpOut hinv
                        hdetail hrule).1
                    | exact (checkNameDatabase_safe ext tx view nameIn output.nameOpOut hinv
                        hdetail hrule).2
                · rw [h]; simp [consensusInvalid]
                · rw [h]; simp [consensusInvalid]
                · rw [h]; simp [consensusInvalid]
              · rw [h]
                simp only [nameRejectReasons, List.mem_cons, List.mem_singleton,
                  List.mem_nil_iff, or_false] at hc
                rcases hc with hc | hc | hc | hc | hc | hc <;> subst hc <;>
                  simp [consensusInvalid]

theorem exampleViewPending_consistent :
    nameConsistent exampleCollaborators exampleViewPending := by
  intro prevout coin nameOp hcoin hop hconf
  simp only [exampleViewPending] at hcoin
  split_ifs at hcoin with h1 h2 h3
  · cases hcoin
    simp [exampleCollaborators, exampleParseNameScript] at hop
  · cases hcoin
    simp only [exampleCollaborators, exampleParseNameScript, Option.some.injEq] at hop
    subst hop
    exact ⟨⟨value_msg_hi, 20, ⟨101, 0⟩⟩, by simp [exampleViewPending], rfl, h2.symm⟩
  · cases hcoin
    exact absurd rfl hconf

theorem CheckNameTransaction_assertion_safe_witness :
    CheckNameTransaction exampleCollaborators tx_update_alice 50 exampleViewPending ≠
      .assertFailed ∧
    CheckNameTransaction exampleCollaborators tx_update_alice 50 exampleViewPending ≠
      consensusInvalid "tx-nameupdate-nonexistant" ∧
    CheckNameTransaction exampleCollaborators tx_update_alice 50 exampleViewPending =
      .valid :=
  ⟨(CheckNameTransaction_assertion_safe exampleCollaborators exampleViewPending
      tx_update_alice 50 exampleViewPending_consistent).1,
   (CheckNameTransaction_assertion_safe exampleCollaborators exampleViewPending
      tx_update_alice 50 exampleViewPending_consistent).2.1,
   by decide⟩

/-! ## Order of undo and the contents of undo entries -/

/-- C29: reverse order is necessary for rollback: a REGISTER of the
unregistered name `p/alice` and an UPDATE of it are applied with
`ApplyNameTransaction` to a view without Name Records; the two undo entries
applied in the order of their production leave `p/alice` registered, a
name-to-record mapping other than that of the view started from, which the
reverse order restores. -/
theorem undoAll_forward_order_differs :
    ∃ (view : CCoinsView) (t1 t2 : CTransaction) (h1 h2 : Nat) (view1 : CCoinsView)
      (undo1 : CBlockUndo),
      (∃ o1 ∈ t1.vout, ∃ o2 ∈ t2.vout, ∃ op1 op2,
        exampleCollaborators.parseNameScript o1.scriptPubKey = some op1 ∧
        exampleCollaborators.parseNameScript o2.scriptPubKey = some op2 ∧
        op1.op = .OP_NAME_REGISTER ∧ op2.op = .OP_NAME_UPDATE ∧ op1.name = op2.name ∧
        view.GetName op1.name = none) ∧
      applyAll exampleCollaborators [(t1, h1), (t2, h2)] view emptyUndo =
        some (view1, undo1) ∧
      undo1.vnameundo.length = 2 ∧
      (undoAll undo1.vnameundo view1).GetName ≠ view.GetName ∧
      (undoAll undo1.vnameundo.reverse view1).GetName = view.GetName := by
  have happly : applyAll exampleCollaborators txs_register_then_update exampleViewNoNames
      emptyUndo = some (exampleViewAfterUpdate, exampleUndoAfterUpdate) := rfl
  refine ⟨exampleViewNoNames, tx_register_alice, tx_update_after_register, 50, 51,
    exampleViewAfterUpdate, exampleUndoAfterUpdate, ?_, happly, by decide, ?_, ?_⟩
  · exact ⟨txout_register_alice, by decide, txout_update_alice, by decide,
      ⟨.OP_NAME_REGISTER, name_p_alice, value_msg_hi, []⟩,
      ⟨.OP_NAME_UPDATE, name_p_alice, value_msg_hi, []⟩, by decide, by decide, rfl, rfl, rfl,
      by decide⟩
  · intro heq
    have hpoint := congrFun heq name_p_alice
    revert hpoint
    decide
  · obtain ⟨entries, hentries, hundo⟩ :=
      (applyAll_undo exampleCollaborators txs_register_then_update exampleViewNoNames
        emptyUndo).1 _ _ happly
    simp only [emptyUndo, List.nil_append] at hentries
    rw [hentries, hundo]

theorem applyOutputs_single_undo (ext : Collaborators) (hash nHeight : Nat)
    (l : List CTxOut) (i : Nat) (view : CCoinsView) (undo : CBlockUndo)
    (o : CTxOut) (op : NameOperation)
    (hcount : l.countP (isNameOutput ext) = 1) (ho : o ∈ l)
    (hop : ext.parseNameScript o.scriptPubKey = some op) :
    (applyOutputs ext.parseNameScript hash nHeight l i view undo).2.vnameundo =
      undo.vnameundo ++ [CNameTxUndo.fromOldState op.name view] := by
  induction l generalizing i with
  | nil => simp at ho
  | cons txout l ih =>
    rw [List.countP_cons] at hcount
    have hno : isNameOutput ext o = true := by simp [isNameOutput, hop]
    cases hp : ext.parseNameScript txout.scriptPubKey with
    | none =>
      have hn : isNameOutput ext txout = false := by simp [isNameOutput, hp]
      simp only [hn, Bool.false_eq_true, if_false, Nat.add_zero] at hcount
      have hmem : o ∈ l := by
        rcases List.mem_cons.1 ho with h | h
        · subst h; rw [hp] at hop; cases hop
        · exact h
      simp only [applyOutputs, hp]
      exact ih (i + 1) hcount hmem
    | some op' =>
      have hn : isNameOutput ext txout = true := by simp [isNameOutput, hp]
      simp only [hn, if_true] at hcount
      have hzero : l.countP (isNameOutput ext) = 0 := by omega
      have heq : o = txout := by
        rcases List.mem_cons.1 ho with h | h
        · exact h
        · rw [List.countP_eq_zero] at hzero
          exact absurd hno (hzero o h)
      subst heq
      rw [hp] at hop
      cases hop
      simp only [applyOutputs, hp, NameOperation.isAnyUpdate_eq_true, if_true]
      rw [applyOutputs_no_name ext hash nHeight l (i + 1) _ _ hzero]

/-- C30: for a transaction accepted by `CheckNameTransaction` against a view,
`ApplyNameTransaction` on that view appends for its name output one undo entry,
for the name of the output; `isNew` is true exactly when the view had no record
for the name; it is true when the output is a REGISTER, and false with
`oldData` the record of the view when the output is an UPDATE with a confirmed
name input. -/
theorem ApplyNameTransaction_undo_entry (ext : Collaborators) (tx : CTransaction)
    (nHeight : Nat) (view : CCoinsView) (undo : CBlockUndo) (o : CTxOut)
    (nameOp : NameOperation)
    (hvalid : CheckNameTransaction ext tx nHeight view = .valid)
    (ho : o ∈ tx.vout) (hop : ext.parseNameScript o.scriptPubKey = some nameOp)
    (hh : nHeight ≠ MEMPOOL_HEIGHT) :
    ∃ view1 entry,
      ApplyNameTransaction ext tx nHeight view undo =
        some (view1, ⟨undo.vnameundo ++ [entry]⟩) ∧
      entry.name = nameOp.name ∧
      (entry.isNew = true ↔ view.GetName nameOp.name = none) ∧
      (nameOp.op = .OP_NAME_REGISTER → entry.isNew = true) ∧
      (nameOp.op = .OP_NAME_UPDATE →
        ∀ txin ∈ tx.vin, ∀ coin, view.GetCoin txin.prevout = some coin →
          isNameOutput ext coin.out = true → coin.nHeight ≠ MEMPOOL_HEIGHT →
          entry.isNew = false ∧ view.GetName nameOp.name = some entry.oldData) := by
  obtain ⟨hone, hfound, hle, nameIn, hscan, _, _, _, _, hdb⟩ :=
    CheckNameTransaction_valid_name_output ext tx nHeight view o nameOp hvalid ho hop
  have hundo := applyOutputs_single_undo ext tx.hash nHeight tx.vout 0 view undo o nameOp
    hone ho hop
  refine ⟨(applyOutputs ext.parseNameScript tx.hash nHeight tx.vout 0 view undo).1,
    CNameTxUndo.fromOldState nameOp.name view, ?_, ?_, ?_, ?_, ?_⟩
  · rw [ApplyNameTransaction_eq ext tx nHeight view undo hh, ← hundo]
  · unfold CNameTxUndo.fromOldState
    cases view.GetName nameOp.name <;> rfl
  · unfold CNameTxUndo.fromOldState
    cases view.GetName nameOp.name <;> simp
  · intro hreg
    have hnone := checkNameDatabase_valid_register tx view nameIn nameOp hreg hdb
    simp [CNameTxUndo.fromOldState, hnone]
  · intro hupd txin hmem coin hcoin hnameCoin hconfirmed
    simp only [isNameOutput, Option.isSome_iff_exists] at hnameCoin
    obtain ⟨opIn, hopIn⟩ := hnameCoin
    have hnin : isNameInput ext view txin = true := by simp [isNameInput, hcoin, hopIn]
    have hpos : 0 < tx.vin.countP (isNameInput ext view) :=
      List.countP_pos_iff.2 ⟨txin, hmem, hnin⟩
    have hcount : nameInputCount ext view tx = 1 := by
      unfold nameInputCount at *; omega
    obtain ⟨input, hscan', _, hc, _⟩ :=
      scanInputs_one ext view tx hfound hcount txin coin opIn hmem hcoin hopIn
    rw [hscan] at hscan'
    cases hscan'
    have hsome := checkNameDatabase_valid_update tx view input nameOp hupd
      (by rw [hc]; exact hconfirmed) hdb
    obtain ⟨data, hdata⟩ := Option.ne_none_iff_exists'.1 hsome
    simp [CNameTxUndo.fromOldState, hdata]

theorem ApplyNameTransaction_undo_entry_witness :
    (CheckNameTransaction exampleCollaborators tx_register_alice 50 exampleViewNoNames =
        .valid ∧
      ∃ view1 entry,
        ApplyNameTransaction exampleCollaborators tx_register_alice 50 exampleViewNoNames
          emptyUndo = some (view1, ⟨emptyUndo.vnameundo ++ [entry]⟩) ∧
        entry.name = name_p_alice ∧ entry.isNew = true) ∧
    (CheckNameTransaction exampleCollaborators tx_update_alice 50 exampleView = .valid ∧
      ∃ view1 entry,
        ApplyNameTransaction exampleCollaborators tx_update_alice 50 exampleView
          emptyUndo = some (view1, ⟨emptyUndo.vnameundo ++ [entry]⟩) ∧
        entry.isNew = false ∧
        exampleView.GetName name_p_alice = some entry.oldData) :=
  ⟨⟨by decide,
    (ApplyNameTransaction_undo_entry exampleCollaborators tx_register_alice 50
      exampleViewNoNames emptyUndo txout_register_alice
      ⟨.OP_NAME_REGISTER, name_p_alice, value_msg_hi, []⟩
      (by decide) (by decide) (by decide) (by decide)).imp fun _ h1 =>
      h1.imp fun _ h2 => ⟨h2.1, h2.2.1, h2.2.2.2.1 rfl⟩⟩,
   ⟨by decide,
    (ApplyNameTransaction_undo_entry exampleCollaborators tx_update_alice 50
      exampleView emptyUndo txout_update_alice
      ⟨.OP_NAME_UPDATE, name_p_alice, value_msg_hi, []⟩
      (by decide) (by decide) (by decide) (by decide)).imp fun _ h1 =>
      h1.imp fun _ h2 =>
        ⟨h2.1, h2.2.2.2.2 rfl ⟨⟨101, 0⟩⟩ (by decide) ⟨⟨1000000, [2]⟩, 20⟩ (by decide)
          (by decide) (by decide)⟩⟩⟩

/-! ## Theorems about `CheckNameDB` -/

/-- C21, as the code has it: with the option 0 the name database is validated
on every call, for a connect and for a disconnect; with the option -1 it is
never validated and `CheckNameDB` returns normally; with any other negative
option it is not validated either, but the assertion `option >= 0` fails
instead of `CheckNameDB` returning. -/
theorem CheckNameDB_policy (node : NodeState) (disconnect : Bool) :
    (node.option = 0 →
      (CheckNameDB node disconnect).validationPerformed = true ∧
      (node.ValidateNameDB = true → CheckNameDB node disconnect = .validated)) ∧
    (node.option = -1 → CheckNameDB node disconnect = .returnedWithoutValidation) ∧
    (node.option < 0 → (CheckNameDB node disconnect).validationPerformed = false) ∧
    (node.option < -1 → CheckNameDB node disconnect = .optionAssertFailed) := by
  refine ⟨?_, ?_, ?_, ?_⟩
  · intro h
    unfold CheckNameDB
    simp only [h]
    cases node.ValidateNameDB <;> simp [NameDBCheck.validationPerformed]
  · intro h
    simp [CheckNameDB, h]
  · intro h
    unfold CheckNameDB
    by_cases h1 : node.option = -1
    · simp [h1, NameDBCheck.validationPerformed]
    · have h2 : ¬ node.option ≥ 0 := by omega
      simp [h1, h2, NameDBCheck.validationPerformed]
  · intro h
    unfold CheckNameDB
    have h1 : ¬ node.option = -1 := by omega
    have h2 : ¬ node.option ≥ 0 := by omega
    simp [h1, h2]

theorem CheckNameDB_policy_witness :
    (node_option_0.option = 0 ∧
      CheckNameDB node_option_0 false = .validated ∧
      CheckNameDB node_option_0 true = .validated) ∧
    (node_option_minus_1.option = -1 ∧
      CheckNameDB node_option_minus_1 false = .returnedWithoutValidation ∧
      CheckNameDB node_option_minus_1 true = .returnedWithoutValidation) ∧
    (node_option_minus_2.option < -1 ∧
      CheckNameDB node_option_minus_2 false = .optionAssertFailed) :=
  ⟨⟨by decide,
    ((CheckNameDB_policy node_option_0 false).1 (by decide)).2 rfl,
    ((CheckNameDB_policy node_option_0 true).1 (by decide)).2 rfl⟩,
   ⟨by decide,
    (CheckNameDB_policy node_option_minus_1 false).2.1 (by decide),
    (CheckNameDB_policy node_option_minus_1 true).2.1 (by decide)⟩,
   ⟨by decide, (CheckNameDB_policy node_option_minus_2 false).2.2.2 (by decide)⟩⟩

/-- C21 fails as stated: with `-checknamedb=-2`, a negative option,
`CheckNameDB` does not return normally; its assertion `option >= 0` fails. -/
theorem CheckNameDB_negative_option_counterexample :
    node_option_minus_2.option = -2 ∧
    CheckNameDB node_option_minus_2 false = .optionAssertFailed ∧
    CheckNameDB node_option_minus_2 true = .optionAssertFailed ∧
    (CheckNameDB node_option_minus_2 false).returnedNormally = false := by
  decide

/-! ## Pushes, the name prefix and witness programs -/

theorem takeData_append (b rest : List Nat) :
    takeData b.length (b ++ rest) = some (b, rest) := by
  simp [takeData]

theorem readPush_pushData (b : List Nat) (rest : CScript) (hb : b.length < 2 ^ 32) :
    readPush (pushData b ++ rest) = some (b, rest) := by
  unfold pushData
  simp only [OP_PUSHDATA1, OP_PUSHDATA2, OP_PUSHDATA4]
  by_cases h1 : b.length < 76
  · simp only [h1, if_true, List.cons_append, readPush, OP_PUSHDATA1, takeData_append]
  · by_cases h2 : b.length ≤ 0xff
    · simp [h1, h2, readPush, OP_PUSHDATA1, takeData_append]
    · by_cases h3 : b.length ≤ 0xffff
      · have h : b.length % 256 + 256 * (b.length / 256 % 256) = b.length := by omega
        simp [h1, h2, h3, readPush, OP_PUSHDATA1, OP_PUSHDATA2, h, takeData_append]
      · have h : b.length % 256 + 256 * (b.length / 256 % 256)
            + 65536 * (b.length / 65536 % 256) + 16777216 * (b.length / 16777216 % 256)
            = b.length := by omega
        simp [h1, h2, h3, readPush, OP_PUSHDATA1, OP_PUSHDATA2, OP_PUSHDATA4, h,
          takeData_append]

theorem parseNameScript_buildNamePrefix (tags : NameTags) (tag : Nat) (addr : CScript)
    (name value : valtype)
    (htag : tag = tags.OP_NAME_REGISTER ∨ tag = tags.OP_NAME_UPDATE)
    (hname : name.length < 2 ^ 32) (hvalue : value.length < 2 ^ 32) :
    parseNameScript tags (buildNamePrefix tag name value ++ addr) =
      some ⟨if tag = tags.OP_NAME_REGISTER then .OP_NAME_REGISTER else .OP_NAME_UPDATE,
        name, value, addr⟩ := by
  have h1 : readPush (pushData name ++ (pushData value ++ (OP_2DROP :: OP_DROP :: addr))) =
      some (name, pushData value ++ (OP_2DROP :: OP_DROP :: addr)) :=
    readPush_pushData name _ hname
  have h2 : readPush (pushData value ++ (OP_2DROP :: OP_DROP :: addr)) =
      some (value, OP_2DROP :: OP_DROP :: addr) :=
    readPush_pushData value _ hvalue
  simp only [buildNamePrefix, List.cons_append, List.append_assoc, List.nil_append,
    parseNameScript, htag, if_true, h1, h2, and_self]

theorem takeData_length (n : Nat) (script : CScript) (d : List Nat) (r : CScript)
    (h : takeData n script = some (d, r)) : script.length = n + r.length := by
  unfold takeData at h
  split_ifs at h with hn
  simp only [Option.some.injEq, Prod.mk.injEq] at h
  rw [← h.2, List.length_drop]
  omega

theorem readPush_length (script : CScript) (d : List Nat) (r : CScript)
    (h : readPush script = some (d, r)) :
    ∃ opcode tl, script = opcode :: tl ∧ r.length ≤ tl.length ∧
      (opcode < OP_PUSHDATA1 → tl.length = opcode + r.length) := by
  cases script with
  | nil => simp [readPush] at h
  | cons opcode rest =>
    refine ⟨opcode, rest, rfl, ?_⟩
    simp only [readPush] at h
    split_ifs at h with h1 h2 h3 h4
    · have := takeData_length _ _ _ _ h
      exact ⟨by omega, fun _ => this⟩
    · refine ⟨?_, fun hlt => absurd hlt h1⟩
      cases rest with
      | nil => simp at h
      | cons n rest1 =>
        have := takeData_length _ _ _ _ h
        simp only [List.length_cons]
        omega
    · refine ⟨?_, fun hlt => absurd hlt h1⟩
      match rest, h with
      | n0 :: n1 :: rest1, h =>
        have := takeData_length _ _ _ _ h
        simp only [List.length_cons]
        omega
    · refine ⟨?_, fun hlt => absurd hlt h1⟩
      match rest, h with
      | n0 :: n1 :: n2 :: n3 :: rest1, h =>
        have := takeData_length _ _ _ _ h
        simp only [List.length_cons]
        omega

theorem readPush_opcode (script : CScript) (d : List Nat) (r : CScript)
    (h : readPush script = some (d, r)) :
    ∃ opcode tl, script = opcode :: tl ∧ opcode ≤ OP_PUSHDATA4 := by
  cases script with
  | nil => simp [readPush] at h
  | cons opcode rest =>
    refine ⟨opcode, rest, rfl, ?_⟩
    simp only [readPush] at h
    split_ifs at h with h1 h2 h3 h4
    · simp only [OP_PUSHDATA1, OP_PUSHDATA4] at *; omega
    · simp only [OP_PUSHDATA1, OP_PUSHDATA4] at *; omega
    · simp only [OP_PUSHDATA2, OP_PUSHDATA4] at *; omega
    · simp only [OP_PUSHDATA4] at *; omega

/-- A script that carries a name prefix is no witness program for a caller
that does not allow names. -/
theorem witnessProgram_of_parseNameScript (tags : NameTags) (script : CScript)
    (nameOp : NameOperation) (h : parseNameScript tags script = some nameOp) :
    witnessProgram script = none := by
  cases script with
  | nil => simp [parseNameScript] at h
  | cons tag rest =>
    simp only [parseNameScript] at h
    by_cases htag : tag = tags.OP_NAME_REGISTER ∨ tag = tags.OP_NAME_UPDATE
    swap
    · rw [if_neg htag] at h
      cases h
    rw [if_pos htag] at h
    cases h1 : readPush rest with
    | none => simp [h1] at h
    | some p1 =>
      obtain ⟨name, rest1⟩ := p1
      simp only [h1] at h
      cases h2 : readPush rest1 with
      | none => simp [h2] at h
      | some p2 =>
        obtain ⟨value, rest2⟩ := p2
        simp only [h2] at h
        obtain ⟨opcode, tl, hrest, hle, hdirect⟩ := readPush_length _ _ _ h1
        obtain ⟨opcode2, tl2, hrest1, hle2, -⟩ := readPush_length _ _ _ h2
        match rest2, h, hle2 with
        | drop2 :: drop1 :: address, h, hle2 =>
          subst hrest hrest1
          simp only [List.length_cons] at hle hle2 hdirect
          unfold witnessProgram
          simp only [List.length_cons]
          split_ifs with ha hb hc
          · rfl
          · rfl
          · exfalso
            by_cases hd : opcode < OP_PUSHDATA1
            · have := hdirect hd
              omega
            · simp only [OP_PUSHDATA1] at hd
              omega
          · rfl

/-- A witness program carries no name prefix: what follows its version byte
is one push that ends the script. -/
theorem parseNameScript_of_witnessProgram (tags : NameTags) (script : CScript)
    (version : Nat) (program : List Nat)
    (h : witnessProgram script = some (version, program)) :
    parseNameScript tags script = none := by
  cases hp : parseNameScript tags script with
  | none => rfl
  | some nameOp =>
    rw [witnessProgram_of_parseNameScript tags script nameOp hp] at h
    cases h

theorem getAddress_of_witnessProgram (tags : NameTags) (script : CScript)
    (version : Nat) (program : List Nat)
    (h : witnessProgram script = some (version, program)) :
    getAddress tags script = script := by
  simp [getAddress, parseNameScript_of_witnessProgram tags script version program h]

theorem getAddress_buildNamePrefix (tags : NameTags) (tag : Nat) (addr : CScript)
    (name value : valtype)
    (htag : tag = tags.OP_NAME_REGISTER ∨ tag = tags.OP_NAME_UPDATE)
    (hname : name.length < 2 ^ 32) (hvalue : value.length < 2 ^ 32) :
    getAddress tags (buildNamePrefix tag name value ++ addr) = addr := by
  simp [getAddress, parseNameScript_buildNamePrefix tags tag addr name value htag hname hvalue]

theorem witnessProgram_iff (script : CScript) (version : Nat) (program : List Nat) :
    witnessProgram script = some (version, program) ↔
      4 ≤ script.length ∧ script.length ≤ 42 ∧
      ∃ opcode size, script = opcode :: size :: program ∧
        (opcode = OP_0 ∨ (OP_1 ≤ opcode ∧ opcode ≤ OP_16)) ∧
        size + 2 = script.length ∧ version = DecodeOP_N opcode := by
  unfold witnessProgram
  constructor
  · intro h
    split_ifs at h with hlen
    match script, h, hlen with
    | opcode :: size :: rest, h, hlen =>
      simp only at h
      split_ifs at h with hv hs
      simp only [Option.some.injEq, Prod.mk.injEq] at h
      refine ⟨by omega, by omega, opcode, size, by rw [h.2], ?_, hs, h.1.symm⟩
      by_cases h0 : opcode = OP_0
      · exact Or.inl h0
      · right
        by_contra hcon
        exact hv ⟨h0, by omega⟩
  · rintro ⟨h4, h42, opcode, size, rfl, hop, hsize, rfl⟩
    have hlen : ¬ ((opcode :: size :: program).length < 4 ∨
        (opcode :: size :: program).length > 42) := by omega
    have hv : ¬ (opcode ≠ OP_0 ∧ (opcode < OP_1 ∨ opcode > OP_16)) := by
      rintro ⟨h0, hr⟩
      rcases hop with hop | hop
      · exact h0 hop
      · omega
    simp only [hlen, if_false, hv, hsize, if_true]

theorem witnessProgram_of_p2wsh (script : CScript)
    (h : script.length = 34 ∧ script[0]? = some OP_0 ∧ script[1]? = some 0x20) :
    witnessProgram script = some (0, script.drop 2) := by
  obtain ⟨hlen, h0, h1⟩ := h
  match script, hlen, h0, h1 with
  | opcode :: size :: rest, hlen, h0, h1 =>
    simp only [List.getElem?_cons_zero, Option.some.injEq, List.getElem?_cons_succ] at h0 h1
    subst h0 h1
    simp only [List.length_cons] at hlen
    simp [witnessProgram, OP_0, DecodeOP_N, hlen]

theorem IsPayToWitnessScriptHash_false_iff (tags : NameTags) (s : CScript) :
    IsPayToWitnessScriptHash tags false s = true ↔
      ∃ hash : List Nat, hash.length = 32 ∧ s = OP_0 :: 32 :: hash := by
  simp only [IsPayToWitnessScriptHash, Bool.false_eq_true, if_false, decide_eq_true_eq]
  constructor
  · rintro ⟨hlen, h0, h1⟩
    match s, hlen, h0, h1 with
    | opcode :: size :: rest, hlen, h0, h1 =>
      simp only [List.getElem?_cons_zero, Option.some.injEq, List.getElem?_cons_succ] at h0 h1
      subst h0 h1
      simp only [List.length_cons] at hlen
      exact ⟨rest, by omega, rfl⟩
  · rintro ⟨hash, hlen, rfl⟩
    simp [hlen]

theorem IsPayToWitnessScriptHash_false_witnessProgram (tags : NameTags) (s : CScript)
    (h : witnessProgram s = none) : IsPayToWitnessScriptHash tags false s = false := by
  cases hp : IsPayToWitnessScriptHash tags false s with
  | false => rfl
  | true =>
    simp only [IsPayToWitnessScriptHash, Bool.false_eq_true, if_false,
      decide_eq_true_eq] at hp
    rw [witnessProgram_of_p2wsh s hp] at h
    cases h

/-- C22: a witness program `w` with version `ver` and program `p` that is
wrapped by `buildNameUpdate` with a name and a value (of lengths that a push
can encode, below 2^32) is a witness program with the same version and program
when names are allowed, and is no witness program when they are not; the
unwrapped `w` is classified alike under both flags. Likewise for
`IsPayToWitnessScriptHash`: with names allowed the wrapped script gets the
answer of `w` (true for a P2WSH script), without them it fails, and `w` itself
gets the same answer under both flags. -/
theorem IsWitnessProgram_name_wrapped (tags : NameTags) (w : CScript) (ver : Nat)
    (p : List Nat) (name value : valtype)
    (hw : IsWitnessProgram tags false w = some (ver, p))
    (hname : name.length < 2 ^ 32) (hvalue : value.length < 2 ^ 32) :
    IsWitnessProgram tags true (buildNameUpdate tags w name value) = some (ver, p) ∧
    IsWitnessProgram tags false (buildNameUpdate tags w name value) = none ∧
    IsWitnessProgram tags true w = IsWitnessProgram tags false w ∧
    IsPayToWitnessScriptHash tags true (buildNameUpdate tags w name value) =
      IsPayToWitnessScriptHash tags false w ∧
    IsPayToWitnessScriptHash tags false (buildNameUpdate tags w name value) = false ∧
    IsPayToWitnessScriptHash tags true w = IsPayToWitnessScriptHash tags false w := by
  have hw1 : witnessProgram w = some (ver, p) := hw
  have haddr : getAddress tags (buildNameUpdate tags w name value) = w :=
    getAddress_buildNamePrefix tags _ w name value (Or.inr rfl) hname hvalue
  have hself : getAddress tags w = w := getAddress_of_witnessProgram tags w ver p hw1
  have hnone : witnessProgram (buildNameUpdate tags w name value) = none :=
    witnessProgram_of_parseNameScript tags _ _
      (parseNameScript_buildNamePrefix tags _ w name value (Or.inr rfl) hname hvalue)
  refine ⟨?_, hnone, ?_, ?_, IsPayToWitnessScriptHash_false_witnessProgram tags _ hnone, ?_⟩
  · simp only [IsWitnessProgram, if_true, haddr, hw1]
  · simp only [IsWitnessProgram, if_true, hself, Bool.false_eq_true, if_false]
  · simp only [IsPayToWitnessScriptHash, if_true, haddr, Bool.false_eq_true, if_false]
  · simp only [IsPayToWitnessScriptHash, if_true, hself, Bool.false_eq_true, if_false]

theorem IsWitnessProgram_name_wrapped_witness :
    IsWitnessProgram exampleTags false test_p2wsh = some (0, List.replicate 32 0) ∧
    test_name.length < 2 ^ 32 ∧ test_value.length < 2 ^ 32 ∧
    IsWitnessProgram exampleTags true
      (buildNameUpdate exampleTags test_p2wsh test_name test_value) =
      some (0, List.replicate 32 0) ∧
    IsWitnessProgram exampleTags false
      (buildNameUpdate exampleTags test_p2wsh test_name test_value) = none ∧
    IsPayToWitnessScriptHash exampleTags false test_p2wsh = true ∧
    IsPayToWitnessScriptHash exampleTags true
      (buildNameUpdate exampleTags test_p2wsh test_name test_value) = true ∧
    IsPayToWitnessScriptHash exampleTags false
      (buildNameUpdate exampleTags test_p2wsh test_name test_value) = false :=
  have h := IsWitnessProgram_name_wrapped exampleTags test_p2wsh 0 (List.replicate 32 0)
    test_name test_value (by decide) (by decide) (by decide)
  have hp : IsPayToWitnessScriptHash exampleTags false test_p2wsh = true := by decide
  ⟨by decide, by decide, by decide, h.1, h.2.1, hp, h.2.2.2.1.trans hp, h.2.2.2.2.1⟩

/-- C23: the name prefix alone, built by `buildNameRegister` or
`buildNameUpdate` around the empty script with a name and a value (of lengths
below 2^32), is no witness program, neither with names allowed nor without,
although its first byte is the tag, and a tag from `OP_1`..`OP_16` in front of
one push of 2 to 40 bytes is a witness program with the tag as its version. -/
theorem IsWitnessProgram_name_prefix_alone (tags : NameTags) (name value : valtype)
    (hname : name.length < 2 ^ 32) (hvalue : value.length < 2 ^ 32) :
    IsWitnessProgram tags true (buildNameRegister tags [] name value) = none ∧
    IsWitnessProgram tags false (buildNameRegister tags [] name value) = none ∧
    IsWitnessProgram tags true (buildNameUpdate tags [] name value) = none ∧
    IsWitnessProgram tags false (buildNameUpdate tags [] name value) = none ∧
    (buildNameRegister tags [] name value).head? = some tags.OP_NAME_REGISTER ∧
    (buildNameUpdate tags [] name value).head? = some tags.OP_NAME_UPDATE ∧
    (tags.wellFormed → ∀ program : List Nat, 2 ≤ program.length → program.length ≤ 40 →
      IsWitnessProgram tags false (tags.OP_NAME_REGISTER :: program.length :: program) =
        some (DecodeOP_N tags.OP_NAME_REGISTER, program) ∧
      IsWitnessProgram tags false (tags.OP_NAME_UPDATE :: program.length :: program) =
        some (DecodeOP_N tags.OP_NAME_UPDATE, program)) := by
  have hreg : getAddress tags (buildNameRegister tags [] name value) = [] :=
    getAddress_buildNamePrefix tags _ [] name value (Or.inl rfl) hname hvalue
  have hupd : getAddress tags (buildNameUpdate tags [] name value) = [] :=
    getAddress_buildNamePrefix tags _ [] name value (Or.inr rfl) hname hvalue
  have hempty : witnessProgram [] = none := rfl
  refine ⟨?_, ?_, ?_, ?_, rfl, rfl, ?_⟩
  · simp only [IsWitnessProgram, if_true, hreg, hempty]
  · exact witnessProgram_of_parseNameScript tags _ _
      (parseNameScript_buildNamePrefix tags _ [] name value (Or.inl rfl) hname hvalue)
  · simp only [IsWitnessProgram, if_true, hupd, hempty]
  · exact witnessProgram_of_parseNameScript tags _ _
      (parseNameScript_buildNamePrefix tags _ [] name value (Or.inr rfl) hname hvalue)
  · rintro ⟨h1, h2, h3, h4, -⟩ program hlo hhi
    constructor
    · exact (witnessProgram_iff _ _ _).mpr ⟨by simp only [List.length_cons]; omega,
        by simp only [List.length_cons]; omega, _, _, rfl, Or.inr ⟨h1, h2⟩,
        by simp only [List.length_cons], rfl⟩
    · exact (witnessProgram_iff _ _ _).mpr ⟨by simp only [List.length_cons]; omega,
        by simp only [List.length_cons]; omega, _, _, rfl, Or.inr ⟨h3, h4⟩,
        by simp only [List.length_cons], rfl⟩

theorem IsWitnessProgram_name_prefix_alone_witness :
    test_name.length < 2 ^ 32 ∧ test_value.length < 2 ^ 32 ∧ exampleTags.wellFormed ∧
    IsNoWitnessProgram exampleTags true
      (buildNameRegister exampleTags [] test_name test_value) = true ∧
    IsNoWitnessProgram exampleTags false
      (buildNameRegister exampleTags [] test_name test_value) = true ∧
    IsNoWitnessProgram exampleTags true
      (buildNameUpdate exampleTags [] test_name test_value) = true ∧
    IsNoWitnessProgram exampleTags false
      (buildNameUpdate exampleTags [] test_name test_value) = true :=
  have h := IsWitnessProgram_name_prefix_alone exampleTags test_name test_value
    (by decide) (by decide)
  ⟨by decide, by decide, by unfold NameTags.wellFormed; decide,
    by simp only [IsNoWitnessProgram, h.1, Option.isNone_none],
    by simp only [IsNoWitnessProgram, h.2.1, Option.isNone_none],
    by simp only [IsNoWitnessProgram, h.2.2.1, Option.isNone_none],
    by simp only [IsNoWitnessProgram, h.2.2.2.1, Option.isNone_none]⟩

/-- C24: without names allowed, `IsWitnessProgram` accepts a script `s` with
version `ver` and program `p` exactly when `4 <= |s| <= 42`, the first byte is
`OP_0` or one of `OP_1`..`OP_16`, the second byte plus 2 is `|s|`, `ver` is the
version decoded from the first byte and `p` is the rest of the script; then
`ver <= 16` and `p` has 2 to 40 bytes. The scripts of the repository tests are
classified as the tests expect: the three valid programs are accepted, and the
empty script, `OP_1NEGATE` as version, programs of 1 and 41 bytes, an extra
`OP_NOP` and a hash pushed with `OP_PUSHDATA1`, `2` or `4` are rejected. -/
theorem IsWitnessProgram_without_names (tags : NameTags) (s : CScript) (ver : Nat)
    (p : List Nat) :
    (IsWitnessProgram tags false s = some (ver, p) ↔
      4 ≤ s.length ∧ s.length ≤ 42 ∧
      ∃ opcode size, s = opcode :: size :: p ∧
        (opcode = OP_0 ∨ (OP_1 ≤ opcode ∧ opcode ≤ OP_16)) ∧
        size + 2 = s.length ∧ ver = DecodeOP_N opcode) ∧
    (IsWitnessProgram tags false s = some (ver, p) →
      ver ≤ 16 ∧ 2 ≤ p.length ∧ p.length ≤ 40 ∧ p = s.drop 2) ∧
    ((IsWitnessProgram tags false s).isSome = true ↔
      4 ≤ s.length ∧ s.length ≤ 42 ∧
      (∃ opcode, s[0]? = some opcode ∧ (opcode = OP_0 ∨ (OP_1 ≤ opcode ∧ opcode ≤ OP_16))) ∧
      ∃ size, s[1]? = some size ∧ size + 2 = s.length) ∧
    IsExpectedWitnessProgram tags false wit_version_0 0 test_program = true ∧
    IsExpectedWitnessProgram tags false wit_version_16 16 test_program_40 = true ∧
    IsExpectedWitnessProgram tags false wit_version_5 5 test_program_32 = true ∧
    IsNoWitnessProgram tags false nowit_version = true ∧
    IsNoWitnessProgram tags false nowit_size_1 = true ∧
    IsNoWitnessProgram tags false nowit_size_41 = true ∧
    IsNoWitnessProgram tags false nowit_nop = true ∧
    IsNoWitnessProgram tags false [] = true ∧
    IsNoWitnessProgram tags false bytes_pushdata1 = true ∧
    IsNoWitnessProgram tags false bytes_pushdata2 = true ∧
    IsNoWitnessProgram tags false bytes_pushdata4 = true := by
  have hplain : ∀ script, IsWitnessProgram tags false script = witnessProgram script :=
    fun _ => rfl
  refine ⟨?_, ?_, ?_, ?_, ?_, ?_, ?_, ?_, ?_, ?_, ?_, ?_, ?_, ?_⟩
  · rw [hplain]
    exact witnessProgram_iff s ver p
  · rw [hplain]
    intro h
    obtain ⟨h4, h42, opcode, size, hs, hop, hsize, hver⟩ := (witnessProgram_iff s ver p).mp h
    subst hs
    simp only [List.length_cons] at h4 h42 hsize
    refine ⟨?_, by omega, by omega, rfl⟩
    subst hver
    unfold DecodeOP_N
    split_ifs
    · omega
    · simp only [OP_0, OP_1, OP_16] at *
      omega
  · rw [hplain]
    constructor
    · intro h
      cases hw : witnessProgram s with
      | none => simp [hw] at h
      | some r =>
        obtain ⟨v, prog⟩ := r
        obtain ⟨h4, h42, opcode, size, hs, hop, hsize, -⟩ :=
          (witnessProgram_iff s v prog).mp hw
        subst hs
        exact ⟨h4, h42, ⟨opcode, rfl, hop⟩, size, by simp, hsize⟩
    · rintro ⟨h4, h42, ⟨opcode, h0, hop⟩, size, h1, hsize⟩
      match s, h4, h42, h0, h1, hsize with
      | a :: b :: rest, h4, h42, h0, h1, hsize =>
        simp only [List.getElem?_cons_zero, Option.some.injEq,
          List.getElem?_cons_succ] at h0 h1
        subst h0 h1
        rw [(witnessProgram_iff (a :: b :: rest) (DecodeOP_N a) rest).mpr
          ⟨h4, h42, a, b, rfl, hop, hsize, rfl⟩]
        rfl
  all_goals (simp only [IsExpectedWitnessProgram, IsNoWitnessProgram, hplain]; decide)

/-- C25: without names allowed, `IsPayToWitnessScriptHash` accepts a script
exactly when it is the 34 bytes `OP_0`, the push length 32 and 32 further
bytes. The scripts of the repository tests are classified as the tests
expect: the two P2WSH scripts are accepted, and `OP_1` as version, a 20-byte
hash, an interposed `OP_NOP`, the empty script and a hash pushed with
`OP_PUSHDATA1`, `2` or `4` are rejected. -/
theorem IsPayToWitnessScriptHash_without_names (tags : NameTags) (s : CScript) :
    (IsPayToWitnessScriptHash tags false s = true ↔
      ∃ hash : List Nat, hash.length = 32 ∧ s = OP_0 :: 32 :: hash) ∧
    (IsPayToWitnessScriptHash tags false s = true ↔
      s.length = 34 ∧ s[0]? = some OP_0 ∧ s[1]? = some 32) ∧
    IsPayToWitnessScriptHash tags false test_p2wsh = true ∧
    IsPayToWitnessScriptHash tags false bytes_p2wsh = true ∧
    IsPayToWitnessScriptHash tags false notp2wsh_op_1 = false ∧
    IsPayToWitnessScriptHash tags false notp2wsh_size = false ∧
    IsPayToWitnessScriptHash tags false notp2wsh_nop = false ∧
    IsPayToWitnessScriptHash tags false [] = false ∧
    IsPayToWitnessScriptHash tags false bytes_pushdata1 = false ∧
    IsPayToWitnessScriptHash tags false bytes_pushdata2 = false ∧
    IsPayToWitnessScriptHash tags false bytes_pushdata4 = false := by
  refine ⟨IsPayToWitnessScriptHash_false_iff tags s, ?_, ?_, ?_, ?_, ?_, ?_, ?_, ?_, ?_, ?_⟩
  · simp only [IsPayToWitnessScriptHash, Bool.false_eq_true, if_false, decide_eq_true_eq]
  all_goals (simp only [IsPayToWitnessScriptHash, Bool.false_eq_true, if_false]; decide)

/-- C26: codec round trip. For every inner script `s`, every name `n` and
every value `v` of lengths that a push can encode (below 2^32, which every
valid name and value is), and distinct tags, parsing `buildNameRegister (s, n,
v)` gives the operation REGISTER with name `n`, value `v` and address `s`,
parsing `buildNameUpdate (s, n, v)` gives UPDATE with name `n`, value `v` and
address `s`, and both built scripts are name operations. -/
theorem parseNameScript_round_trip (tags : NameTags) (s : CScript) (n v : valtype)
    (htags : tags.OP_NAME_REGISTER ≠ tags.OP_NAME_UPDATE)
    (hn : n.length < 2 ^ 32) (hv : v.length < 2 ^ 32) :
    parseNameScript tags (buildNameRegister tags s n v) =
      some ⟨.OP_NAME_REGISTER, n, v, s⟩ ∧
    parseNameScript tags (buildNameUpdate tags s n v) =
      some ⟨.OP_NAME_UPDATE, n, v, s⟩ ∧
    isNameOp tags (buildNameRegister tags s n v) = true ∧
    isNameOp tags (buildNameUpdate tags s n v) = true ∧
    getAddress tags (buildNameRegister tags s n v) = s ∧
    getAddress tags (buildNameUpdate tags s n v) = s := by
  have hreg : parseNameScript tags (buildNameRegister tags s n v) =
      some ⟨.OP_NAME_REGISTER, n, v, s⟩ := by
    unfold buildNameRegister
    rw [parseNameScript_buildNamePrefix tags _ s n v (Or.inl rfl) hn hv, if_pos rfl]
  have hupd : parseNameScript tags (buildNameUpdate tags s n v) =
      some ⟨.OP_NAME_UPDATE, n, v, s⟩ := by
    unfold buildNameUpdate
    rw [parseNameScript_buildNamePrefix tags _ s n v (Or.inr rfl) hn hv,
      if_neg (fun h => htags h.symm)]
  refine ⟨hreg, hupd, ?_, ?_, ?_, ?_⟩
  · simp only [isNameOp, hreg, Option.isSome_some]
  · simp only [isNameOp, hupd, Option.isSome_some]
  · simp only [getAddress, hreg]
  · simp only [getAddress, hupd]

theorem parseNameScript_round_trip_witness :
    exampleTags.OP_NAME_REGISTER ≠ exampleTags.OP_NAME_UPDATE ∧
    name_p_alice.length < 2 ^ 32 ∧ value_msg_hi.length < 2 ^ 32 ∧
    parseNameScript exampleTags
      (buildNameRegister exampleTags test_wit name_p_alice value_msg_hi) =
      some ⟨.OP_NAME_REGISTER, name_p_alice, value_msg_hi, test_wit⟩ ∧
    parseNameScript exampleTags
      (buildNameUpdate exampleTags test_wit name_p_alice value_msg_hi) =
      some ⟨.OP_NAME_UPDATE, name_p_alice, value_msg_hi, test_wit⟩ :=
  have h := parseNameScript_round_trip exampleTags test_wit name_p_alice value_msg_hi
    (by decide) (by decide) (by decide)
  ⟨by decide, by decide, by decide, h.1, h.2.1⟩

/-! ## The frame of apply and undo -/

theorem applyOutputs_frame (P : CScript → Option NameOperation) (hash nHeight : Nat)
    (l : List CTxOut) (i : Nat) (view : CCoinsView) (undo : CBlockUndo) (n : valtype)
    (hn : n ∉ (l.filterMap (fun txout => P txout.scriptPubKey)).map (fun op => op.name)) :
    (applyOutputs P hash nHeight l i view undo).1.GetName n = view.GetName n := by
  induction l generalizing i view undo with
  | nil => rfl
  | cons txout l ih =>
    simp only [applyOutputs]
    cases hp : P txout.scriptPubKey with
    | none =>
      simp only [List.filterMap_cons, hp] at hn
      exact ih _ _ _ hn
    | some op =>
      simp only [List.filterMap_cons, hp, List.map_cons, List.mem_cons, not_or] at hn
      simp only [NameOperation.isAnyUpdate_eq_true, if_true]
      rw [ih _ _ _ hn.2]
      simp only [CCoinsView.SetName, hn.1, if_false]

theorem CNameTxUndo.apply_frame (entry : CNameTxUndo) (view : CCoinsViewCache) :
    (∀ n, n ≠ entry.name → (entry.apply view).GetName n = view.GetName n) ∧
    (entry.apply view).GetCoin = view.GetCoin := by
  unfold CNameTxUndo.apply
  cases entry.isNew with
  | true =>
    refine ⟨fun n hn => ?_, rfl⟩
    simp only [if_true, CCoinsView.DeleteName, hn, if_false]
  | false =>
    refine ⟨fun n hn => ?_, rfl⟩
    simp only [Bool.false_eq_true, if_false, CCoinsView.SetName, hn]

/-- C31: frame of apply and undo. At a height other than `MEMPOOL_HEIGHT`,
`ApplyNameTransaction` returns, and it leaves the record (or the absence of
one) of every name that no name-operation output of the transaction carries as
it was; the coins of the view are untouched and the undo list keeps the entries
it had; for a transaction with no name-operation output the view and the undo
list are exactly as before. `CNameTxUndo::apply` changes the record of no name
but the entry's own, and no coin. -/
theorem ApplyNameTransaction_frame (ext : Collaborators) (tx : CTransaction)
    (nHeight : Nat) (view : CCoinsView) (undo : CBlockUndo)
    (hh : nHeight ≠ MEMPOOL_HEIGHT) :
    ∃ view1 undo1, ApplyNameTransaction ext tx nHeight view undo = some (view1, undo1) ∧
      (∀ n, n ∉ (nameOperations ext tx).map (fun op => op.name) →
        view1.GetName n = view.GetName n) ∧
      view1.GetCoin = view.GetCoin ∧
      (∃ entries, undo1.vnameundo = undo.vnameundo ++ entries) ∧
      (nameOutputCount ext tx = 0 → view1 = view ∧ undo1 = undo) ∧
      ∀ (entry : CNameTxUndo) (v : CCoinsViewCache),
        (∀ n, n ≠ entry.name → (entry.apply v).GetName n = v.GetName n) ∧
        (entry.apply v).GetCoin = v.GetCoin := by
  refine ⟨_, _, ApplyNameTransaction_eq ext tx nHeight view undo hh, ?_, ?_, ?_, ?_, ?_⟩
  · intro n hn
    exact applyOutputs_frame _ _ _ _ _ _ _ n hn
  · exact applyOutputs_getCoin _ _ _ _ _ _ _
  · obtain ⟨entries, h, -⟩ := applyOutputs_undo ext tx.hash nHeight tx.vout 0 view undo
    exact ⟨entries, h⟩
  · intro h0
    rw [applyOutputs_no_name ext tx.hash nHeight tx.vout 0 view undo h0]
    exact ⟨rfl, rfl⟩
  · intro entry v
    exact CNameTxUndo.apply_frame entry v

theorem ApplyNameTransaction_frame_witness :
    (51 : Nat) ≠ MEMPOOL_HEIGHT ∧
    name_p_bob ∉ (nameOperations exampleCollaborators tx_update_after_register).map
      (fun op => op.name) ∧
    ∃ view1 undo1,
      ApplyNameTransaction exampleCollaborators tx_update_after_register 51
        exampleViewTwoNames emptyUndo = some (view1, undo1) ∧
      view1.GetName name_p_bob = some ⟨value_hello, 30, ⟨105, 0⟩⟩ ∧
      view1.GetName name_Alice = none :=
  ⟨by decide, by decide,
    (ApplyNameTransaction_frame exampleCollaborators tx_update_after_register 51
      exampleViewTwoNames emptyUndo (by decide)).imp fun _ h1 =>
      h1.imp fun _ h2 =>
        ⟨h2.1, (h2.2.1 name_p_bob (by decide)).trans rfl,
          (h2.2.1 name_Alice (by decide)).trans rfl⟩⟩

/-! ## Theorems about the chain parameters -/

/-- C32: with an option `N > 0`, `CheckNameDB` performs the name-database
validation exactly when it is called for a connect (`disconnect = false`) and
the height of the active chain is a multiple of `N` (`Height % N == 0`); on
every disconnect, and on a connect at any other height, it returns without
validating. Without the argument `-checknamedb` the option is the default of
the chain: -1 on mainnet and testnet, where nothing is ever validated, and 0
on regtest, where every call validates. -/
theorem CheckNameDB_every_N_blocks (node : NodeState) (disconnect : Bool)
    (hN : 0 < node.option) :
    ((CheckNameDB node disconnect).validationPerformed = true ↔
      disconnect = false ∧ node.Height.tmod node.option = 0) ∧
    (disconnect = false → node.Height.tmod node.option = 0 →
      CheckNameDB node disconnect =
        if node.ValidateNameDB then .validated else .validationAssertFailed) ∧
    (disconnect = true → CheckNameDB node disconnect = .returnedWithoutValidation) ∧
    (node.Height.tmod node.option ≠ 0 →
      CheckNameDB node disconnect = .returnedWithoutValidation) ∧
    (node.Height.tmod node.option = 0 ↔ node.option ∣ node.Height) ∧
    CChainParams.DefaultCheckNameDB .CMainParams = -1 ∧
    CChainParams.DefaultCheckNameDB .CTestNetParams = -1 ∧
    CChainParams.DefaultCheckNameDB .CRegTestParams = 0 ∧
    (∀ (params : CChainParams) (Height : Int) (valid : Bool),
      (NodeState.onChain params none Height valid).option = params.DefaultCheckNameDB) ∧
    (∀ (Height : Int) (valid flag : Bool),
      CheckNameDB (NodeState.onChain .CMainParams none Height valid) flag =
        .returnedWithoutValidation ∧
      CheckNameDB (NodeState.onChain .CTestNetParams none Height valid) flag =
        .returnedWithoutValidation ∧
      (CheckNameDB (NodeState.onChain .CRegTestParams none Height valid) flag
        ).validationPerformed = true) := by
  have h1 : ¬ node.option = -1 := by omega
  have h2 : node.option ≥ 0 := by omega
  have h3 : node.option ≠ 0 := by omega
  refine ⟨?_, ?_, ?_, ?_, ?_, rfl, rfl, rfl, ?_, ?_⟩
  · unfold CheckNameDB
    by_cases hd : disconnect = true
    · simp [h1, h2, h3, hd, NameDBCheck.validationPerformed]
    · by_cases hm : node.Height.tmod node.option = 0
      · cases hv : node.ValidateNameDB <;>
          simp [h1, h2, h3, hd, hm, NameDBCheck.validationPerformed]
      · simp [h1, h2, h3, hd, hm, NameDBCheck.validationPerformed]
  · intro hd hm
    unfold CheckNameDB
    simp [h1, h2, h3, hd, hm]
  · intro hd
    unfold CheckNameDB
    simp [h1, h2, h3, hd]
  · intro hm
    unfold CheckNameDB
    simp [h1, h2, h3, hm]
  · exact ⟨Int.dvd_of_tmod_eq_zero, Int.tmod_eq_zero_of_dvd⟩
  · intro params Height valid
    cases params <;> rfl
  · intro Height valid flag
    refine ⟨rfl, rfl, ?_⟩
    cases valid <;> rfl

theorem CheckNameDB_every_N_blocks_witness :
    0 < node_option_4.option ∧ 0 < node_option_4_off.option ∧
    CheckNameDB node_option_4 false = .validated ∧
    CheckNameDB node_option_4 true = .returnedWithoutValidation ∧
    CheckNameDB node_option_4_off false = .returnedWithoutValidation :=
  ⟨by decide, by decide,
    (CheckNameDB_every_N_blocks node_option_4 false (by decide)).2.1 rfl (by decide),
    (CheckNameDB_every_N_blocks node_option_4 true (by decide)).2.2.1 rfl,
    (CheckNameDB_every_N_blocks node_option_4_off false (by decide)).2.2.2.1 (by decide)⟩

theorem toInt64_of_range (x : Int) (hlo : -9223372036854775808 ≤ x)
    (hhi : x ≤ 9223372036854775807) : toInt64 x = x := by
  unfold toInt64
  omega

theorem avgTargetSpacingLoop_two (params : Consensus.Params) (height : Nat) (a b : Int)
    (ha : params.rules.GetTargetSpacing .SHA256D height = a)
    (hb : params.rules.GetTargetSpacing .NEOSCRYPT height = b)
    (hapos : 0 < a) (hbpos : 0 < b) (hsum : a + b ≤ INT64_MAX)
    (hprod : a * b ≤ INT64_MAX) :
    avgTargetSpacingLoop params height [PowAlgo.SHA256D, PowAlgo.NEOSCRYPT] (1, 0) =
      (a * b, a + b) := by
  unfold INT64_MAX at hsum hprod
  have hab : 0 < a * b := Int.mul_pos hapos hbpos
  have hA : toInt64 a = a := toInt64_of_range a (by omega) (by omega)
  have hB : toInt64 b = b := toInt64_of_range b (by omega) (by omega)
  have h1 : toInt64 1 = 1 := by decide
  have h0 : toInt64 0 = 0 := by decide
  have hS : toInt64 (b + a) = a + b := by
    rw [toInt64_of_range (b + a) (by omega) (by omega)]
    omega
  have hP : toInt64 (a * b) = a * b := toInt64_of_range (a * b) (by omega) (by omega)
  simp only [avgTargetSpacingLoop, ha, hb, hA, hB, zero_mul, h0, zero_add, h1, one_mul,
    hS, hP]

/-- C33, as the code has it: for positive target spacings `a` (SHA256D) and `b`
(NEOSCRYPT) at the given height whose sum and product fit into an `int64_t`,
the loop computes the numerator `a * b` and the denominator `a + b`; the
assertion `denom > 0` holds, and the assertion `numer % denom == 0` holds
exactly when `a + b` divides `a * b`; in that case the function returns
`r = a * b / (a + b)`, which is positive and satisfies `r * (a + b) = a * b`. -/
theorem AvgTargetSpacing_exact (params : Consensus.Params) (height : Nat) (a b : Int)
    (ha : params.rules.GetTargetSpacing .SHA256D height = a)
    (hb : params.rules.GetTargetSpacing .NEOSCRYPT height = b)
    (hapos : 0 < a) (hbpos : 0 < b) (hsum : a + b ≤ INT64_MAX)
    (hprod : a * b ≤ INT64_MAX) :
    avgTargetSpacingLoop params height [PowAlgo.SHA256D, PowAlgo.NEOSCRYPT] (1, 0) =
      (a * b, a + b) ∧
    AvgTargetSpacing params height ≠ .denomAssertFailed ∧
    (a + b ∣ a * b →
      AvgTargetSpacing params height = .returned (a * b / (a + b)) ∧
      a * b / (a + b) * (a + b) = a * b ∧ 0 < a * b / (a + b)) ∧
    (¬ a + b ∣ a * b → AvgTargetSpacing params height = .remainderAssertFailed) ∧
    ((∃ r, AvgTargetSpacing params height = .returned r) ↔ a + b ∣ a * b) := by
  have hloop := avgTargetSpacingLoop_two params height a b ha hb hapos hbpos hsum hprod
  have hden : a + b > 0 := by omega
  have hab : 0 < a * b := Int.mul_pos hapos hbpos
  have hdiv : a + b ∣ a * b →
      AvgTargetSpacing params height = .returned (a * b / (a + b)) := by
    intro h
    have hm : (a * b).tmod (a + b) = 0 := Int.tmod_eq_zero_of_dvd h
    have hq : (a * b).tdiv (a + b) = a * b / (a + b) :=
      Int.tdiv_eq_ediv (by omega) (by omega)
    simp only [AvgTargetSpacing, hloop, hden, not_true_eq_false, if_false, hm, hq]
  have hndiv : ¬ a + b ∣ a * b →
      AvgTargetSpacing params height = .remainderAssertFailed := by
    intro h
    have hm : ¬ (a * b).tmod (a + b) = 0 := fun h0 => h (Int.dvd_of_tmod_eq_zero h0)
    simp only [AvgTargetSpacing, hloop, hden, not_true_eq_false, if_false, hm,
      not_false_eq_true, if_true]
  refine ⟨hloop, ?_, ?_, hndiv, ?_⟩
  · by_cases h : a + b ∣ a * b
    · rw [hdiv h]
      intro hc
      cases hc
    · rw [hndiv h]
      intro hc
      cases hc
  · intro h
    have hmul : a * b / (a + b) * (a + b) = a * b := Int.ediv_mul_cancel h
    refine ⟨hdiv h, hmul, ?_⟩
    by_contra hneg
    have hle : a * b / (a + b) ≤ 0 := by omega
    have : a * b / (a + b) * (a + b) ≤ 0 :=
      Int.mul_nonpos_of_nonpos_of_nonneg hle (by omega)
    omega
  · constructor
    · rintro ⟨r, hr⟩
      by_contra h
      rw [hndiv h] at hr
      cases hr
    · intro h
      exact ⟨_, hdiv h⟩

theorem AvgTargetSpacing_exact_witness :
    (0 : Int) < 120 ∧ (0 : Int) < 40 ∧ (120 : Int) + 40 ≤ INT64_MAX ∧
    (120 : Int) * 40 ≤ INT64_MAX ∧ ((120 : Int) + 40 ∣ 120 * 40) ∧
    AvgTargetSpacing params_120_40 0 = .returned 30 ∧
    AvgTargetSpacing params_120_50 0 = .remainderAssertFailed :=
  ⟨by decide, by decide, by decide, by decide, by decide,
    ((AvgTargetSpacing_exact params_120_40 0 120 40 rfl rfl (by decide) (by decide)
      (by decide) (by decide)).2.2.1 (by decide)).1,
    (AvgTargetSpacing_exact params_120_50 0 120 50 rfl rfl (by decide) (by decide)
      (by decide) (by decide)).2.2.2.1 (by decide)⟩

/-- C33 fails as stated: the target spacings `a = b = 2^32` are positive and
`a + b = 2^33` divides `a * b = 2^64`, with quotient `2^31`, but the product
does not fit into an `int64_t`: the numerator is 0, both assertions hold, and
the function returns 0. With `a = 1` and `b = 2^63 - 1`, both positive, it is
the sum that does not fit, and the assertion `denom > 0` fails. -/
theorem AvgTargetSpacing_overflow_counterexample :
    params_2_32.rules.GetTargetSpacing .SHA256D 0 = 4294967296 ∧
    params_2_32.rules.GetTargetSpacing .NEOSCRYPT 0 = 4294967296 ∧
    ((4294967296 : Int) + 4294967296 ∣ 4294967296 * 4294967296) ∧
    (4294967296 : Int) * 4294967296 / (4294967296 + 4294967296) = 2147483648 ∧
    avgTargetSpacingLoop params_2_32 0 [PowAlgo.SHA256D, PowAlgo.NEOSCRYPT] (1, 0) =
      (0, 8589934592) ∧
    AvgTargetSpacing params_2_32 0 = .returned 0 ∧
    AvgTargetSpacing params_2_32 0 ≠ .returned 2147483648 ∧
    params_1_max.rules.GetTargetSpacing .SHA256D 0 = 1 ∧
    params_1_max.rules.GetTargetSpacing .NEOSCRYPT 0 = INT64_MAX ∧
    AvgTargetSpacing params_1_max 0 = .denomAssertFailed := by
  refine ⟨rfl, rfl, ?_, by decide, by decide, by decide, by decide, rfl, rfl, by decide⟩
  exact ⟨2147483648, by decide⟩

end Xaya
